import Mathlib

/-!
Verification of the orderbook matching engine (src/book.rs, src/half.rs,
src/lib.rs) against its natural-language specification.

The Rust code is embedded shallowly: machine integers (i64, u64, usize)
become Int and Nat; the one place where unsigned wrap-around matters
(the `as usize` cast in `calculate_price_index`) is modelled with an
explicit `% 2^64`; `Vec` becomes `List` (with `Vec::push`/`Vec::pop` on
`free_list` modelled as cons/head, so the top of the Rust stack is the
head of the list); `HashMap<u64, usize>` becomes an association list with
insert-overwrites semantics; fallible functions return
`Except String _` paired with the post state (Rust methods take
`&mut self`, so mutations performed before an early `return Err` persist;
the pair keeps that state observable).  The unbounded `while` loops of
`match_size` are modelled with an explicit fuel parameter; a fuel of
`arena.length + orders.length + 2` is proved sufficient on well-formed
books.
-/

namespace Orderbook

/-- Error messages are opaque strings in the source (`type Error = String`);
the formatted indices are dropped. -/
def invalidOrderMsg : String := "Invalid order"

def outOfBoundsLevelMsg : String := "Out of bounds on the price level somehow"

def tailNotInArenaMsg : String := "The tail cant be gotten from the arena"

def arenaIndexOobMsg : String := "We tried to get from arena index but it was out of bounds"

def idNotInIdsMsg : String := "This order with id is not in our ids map"

def idNotInArenaMsg : String := "This order with id is not in our arena"

def idNotInOrdersMsg : String := "This order with id is not in our orders"

def failedGetLevelMsg : String := "Failed to get price level"

def arenaAccessFailedMsg : String := "Arena access failed"

def failedReborrowMsg : String := "Failed to reborrow level"

def levelMissingMsg : String := "Level missing"

def prevNotInArenaMsg : String := "The prev order is not in our arena"

def nextNotInArenaMsg : String := "The next order is not in our arena"

def failedAccessLevelMsg : String := "Failed to access the price level for this index"

/-- Models divergence of the Rust `while` loops: never reached when the
fuel bound proved below is respected. -/
def fuelExhaustedMsg : String := "fuel exhausted"

/-- `Side` from src/lib.rs. -/
inductive Side where
  | Buy : Side
  | Sell : Side
deriving Repr, DecidableEq

/-- `Order` from src/lib.rs (the arena record). -/
structure Order where
  id : Nat
  price_index : Nat
  size : Int
  prev : Option Nat
  next : Option Nat
deriving Repr, DecidableEq

/-- `Default` for `Order`: all fields zero / `None`. -/
def Order.default : Order := ⟨0, 0, 0, none, none⟩

/-- `PriceLevel` from src/lib.rs. -/
structure PriceLevel where
  head : Option Nat
  tail : Option Nat
  total_size : Int
deriving Repr, DecidableEq

def PriceLevel.default : PriceLevel := ⟨none, none, 0⟩

/-- `PriceSize` from src/lib.rs. -/
structure PriceSize where
  price : Int
  size : Int
deriving Repr, DecidableEq

/-- `HalfBook` from src/half.rs. -/
structure HalfBook where
  min_price : Int
  max_price : Int
  tick_size : Int
  side : Side
  orders : List PriceLevel
  top_of_book : Option Nat
  arena : List Order
  free_list : List Nat
  ids : List (Nat × Nat)
deriving Repr, DecidableEq

/-- 2^64, the modulus of `usize` on the 64-bit targets the crate builds for. -/
def USIZE : Int := 18446744073709551616

/-- `HashMap::get` on the association-list model. -/
def idsLookup (l : List (Nat × Nat)) (k : Nat) : Option Nat :=
  (l.find? (fun pr => pr.1 == k)).map (fun pr => pr.2)

/-- `HashMap::insert` (overwrites any previous binding of the key). -/
def idsStore (l : List (Nat × Nat)) (k v : Nat) : List (Nat × Nat) :=
  (k, v) :: l.filter (fun pr => !(pr.1 == k))

/-- `HashMap::remove`, dropping the binding of the key. -/
def idsErase (l : List (Nat × Nat)) (k : Nat) : List (Nat × Nat) :=
  l.filter (fun pr => !(pr.1 == k))

namespace HalfBook

/-- `HalfBook::new`.  The Rust `Vec` free list `[0, 1, ..., L-1]` pops from
its end, so its cons-list model is the reversed range. -/
def new (side : Side) (max_price min_price tick_size : Int) : HalfBook :=
  let ladder_size : Nat := ((Int.tdiv (max_price - min_price) tick_size + 1).emod USIZE).toNat
  { min_price := min_price
    max_price := max_price
    tick_size := tick_size
    side := side
    top_of_book := none
    orders := List.replicate ladder_size PriceLevel.default
    arena := List.replicate ladder_size Order.default
    free_list := (List.range ladder_size).reverse
    ids := [] }

/-- `HalfBook::calculate_price_index`: `((price - min_price) / tick_size) as usize`.
Rust `i64` division truncates toward zero (`Int.tdiv`); the `as usize` cast
wraps modulo 2^64, sending negative quotients to huge indices. -/
def calculate_price_index (b : HalfBook) (price : Int) : Nat :=
  ((Int.tdiv (price - b.min_price) b.tick_size).emod USIZE).toNat

/-- `HalfBook::get_price_from_index`: `index as i64 + self.min_price`.
Note the source does not multiply by `tick_size`. -/
def get_price_from_index (b : HalfBook) (index : Nat) : Int :=
  (index : Int) + b.min_price

/-- The `top_of_book` update at the end of `HalfBook::insert`. -/
def insertTob (side : Side) (tob : Option Nat) (price_index : Nat) : Option Nat :=
  match side, tob with
  | _, none => some price_index
  | Side.Buy, some t => if t < price_index then some price_index else some t
  | Side.Sell, some t => if t > price_index then some price_index else some t

/-- The descending scan of `find_next_best_level` (Buy side): starting
just below the argument, return the first index whose level has
`total_size != 0`. -/
def findDown (b : HalfBook) : Nat → Option Nat
  | 0 => none
  | t + 1 =>
    match b.orders[t]? with
    | some pl => if pl.total_size ≠ 0 then some t else findDown b t
    | none => findDown b t

/-- The ascending scan of `find_next_best_level` (Sell side); the fuel is
the number of remaining loop iterations `L - tob`. -/
def findUp (b : HalfBook) : Nat → Nat → Option Nat
  | 0, _ => none
  | fuel + 1, t =>
    match b.orders[t + 1]? with
    | some pl => if pl.total_size ≠ 0 then some (t + 1) else findUp b fuel (t + 1)
    | none => findUp b fuel (t + 1)

/-- `HalfBook::find_next_best_level`. -/
def find_next_best_level (b : HalfBook) (tob : Nat) : Option Nat :=
  match b.side with
  | Side.Buy => if tob = 0 then none else findDown b tob
  | Side.Sell =>
    if tob = b.orders.length then none else findUp b (b.orders.length - tob) tob

/-- `HalfBook::remove_order_from_linked_list`. -/
def remove_order_from_linked_list (b : HalfBook) (prev next : Option Nat) :
    Except String Unit × HalfBook :=
  let step1 : Except String Unit × HalfBook :=
    match prev with
    | none => (Except.ok (), b)
    | some p =>
      match b.arena[p]? with
      | none => (Except.error prevNotInArenaMsg, b)
      | some po =>
        (Except.ok (), { b with arena := b.arena.set p ({ po with next := next }) })
  match step1 with
  | (Except.error e, b1) => (Except.error e, b1)
  | (Except.ok _, b1) =>
    match next with
    | none => (Except.ok (), b1)
    | some nx =>
      match b1.arena[nx]? with
      | none => (Except.error nextNotInArenaMsg, b1)
      | some no =>
        (Except.ok (), { b1 with arena := b1.arena.set nx ({ no with prev := prev }) })

/-- `HalfBook::remove_head_of_price_level`. -/
def remove_head_of_price_level (b : HalfBook) (index : Nat) :
    Except String Unit × HalfBook :=
  match b.orders[index]? with
  | none => (Except.error failedAccessLevelMsg, b)
  | some price_level =>
    match price_level.head with
    | none => (Except.ok (), b)
    | some head_arena_index =>
      match b.arena[head_arena_index]? with
      | none => (Except.error failedAccessLevelMsg, b)
      | some head_order =>
        let pl1 := { price_level with total_size := price_level.total_size - head_order.size }
        let pl2 := if pl1.tail = some head_arena_index then { pl1 with tail := none } else pl1
        let pl3 := { pl2 with head := head_order.next }
        let b1 := { b with orders := b.orders.set index pl3 }
        match remove_order_from_linked_list b1 head_order.prev head_order.next with
        | (Except.error e, b2) => (Except.error e, b2)
        | (Except.ok _, b2) => (Except.ok (), b2)

/-- Tail of `HalfBook::insert` after the old tail (if any) has been
relinked: set the level tail, overwrite the arena record, record the id,
update `top_of_book`. -/
def insertFinish (b : HalfBook) (id : Nat) (price_index : Nat) (size : Int)
    (arena_index : Nat) (old_tail : Option Nat) : Except String Unit × HalfBook :=
  match b.orders[price_index]? with
  | none => (Except.error outOfBoundsLevelMsg, b)
  | some level =>
    let levelT := { level with tail := some arena_index }
    let b4 := { b with orders := b.orders.set price_index levelT }
    match b4.arena[arena_index]? with
    | none => (Except.error arenaIndexOobMsg, b4)
    | some _ =>
      let newOrder : Order := ⟨id, price_index, size, old_tail, none⟩
      let b5 := { b4 with arena := b4.arena.set arena_index newOrder }
      let b6 := { b5 with ids := idsStore b5.ids id arena_index }
      (Except.ok (), { b6 with top_of_book := insertTob b6.side b6.top_of_book price_index })

/-- Body of `HalfBook::insert` after the arena slot `arena_index` has been
acquired (`b1` is the state after the free-list pop or the arena grow). -/
def insertAfter (b1 : HalfBook) (id : Nat) (price_index : Nat) (size : Int)
    (arena_index : Nat) : Except String Unit × HalfBook :=
  match b1.orders[price_index]? with
  | none => (Except.error outOfBoundsLevelMsg, b1)
  | some level =>
    let level1 := { level with total_size := level.total_size + size }
    let level2 := if level1.head = none then { level1 with head := some arena_index } else level1
    let old_tail := level2.tail
    let b2 := { b1 with orders := b1.orders.set price_index level2 }
    match old_tail with
    | some tail_index =>
      match b2.arena[tail_index]? with
      | none => (Except.error tailNotInArenaMsg, b2)
      | some prev_order =>
        let relinked := { prev_order with next := some arena_index }
        let b3 := { b2 with arena := b2.arena.set tail_index relinked }
        insertFinish b3 id price_index size arena_index old_tail
    | none => insertFinish b2 id price_index size arena_index none

/-- `HalfBook::insert`. -/
def insert (b0 : HalfBook) (id : Nat) (price size : Int) :
    Except String Unit × HalfBook :=
  if price ≤ 0 ∨ size ≤ 0 then (Except.error invalidOrderMsg, b0)
  else
    let price_index := b0.calculate_price_index price
    match b0.free_list with
    | ai :: rest => insertAfter { b0 with free_list := rest } id price_index size ai
    | [] =>
      insertAfter { b0 with arena := b0.arena ++ [Order.default] } id price_index size
        b0.arena.length

/-- `HalfBook::remove`. -/
def remove (b0 : HalfBook) (id : Nat) : Except String Unit × HalfBook :=
  match idsLookup b0.ids id with
  | none => (Except.error idNotInIdsMsg, b0)
  | some arena_index =>
    let b1 := { b0 with ids := idsErase b0.ids id }
    match b1.arena[arena_index]? with
    | none => (Except.error idNotInArenaMsg, b1)
    | some order =>
      match b1.orders[order.price_index]? with
      | none => (Except.error idNotInOrdersMsg, b1)
      | some level =>
        let level1 := if level.head = some arena_index then { level with head := order.next } else level
        let level2 := if level1.tail = some arena_index then { level1 with tail := order.prev } else level1
        let level3 := { level2 with total_size := level2.total_size - order.size }
        let b2 := { b1 with orders := b1.orders.set order.price_index level3 }
        match remove_order_from_linked_list b2 order.prev order.next with
        | (Except.error e, b3) => (Except.error e, b3)
        | (Except.ok _, b3) =>
          let b4 :=
            match b3.top_of_book with
            | some tob =>
              if tob = order.price_index ∧ level3.total_size = 0 then { b3 with top_of_book := b3.find_next_best_level tob }
              else b3
            | none => b3
          (Except.ok (), { b4 with free_list := arena_index :: b4.free_list })

/-- `HalfBook::modify`. -/
def modify (b0 : HalfBook) (id : Nat) (price size : Int) :
    Except String Unit × HalfBook :=
  let price_index := b0.calculate_price_index price
  match idsLookup b0.ids id with
  | none => (Except.error idNotInIdsMsg, b0)
  | some arena_index =>
    match b0.arena[arena_index]? with
    | none => (Except.error idNotInArenaMsg, b0)
    | some order =>
      if order.price_index ≠ price_index then
        match b0.remove id with
        | (Except.error e, b1) => (Except.error e, b1)
        | (Except.ok _, b1) =>
          match b1.insert id price size with
          | (Except.error e, b2) => (Except.error e, b2)
          | (Except.ok _, b2) => (Except.ok (), b2)
      else
        match b0.orders[order.price_index]? with
        | none => (Except.error idNotInOrdersMsg, b0)
        | some level =>
          let level1 := { level with total_size := level.total_size - order.size + size }
          let b1 := { b0 with orders := b0.orders.set order.price_index level1 }
          let order' := { order with size := size }
          (Except.ok (), { b1 with arena := b1.arena.set arena_index order' })

/-- The inner `loop` of `HalfBook::match_size`: consume orders at level
`tob` head first, returning the remaining `size` and accumulated
`notional` when it breaks.  The fuel models the unbounded Rust loop. -/
def matchInner (b : HalfBook) : Nat → Nat → Int → Int →
    Except String (Int × Int) × HalfBook
  | 0, _, _, _ => (Except.error fuelExhaustedMsg, b)
  | fuel + 1, tob, size, notional =>
    match b.orders[tob]? with
    | none => (Except.error failedGetLevelMsg, b)
    | some level =>
      if size ≤ 0 ∨ level.total_size ≤ 0 then (Except.ok (size, notional), b)
      else
        match level.head with
        | none => (Except.ok (size, notional), b)
        | some order_index =>
          match b.arena[order_index]? with
          | none => (Except.error arenaAccessFailedMsg, b)
          | some order =>
            let traded := min size order.size
            let order' := { order with size := order.size - traded }
            let b1 := { b with arena := b.arena.set order_index order' }
            let order_empty := order.size - traded = 0
            match b1.orders[tob]? with
            | none => (Except.error failedReborrowMsg, b1)
            | some level2 =>
              let level2' := { level2 with total_size := level2.total_size - traded }
              let b2 := { b1 with orders := b1.orders.set tob level2' }
              let size' := size - traded
              let notional' := notional + traded * b.get_price_from_index tob
              if order_empty then
                match b2.remove_head_of_price_level tob with
                | (Except.error e, b3) => (Except.error e, b3)
                | (Except.ok _, b3) =>
                  let b4 := { b3 with ids := idsErase b3.ids order.id, free_list := order_index :: b3.free_list }
                  matchInner b4 fuel tob size' notional'
              else matchInner b2 fuel tob size' notional'

/-- The outer `while size > 0` loop of `HalfBook::match_size`. -/
def matchOuter (b : HalfBook) : Nat → Int → Int → Except String Int × HalfBook
  | 0, _, _ => (Except.error fuelExhaustedMsg, b)
  | fuel + 1, size, notional =>
    if size > 0 then
      match b.top_of_book with
      | none => (Except.ok notional, b)
      | some tob =>
        match matchInner b fuel tob size notional with
        | (Except.error e, b') => (Except.error e, b')
        | (Except.ok (size', notional'), b') =>
          match b'.orders[tob]? with
          | none => (Except.error levelMissingMsg, b')
          | some level =>
            let b'' := if level.total_size = 0 then { b' with top_of_book := b'.find_next_best_level tob } else b'
            matchOuter b'' fuel size' notional'
    else (Except.ok notional, b)

/-- `HalfBook::match_size`, with explicit fuel for its loops. -/
def match_size (fuel : Nat) (b : HalfBook) (size : Int) :
    Except String Int × HalfBook :=
  if size = 0 then (Except.error invalidOrderMsg, b)
  else matchOuter b fuel size 0

/-- Fuel that is proved sufficient for `match_size` on well-formed books:
resting orders never outnumber arena slots, and at most one scan per
ladder level can happen. -/
def autoFuel (b : HalfBook) : Nat := b.arena.length + b.orders.length + 2

/-- `HalfBook::get_total_liquidity`. -/
def get_total_liquidity (b : HalfBook) : Int :=
  b.orders.foldl (fun acc o => acc + o.total_size) 0

/-- `HalfBook::get_top_of_book`. -/
def get_top_of_book (b : HalfBook) : Option PriceSize :=
  b.top_of_book.bind (fun tob =>
    (b.orders[tob]?).map (fun o =>
      { size := o.total_size, price := b.get_price_from_index tob }))

end HalfBook

/-- `OrderType` from src/lib.rs. -/
inductive OrderType where
  | Market : OrderType
  | Limit : Int → OrderType
deriving Repr, DecidableEq

/-- `OrderTicket` from src/lib.rs. -/
structure OrderTicket where
  order_type : OrderType
  size : Int
  side : Side
deriving Repr, DecidableEq

/-- `MarketOrderResponse` from src/lib.rs. -/
structure MarketOrderResponse where
  notional : Int
  size : Int
deriving Repr, DecidableEq

/-- `LimitOrderResponse` from src/lib.rs. -/
structure LimitOrderResponse where
  id : Nat
deriving Repr, DecidableEq

/-- `OrderResponse` from src/lib.rs. -/
inductive OrderResponse where
  | Market : MarketOrderResponse → OrderResponse
  | Limit : LimitOrderResponse → OrderResponse
deriving Repr, DecidableEq

/-- Constants from src/book.rs. -/
def MIN_PRICE : Int := 1

def MAX_PRICE : Int := 999999

def TICK_SIZE : Int := 1

end Orderbook

open Orderbook

/-- `Orderbook` from src/book.rs. -/
structure Orderbook where
  bids : HalfBook
  asks : HalfBook
  event_log : List OrderTicket
  current_id : Nat
deriving Repr, DecidableEq

namespace Orderbook

/-- `Orderbook::new`. -/
def new : Orderbook :=
  { bids := HalfBook.new Side.Buy MAX_PRICE MIN_PRICE TICK_SIZE
    asks := HalfBook.new Side.Sell MAX_PRICE MIN_PRICE TICK_SIZE
    event_log := []
    current_id := 0 }

/-- `Orderbook::get_top_of_book`. -/
def get_top_of_book (ob : Orderbook) (side : Side) : Option PriceSize :=
  match side with
  | Side.Sell => ob.asks.get_top_of_book
  | Side.Buy => ob.bids.get_top_of_book

/-- `Orderbook::get_best_bid`. -/
def get_best_bid (ob : Orderbook) : Option PriceSize :=
  ob.get_top_of_book Side.Buy

/-- `Orderbook::get_best_ask`. -/
def get_best_ask (ob : Orderbook) : Option PriceSize :=
  ob.get_top_of_book Side.Sell

/-- `Orderbook::total_liquidity`. -/
def total_liquidity (ob : Orderbook) (side : Side) : Int :=
  match side with
  | Side.Sell => ob.asks.get_total_liquidity
  | Side.Buy => ob.bids.get_total_liquidity

/-- `Orderbook::get_next_id`. -/
def get_next_id (ob : Orderbook) : Nat × Orderbook :=
  (ob.current_id, { ob with current_id := ob.current_id + 1 })

/-- `Orderbook::handle_taker` (the fuel is threaded to `match_size`). -/
def handle_taker (fuel : Nat) (ob : Orderbook) (side : Side) (size : Int) :
    Except String MarketOrderResponse × Orderbook :=
  match side with
  | Side.Sell =>
    match HalfBook.match_size fuel ob.bids size with
    | (Except.error e, h) => (Except.error e, { ob with bids := h })
    | (Except.ok notional, h) =>
      (Except.ok { notional := notional, size := size }, { ob with bids := h })
  | Side.Buy =>
    match HalfBook.match_size fuel ob.asks size with
    | (Except.error e, h) => (Except.error e, { ob with asks := h })
    | (Except.ok notional, h) =>
      (Except.ok { notional := notional, size := size }, { ob with asks := h })

/-- `Orderbook::handle_maker`. -/
def handle_maker (ob : Orderbook) (side : Side) (price size : Int) :
    Except String LimitOrderResponse × Orderbook :=
  let acq := ob.get_next_id
  let id := acq.1
  let ob1 := acq.2
  match side with
  | Side.Sell =>
    match ob1.asks.insert id price size with
    | (Except.error e, h) => (Except.error e, { ob1 with asks := h })
    | (Except.ok _, h) => (Except.ok { id := id }, { ob1 with asks := h })
  | Side.Buy =>
    match ob1.bids.insert id price size with
    | (Except.error e, h) => (Except.error e, { ob1 with bids := h })
    | (Except.ok _, h) => (Except.ok { id := id }, { ob1 with bids := h })

/-- `Orderbook::accept_order`. -/
def accept_order (fuel : Nat) (ob : Orderbook) (t : OrderTicket) :
    Except String OrderResponse × Orderbook :=
  match t.order_type with
  | OrderType.Market =>
    match handle_taker fuel ob t.side t.size with
    | (Except.error e, ob') => (Except.error e, ob')
    | (Except.ok r, ob') => (Except.ok (OrderResponse.Market r), ob')
  | OrderType.Limit price =>
    let crosses_book : Bool :=
      match t.side with
      | Side.Buy => ((ob.get_best_ask).map (fun o => decide (o.price ≤ price))).getD false
      | Side.Sell => ((ob.get_best_bid).map (fun o => decide (o.price ≥ price))).getD false
    if crosses_book then
      match handle_taker fuel ob t.side t.size with
      | (Except.error e, ob') => (Except.error e, ob')
      | (Except.ok r, ob') => (Except.ok (OrderResponse.Market r), ob')
    else
      match handle_maker ob t.side price t.size with
      | (Except.error e, ob') => (Except.error e, ob')
      | (Except.ok r, ob') => (Except.ok (OrderResponse.Limit r), ob')

end Orderbook

/-! ## Specification-side definitions

`WF b Q` is the well-formedness invariant of a `HalfBook` relative to an
explicit witness `Q` assigning to each ladder index the list of arena
slots of its FIFO, head first.  It packages the invariants of spec §3.
All quantifiers are bounded, so `WF` is decidable on concrete states. -/

/-- `p` is no better than `t` under the side ordering (spec §3: best =
highest index on Buy, lowest on Sell). -/
def sideLeB (s : Side) (p t : Nat) : Bool :=
  match s with
  | Side.Buy => p ≤ t
  | Side.Sell => t ≤ p

/-- `chainB A p prev cur q = true` iff the arena slots `q` form the
doubly-linked FIFO of level `p` starting at pointer `cur`, where the
first element's back pointer must equal `prev`. -/
def chainB (A : List Order) (p : Nat) : Option Nat → Option Nat → List Nat → Bool
  | _, cur, [] => cur == none
  | prevIdx, cur, a :: rest =>
    cur == some a &&
    (match A[a]? with
     | none => false
     | some o => o.price_index == p && o.prev == prevIdx && chainB A p (some a) o.next rest)

/-- Sum of the sizes of the given arena slots. -/
def sumSizes (A : List Order) (q : List Nat) : Int :=
  (q.map (fun a => (A.getD a Order.default).size)).sum

/-- One level of the representation invariant: `q` realizes the FIFO of
the level, the tail pointer is its last element, `total_size` is the sum
of its sizes, and every resting size is positive. -/
def levelRep (A : List Order) (p : Nat) (pl : PriceLevel) (q : List Nat) : Prop :=
  chainB A p none pl.head q = true ∧
  pl.tail = q.getLast? ∧
  pl.total_size = sumSizes A q ∧
  ∀ a ∈ q, 0 < (A.getD a Order.default).size

/-- The cached `top_of_book` is the best populated level, or `none` iff
no level is populated (spec invariant 5). -/
def TobSpec (b : HalfBook) : Prop :=
  match b.top_of_book with
  | some t => t < b.orders.length ∧
      (b.orders.getD t PriceLevel.default).total_size ≠ 0 ∧
      ∀ p < b.orders.length,
        (b.orders.getD p PriceLevel.default).total_size ≠ 0 → sideLeB b.side p t = true
  | none => ∀ p < b.orders.length, (b.orders.getD p PriceLevel.default).total_size = 0

instance instDecTobSpec (b : HalfBook) : Decidable (TobSpec b) := by
  unfold TobSpec
  cases b.top_of_book
  · exact inferInstance
  · exact inferInstance

/-- The structural part of well-formedness: everything except the
cached-top-of-book correctness, which the matching loop restores only
after rescanning. -/
def WFcore (b : HalfBook) (Q : List (List Nat)) : Prop :=
  Q.length = b.orders.length ∧
  (∀ p < b.orders.length,
    levelRep b.arena p (b.orders.getD p PriceLevel.default) (Q.getD p [])) ∧
  Q.flatten.Nodup ∧
  (b.ids.map Prod.fst).Nodup ∧
  (∀ pr ∈ b.ids, pr.2 ∈ Q.flatten ∧ (b.arena.getD pr.2 Order.default).id = pr.1) ∧
  (∀ p < b.orders.length, ∀ a ∈ Q.getD p [],
    idsLookup b.ids ((b.arena.getD a Order.default).id) = some a) ∧
  (∀ a ∈ b.free_list, a < b.arena.length ∧ a ∉ Q.flatten) ∧
  b.free_list.Nodup

instance instDecWFcore (b : HalfBook) (Q : List (List Nat)) :
    Decidable (WFcore b Q) := by
  unfold WFcore levelRep
  exact inferInstance

/-- Well-formedness of a `HalfBook` with FIFO witness `Q` (spec §3
invariants 1-5). -/
def WF (b : HalfBook) (Q : List (List Nat)) : Prop :=
  WFcore b Q ∧ TobSpec b

instance instDecWF (b : HalfBook) (Q : List (List Nat)) : Decidable (WF b Q) := by
  unfold WF
  exact inferInstance

/-- A book entry as spec §4.2 sees it: an order of a given remaining
size resting at a level, addressed by its arena slot and caller id. -/
structure BookEntry where
  slot : Nat
  price : Int
  oid : Nat
  esize : Int
deriving Repr, DecidableEq

/-- Modelled from the spec (§4.2 match_size fill semantics): consume a
best-first, FIFO-flattened book.  Returns the accumulated notional, the
unfilled remainder of the requested size, and the book stream left
behind.  Each step trades `min(size, head.size)`; a fully consumed
order is dropped; draining the stream is success. -/
def specConsume : List BookEntry → Int → Int × Int × List BookEntry
  | [], size => (0, size, [])
  | e :: rest, size =>
    if size ≤ 0 then (0, size, e :: rest)
    else
      let traded := min size e.esize
      if e.esize ≤ size then
        let r := specConsume rest (size - traded)
        (traded * e.price + r.1, r.2.1, r.2.2)
      else
        (traded * e.price, size - traded, { e with esize := e.esize - traded } :: rest)

/-- Ladder indices in best-first order for a side. -/
def bestIdx (s : Side) (len : Nat) : List Nat :=
  match s with
  | Side.Buy => (List.range len).reverse
  | Side.Sell => List.range len

/-- The entry of slot `a` resting at level `p`. -/
def entryOf (b : HalfBook) (p : Nat) (a : Nat) : BookEntry :=
  { slot := a
    price := b.get_price_from_index p
    oid := (b.arena.getD a Order.default).id
    esize := (b.arena.getD a Order.default).size }

/-- The whole half-book as the best-first, FIFO-ordered stream of
resting orders. -/
def flatBook (b : HalfBook) (Q : List (List Nat)) : List BookEntry :=
  (bestIdx b.side b.orders.length).flatMap (fun p => (Q.getD p []).map (entryOf b p))

/-- Total number of resting orders in the witness. -/
def totalCount (Q : List (List Nat)) : Nat :=
  (Q.map List.length).sum

/-- The crossing predicate exactly as the specification words it:
`crosses = (S == Buy ∧ best_ask.price ≤ P) ∨ (S == Sell ∧ best_bid.price ≥ P)`,
with the respective best present. -/
def crossesSpec (ob : Orderbook) (side : Side) (price : Int) : Bool :=
  match side with
  | Side.Buy =>
    match ob.get_best_ask with
    | some pa => decide (pa.price ≤ price)
    | none => false
  | Side.Sell =>
    match ob.get_best_bid with
    | some pb => decide (pb.price ≥ price)
    | none => false

/-- The no-crossed-book condition of spec §8.1, as a checker. -/
def notCrossedB (ob : Orderbook) : Bool :=
  match ob.get_best_bid, ob.get_best_ask with
  | some pb, some pa => decide (pb.price < pa.price)
  | _, _ => true

/-- Fold a list of tickets (each with the fuel for its matching loops)
through `accept_order`, starting from the freshly constructed book. -/
def runTickets (l : List (Nat × OrderTicket)) : Orderbook :=
  l.foldl (fun ob pr => (Orderbook.accept_order pr.1 ob pr.2).2) Orderbook.new

/-- A ticket whose limit price is representable in the source type
`i64`.  The embedding uses unbounded `Int`, so faithfulness of the
`as usize` wrap in `calculate_price_index` needs this bound. -/
def ticketI64 (t : OrderTicket) : Bool :=
  match t.order_type with
  | OrderType.Limit price => decide (-(2 ^ 63) ≤ price) && decide (price < 2 ^ 63)
  | OrderType.Market => true

/-- HalfBook operations, for quantifying over call sequences.  A
`matchSize` op runs with the fuel proved sufficient for its loops. -/
inductive HBOp where
  | insert : Nat → Int → Int → HBOp
  | remove : Nat → HBOp
  | modify : Nat → Int → Int → HBOp
  | matchSize : Int → HBOp
deriving Repr, DecidableEq

/-- Apply one operation (keeping the post state whether or not the call
reported an error, as the Rust `&mut self` does). -/
def applyOp (b : HalfBook) (op : HBOp) : HalfBook :=
  match op with
  | HBOp.insert id price size => (b.insert id price size).2
  | HBOp.remove id => (b.remove id).2
  | HBOp.modify id price size => (b.modify id price size).2
  | HBOp.matchSize size => (HalfBook.match_size b.autoFuel b size).2

/-- Legality of one call in a sequence (spec §4.2 preconditions): an
insert may not reuse a resting id (duplicate insertion is declared
caller error), and modify must carry a positive size. -/
def opOk (b : HalfBook) (op : HBOp) : Bool :=
  match op with
  | HBOp.insert id _ _ => idsLookup b.ids id == none
  | HBOp.modify _ _ size => decide (0 < size)
  | _ => true

/-- Run a sequence of operations. -/
def runOps (b : HalfBook) (ops : List HBOp) : HalfBook :=
  ops.foldl applyOp b

/-- Check that every call of a sequence is legal in the state it runs in. -/
def opsOk (b : HalfBook) : List HBOp → Bool
  | [] => true
  | op :: rest => opOk b op && opsOk (applyOp b op) rest

/-- The property claimed of `top_of_book` (spec §8.5): it names the best
populated level (`total_size > 0`), and is `none` iff all levels are
empty. -/
def tobCorrectB (b : HalfBook) : Bool :=
  match b.top_of_book with
  | some t => decide (t < b.orders.length) &&
      decide (0 < (b.orders.getD t PriceLevel.default).total_size) &&
      (List.range b.orders.length).all (fun p =>
        !(decide (0 < (b.orders.getD p PriceLevel.default).total_size)) || sideLeB b.side p t)
  | none => (List.range b.orders.length).all (fun p =>
      (b.orders.getD p PriceLevel.default).total_size == 0)

/-- The arena transformation of `remove_order_from_linked_list` on the
success path: point `prev.next` at `next` and `next.prev` at `prev`. -/
def relinkArena (A : List Order) (pv nx : Option Nat) : List Order :=
  let A1 := match pv with
    | none => A
    | some pp =>
      match A[pp]? with
      | none => A
      | some po => A.set pp ({ po with next := nx })
  match nx with
  | none => A1
  | some nn =>
    match A1[nn]? with
    | none => A1
    | some no => A1.set nn ({ no with prev := pv })

/-- The level record left at `p` after `remove` unlinks slot `x`, with
`l1`/`l2` the queue before/after the removed order. -/
def removedLevel (b : HalfBook) (x p : Nat) (l1 l2 : List Nat) : PriceLevel :=
  ⟨(if l1 = [] then (b.arena.getD x Order.default).next
    else (b.orders.getD p PriceLevel.default).head),
   (if l2 = [] then (b.arena.getD x Order.default).prev
    else (b.orders.getD p PriceLevel.default).tail),
   (b.orders.getD p PriceLevel.default).total_size -
     (b.arena.getD x Order.default).size⟩

/-- The book left by a successful `remove`, up to its final
`top_of_book` value `tob'`. -/
def removedBook (b : HalfBook) (id x p : Nat) (l1 l2 : List Nat)
    (tob' : Option Nat) : HalfBook :=
  { b with
    ids := idsErase b.ids id
    orders := b.orders.set p (removedLevel b x p l1 l2)
    arena := relinkArena b.arena (b.arena.getD x Order.default).prev
      (b.arena.getD x Order.default).next
    top_of_book := tob'
    free_list := x :: b.free_list }

/-- The ladder indices strictly better than `t` for a side, in
best-first order. -/
def betterIdx (s : Side) (len t : Nat) : List Nat :=
  match s with
  | Side.Buy => (List.range' (t + 1) (len - (t + 1))).reverse
  | Side.Sell => List.range t

/-- The ladder indices strictly worse than `t` for a side, in best-first
order. -/
def worseIdx (s : Side) (len t : Nat) : List Nat :=
  match s with
  | Side.Buy => (List.range t).reverse
  | Side.Sell => List.range' (t + 1) (len - (t + 1))

/-! ## Association-list (`ids`) lemmas -/

/-- `lseg A p prev cur q tp tc`: the slots `q` form a doubly-linked
segment of level `p` entered at pointer `cur` with expected back pointer
`prev`, and exiting with back pointer `tp` and forward pointer `tc`. -/
def lseg (A : List Order) (p : Nat) : Option Nat → Option Nat → List Nat →
    Option Nat → Option Nat → Prop
  | prev, cur, [], tp, tc => prev = tp ∧ cur = tc
  | prev, cur, a :: rest, tp, tc =>
    cur = some a ∧ ∃ o, A[a]? = some o ∧ o.price_index = p ∧ o.prev = prev ∧
      lseg A p (some a) o.next rest tp tc

/-- The pointer-relevant projection of an order record. -/
def pOrd (o : Order) : Nat × Option Nat × Option Nat := (o.price_index, o.prev, o.next)

/-- Operations allowed between the FIFO scenario of spec §8.4: valid
fresh inserts of other ids, cancels of other ids, in-place
positive-size modifies of order A, and matches of any size. -/
def fifoOpOk (idA idB : Nat) (b : HalfBook) (op : HBOp) : Bool :=
  match op with
  | HBOp.insert id price size =>
    (idsLookup b.ids id == none) && !(id == idA) && !(id == idB) &&
      decide (0 < price) && decide (0 < size) &&
      decide (b.calculate_price_index price < b.orders.length)
  | HBOp.remove id => !(id == idA) && !(id == idB)
  | HBOp.modify id price size =>
    (id == idA) && decide (0 < size) &&
      ((idsLookup b.ids idA).any (fun xa =>
        b.calculate_price_index price ==
          (b.arena.getD xa Order.default).price_index))
  | HBOp.matchSize _ => true

/-- Sequenced legality of a FIFO-scenario op list. -/
def fifoOpsOk (idA idB : Nat) (b : HalfBook) : List HBOp → Bool
  | [] => true
  | op :: rest =>
    fifoOpOk idA idB b op && fifoOpsOk idA idB (applyOp b op) rest

/-- FIFO priority invariant (spec §8.4): while maker `idA` still rests,
maker `idB` rests behind it on the same level with its original size
`szB` untouched. -/
def fifoInv (idA idB : Nat) (szB : Int) (b : HalfBook) : Prop :=
  ∃ Q, WF b Q ∧
    ∀ xa, idsLookup b.ids idA = some xa →
      ∃ xb P, idsLookup b.ids idB = some xb ∧
        (b.arena.getD xb Order.default).size = szB ∧
        P < b.orders.length ∧
        List.Sublist [xa, xb] (Q.getD P [])

/-- The structural invariant of the whole `Orderbook` maintained by
`accept_order`: the sides and price parameters of the two halves, the
ladder lengths, cached tops in range, and cached tops not crossed. -/
def obInv (ob : Orderbook) : Prop :=
  ob.bids.side = Side.Buy ∧ ob.asks.side = Side.Sell ∧
  ob.bids.min_price = 1 ∧ ob.asks.min_price = 1 ∧
  ob.bids.tick_size = 1 ∧ ob.asks.tick_size = 1 ∧
  ob.bids.orders.length = 999999 ∧ ob.asks.orders.length = 999999 ∧
  (∀ tb, ob.bids.top_of_book = some tb → tb < ob.bids.orders.length) ∧
  (∀ ta, ob.asks.top_of_book = some ta → ta < ob.asks.orders.length) ∧
  (∀ tb ta, ob.bids.top_of_book = some tb → ob.asks.top_of_book = some ta →
    tb < ta)

theorem idsLookup_nil (k : Nat) : idsLookup [] k = none := rfl

theorem idsLookup_cons (x : Nat × Nat) (l : List (Nat × Nat)) (k : Nat) :
    idsLookup (x :: l) k = if x.1 = k then some x.2 else idsLookup l k := by
  by_cases h : x.1 = k
  · rw [if_pos h]
    unfold idsLookup
    rw [List.find?_cons_of_pos _ (by simp [h])]
    rfl
  · rw [if_neg h]
    unfold idsLookup
    rw [List.find?_cons_of_neg _ (by simp [h])]

theorem idsLookup_filter_ne (l : List (Nat × Nat)) (k k' : Nat) (h : k' ≠ k) :
    idsLookup (l.filter (fun pr => !(pr.1 == k))) k' = idsLookup l k' := by
  induction l with
  | nil => rfl
  | cons x xs ih =>
    rw [List.filter_cons]
    by_cases hx : x.1 = k
    · rw [if_neg (by simp [hx]), ih, idsLookup_cons, if_neg (by omega)]
    · rw [if_pos (by simp [hx]), idsLookup_cons, idsLookup_cons, ih]

theorem idsLookup_filter_self (l : List (Nat × Nat)) (k : Nat) :
    idsLookup (l.filter (fun pr => !(pr.1 == k))) k = none := by
  induction l with
  | nil => rfl
  | cons x xs ih =>
    rw [List.filter_cons]
    by_cases hx : x.1 = k
    · rw [if_neg (by simp [hx])]
      exact ih
    · rw [if_pos (by simp [hx]), idsLookup_cons, if_neg hx]
      exact ih

theorem idsLookup_store_self (l : List (Nat × Nat)) (k v : Nat) :
    idsLookup (idsStore l k v) k = some v := by
  simp [idsStore, idsLookup_cons]

theorem idsLookup_store_ne (l : List (Nat × Nat)) (k v k' : Nat) (h : k' ≠ k) :
    idsLookup (idsStore l k v) k' = idsLookup l k' := by
  rw [idsStore, idsLookup_cons, if_neg (by omega)]
  exact idsLookup_filter_ne l k k' h

theorem idsLookup_erase_self (l : List (Nat × Nat)) (k : Nat) :
    idsLookup (idsErase l k) k = none :=
  idsLookup_filter_self l k

theorem idsLookup_erase_ne (l : List (Nat × Nat)) (k k' : Nat) (h : k' ≠ k) :
    idsLookup (idsErase l k) k' = idsLookup l k' :=
  idsLookup_filter_ne l k k' h

theorem idsLookup_mem {l : List (Nat × Nat)} {k v : Nat}
    (h : idsLookup l k = some v) : (k, v) ∈ l := by
  induction l with
  | nil => simp [idsLookup_nil] at h
  | cons x xs ih =>
    rw [idsLookup_cons] at h
    by_cases hx : x.1 = k
    · rw [if_pos hx] at h
      obtain ⟨a, bv⟩ := x
      injection h with h2
      simp only at hx h2
      subst hx
      subst h2
      exact List.mem_cons_self _ _
    · rw [if_neg hx] at h
      exact List.mem_cons_of_mem _ (ih h)

theorem mem_idsErase {l : List (Nat × Nat)} {k : Nat} {x : Nat × Nat}
    (h : x ∈ idsErase l k) : x ∈ l :=
  List.mem_of_mem_filter h

theorem mem_idsStore {l : List (Nat × Nat)} {k v : Nat} {x : Nat × Nat}
    (h : x ∈ idsStore l k v) : x = (k, v) ∨ x ∈ l := by
  rcases List.mem_cons.mp h with h1 | h1
  · exact Or.inl h1
  · exact Or.inr (List.mem_of_mem_filter h1)

theorem keysNodup_idsErase {l : List (Nat × Nat)} (h : (l.map Prod.fst).Nodup)
    (k : Nat) : ((idsErase l k).map Prod.fst).Nodup :=
  List.Nodup.sublist ((List.filter_sublist l).map Prod.fst) h

theorem keysNodup_idsStore {l : List (Nat × Nat)} (h : (l.map Prod.fst).Nodup)
    (k v : Nat) : ((idsStore l k v).map Prod.fst).Nodup := by
  rw [idsStore, List.map_cons, List.nodup_cons]
  constructor
  · intro hk
    rcases List.mem_map.mp hk with ⟨x, hx, hx1⟩
    have := List.of_mem_filter hx
    simp only [Bool.not_eq_true', beq_eq_false_iff_ne, ne_eq] at this
    exact this hx1
  · exact List.Nodup.sublist ((List.filter_sublist l).map Prod.fst) h

/-! ## List-segment toolkit for the intrusive FIFO -/

theorem lseg_nil {A : List Order} {p : Nat} {prev cur tp tc : Option Nat} :
    lseg A p prev cur [] tp tc ↔ prev = tp ∧ cur = tc := Iff.rfl

theorem lseg_cons {A : List Order} {p : Nat} {prev cur tp tc : Option Nat}
    {a : Nat} {rest : List Nat} :
    lseg A p prev cur (a :: rest) tp tc ↔
      cur = some a ∧ ∃ o, A[a]? = some o ∧ o.price_index = p ∧ o.prev = prev ∧
        lseg A p (some a) o.next rest tp tc := Iff.rfl

theorem chainB_iff_lseg {A : List Order} {p : Nat} :
    ∀ {q : List Nat} {prev cur : Option Nat},
      chainB A p prev cur q = true ↔ ∃ tp, lseg A p prev cur q tp none := by
  intro q
  induction q with
  | nil =>
    intro prev cur
    simp [chainB, lseg_nil]
  | cons a rest ih =>
    intro prev cur
    rw [chainB]
    constructor
    · intro h
      simp only [Bool.and_eq_true, beq_iff_eq] at h
      rcases h with ⟨hcur, hrest⟩
      rcases hget : A[a]? with _ | o
      · rw [hget] at hrest
        cases hrest
      · rw [hget] at hrest
        simp only [Bool.and_eq_true, beq_iff_eq] at hrest
        rcases hrest with ⟨⟨hpi, hpv⟩, hch⟩
        rcases ih.mp hch with ⟨tp, hseg⟩
        exact ⟨tp, hcur, o, hget, hpi, hpv, hseg⟩
    · rintro ⟨tp, hcur, o, hget, hpi, hpv, hseg⟩
      rw [hget]
      subst hcur hpi hpv
      simpa using ih.mpr ⟨tp, hseg⟩

theorem lseg_append {A : List Order} {p : Nat} :
    ∀ {l1 l2 : List Nat} {prev cur tp tc : Option Nat},
      lseg A p prev cur (l1 ++ l2) tp tc ↔
        ∃ mp mc, lseg A p prev cur l1 mp mc ∧ lseg A p mp mc l2 tp tc := by
  intro l1
  induction l1 with
  | nil =>
    intro l2 prev cur tp tc
    constructor
    · intro h
      exact ⟨prev, cur, ⟨rfl, rfl⟩, h⟩
    · rintro ⟨mp, mc, ⟨h1, h2⟩, h⟩
      subst h1; subst h2; exact h
  | cons a rest ih =>
    intro l2 prev cur tp tc
    simp only [List.cons_append, lseg_cons]
    constructor
    · rintro ⟨hcur, o, hget, hpi, hpv, hseg⟩
      rcases ih.mp hseg with ⟨mp, mc, hs1, hs2⟩
      exact ⟨mp, mc, ⟨hcur, o, hget, hpi, hpv, hs1⟩, hs2⟩
    · rintro ⟨mp, mc, ⟨hcur, o, hget, hpi, hpv, hs1⟩, hs2⟩
      exact ⟨hcur, o, hget, hpi, hpv, ih.mpr ⟨mp, mc, hs1, hs2⟩⟩

theorem lseg_congr {A A' : List Order} {p : Nat} :
    ∀ {q : List Nat} {prev cur tp tc : Option Nat},
      (∀ a ∈ q, (A'[a]?).map pOrd = (A[a]?).map pOrd) →
      lseg A p prev cur q tp tc → lseg A' p prev cur q tp tc := by
  intro q
  induction q with
  | nil => intro prev cur tp tc _ h; exact h
  | cons a rest ih =>
    rintro prev cur tp tc hptr ⟨hcur, o, hget, hpi, hpv, hseg⟩
    have ha := hptr a (List.mem_cons_self _ _)
    rw [hget] at ha
    rcases hget' : A'[a]? with _ | o'
    · rw [hget'] at ha; cases ha
    · rw [hget'] at ha
      have hpo : pOrd o' = pOrd o := by
        simpa using ha
      have h1 : o'.price_index = o.price_index := congrArg Prod.fst hpo
      have h2 : o'.prev = o.prev := congrArg (fun x => x.2.1) hpo
      have h3 : o'.next = o.next := congrArg (fun x => x.2.2) hpo
      refine ⟨hcur, o', hget', h1.trans hpi, h2.trans hpv, ?_⟩
      rw [h3]
      exact ih (fun x hx => hptr x (List.mem_cons_of_mem _ hx)) hseg

theorem lseg_mem {A : List Order} {p : Nat} :
    ∀ {q : List Nat} {prev cur tp tc : Option Nat},
      lseg A p prev cur q tp tc → ∀ a ∈ q,
        ∃ o, A[a]? = some o ∧ o.price_index = p := by
  intro q
  induction q with
  | nil => intro _ _ _ _ _ a ha; cases ha
  | cons x rest ih =>
    rintro prev cur tp tc ⟨hcur, o, hget, hpi, hpv, hseg⟩ a ha
    rcases List.mem_cons.mp ha with rfl | ha
    · exact ⟨o, hget, hpi⟩
    · exact ih hseg a ha

theorem lseg_exit {A : List Order} {p : Nat} :
    ∀ {q : List Nat} {prev cur tp tc : Option Nat},
      lseg A p prev cur q tp tc → tp = (q.getLast?).elim prev some := by
  intro q
  induction q with
  | nil =>
    rintro prev cur tp tc ⟨h1, _⟩
    exact h1.symm
  | cons x rest ih =>
    rintro prev cur tp tc ⟨hcur, o, hget, hpi, hpv, hseg⟩
    cases rest with
    | nil =>
      rcases hseg with ⟨h1, _⟩
      simpa using h1.symm
    | cons y ys =>
      rw [List.getLast?_cons_cons]
      simpa using ih hseg

theorem lseg_exit_empty {A : List Order} {p : Nat} {prev cur tp tc : Option Nat}
    (h : lseg A p prev cur [] tp tc) : tp = prev ∧ tc = cur :=
  ⟨h.1.symm, h.2.symm⟩

theorem lseg_head {A : List Order} {p : Nat} :
    ∀ {q : List Nat} {prev cur tp tc : Option Nat},
      lseg A p prev cur q tp tc → cur = (q.head?).elim tc some := by
  intro q
  cases q with
  | nil =>
    rintro prev cur tp tc ⟨_, h2⟩
    exact h2
  | cons x rest =>
    rintro prev cur tp tc ⟨hcur, _⟩
    simpa using hcur

/-! ## Chain surgery lemmas -/

theorem getElem?_isSome_lt {A : List Order} {a : Nat} {o : Order}
    (h : A[a]? = some o) : a < A.length := by
  by_contra hlt
  rw [List.getElem?_eq_none (by omega)] at h
  cases h

theorem lseg_set_outside {A : List Order} {p : Nat} {q : List Nat}
    {prev cur tp tc : Option Nat} {a : Nat} {o : Order}
    (ha : a ∉ q) (h : lseg A p prev cur q tp tc) :
    lseg (A.set a o) p prev cur q tp tc := by
  refine lseg_congr (fun x hx => ?_) h
  rw [List.getElem?_set_ne (by rintro rfl; exact ha hx)]

theorem lseg_set_size {A : List Order} {p : Nat} {q : List Nat}
    {prev cur tp tc : Option Nat} {a : Nat} {o : Order} (s : Int)
    (hget : A[a]? = some o) (h : lseg A p prev cur q tp tc) :
    lseg (A.set a ({ o with size := s })) p prev cur q tp tc := by
  refine lseg_congr (fun x hx => ?_) h
  by_cases hxa : a = x
  · subst hxa
    rw [List.getElem?_set_self (getElem?_isSome_lt hget), hget]
    rfl
  · rw [List.getElem?_set_ne hxa]

theorem lseg_set_last_next {A : List Order} {p : Nat} :
    ∀ {q : List Nat} {prev cur tc : Option Nat} {tl : Nat} {o : Order}
      {nc : Option Nat},
      lseg A p prev cur q (some tl) tc → q.Nodup → A[tl]? = some o → q ≠ [] →
      lseg (A.set tl ({ o with next := nc })) p prev cur q (some tl) nc := by
  intro q
  induction q with
  | nil => intro _ _ _ _ _ _ _ _ _ hne; exact absurd rfl hne
  | cons x rest ih =>
    rintro prev cur tc tl o nc ⟨hcur, o1, hget1, hpi, hpv, hseg⟩ hnd hget _
    cases rest with
    | nil =>
      rcases hseg with ⟨hxt, hnx⟩
      have hxtl : x = tl := by injection hxt
      subst hxtl
      have ho : o1 = o := by rw [hget1] at hget; injection hget
      subst ho
      refine ⟨hcur, { o1 with next := nc }, ?_, hpi, hpv, ?_, rfl⟩
      · rw [List.getElem?_set_self (getElem?_isSome_lt hget1)]
      · exact hxt
    | cons y ys =>
      have hexit := lseg_exit hseg
      have hlast : (y :: ys).getLast? = some ((y :: ys).getLast (by simp)) := by
        rw [List.getLast?_eq_getLast]
      rw [hlast] at hexit
      have htl : tl = (y :: ys).getLast (by simp) := by
        simpa using hexit
      have htl_mem : tl ∈ y :: ys := htl ▸ List.getLast_mem _
      have hx_ne : x ≠ tl := by
        intro hh
        subst hh
        exact (List.nodup_cons.mp hnd).1 htl_mem
      refine ⟨hcur, o1, ?_, hpi, hpv, ?_⟩
      · rw [List.getElem?_set_ne (fun hh => hx_ne hh.symm)]
        exact hget1
      · exact ih hseg (List.nodup_cons.mp hnd).2 hget (by simp)

theorem lseg_set_head_prev {A : List Order} {p : Nat} {nn : Nat} {rest : List Nat}
    {pv pv' tp tc : Option Nat} {o : Order}
    (h : lseg A p pv (some nn) (nn :: rest) tp tc) (hnd : (nn :: rest).Nodup)
    (hget : A[nn]? = some o) :
    lseg (A.set nn ({ o with prev := pv' })) p pv' (some nn) (nn :: rest) tp tc := by
  rcases h with ⟨_, o1, hget1, hpi, hpv, hseg⟩
  have ho : o1 = o := by rw [hget1] at hget; injection hget
  subst ho
  refine ⟨rfl, { o1 with prev := pv' }, ?_, hpi, rfl, ?_⟩
  · rw [List.getElem?_set_self (getElem?_isSome_lt hget1)]
  · exact lseg_set_outside (List.nodup_cons.mp hnd).1 hseg

theorem lseg_single_new {A : List Order} {p : Nat} {ai : Nat} {idv : Nat}
    {sz : Int} {pv : Option Nat} (hai : ai < A.length) :
    lseg (A.set ai ⟨idv, p, sz, pv, none⟩) p pv (some ai) [ai] (some ai) none := by
  refine ⟨rfl, ⟨idv, p, sz, pv, none⟩, ?_, rfl, rfl, rfl, rfl⟩
  rw [List.getElem?_set_self hai]

theorem lseg_snoc {A : List Order} {p : Nat} {ai : Nat} {idv : Nat} {sz : Int}
    {q : List Nat} {prev cur tc : Option Nat} {tl : Nat} {o : Order}
    (h : lseg A p prev cur q (some tl) tc) (hnd : q.Nodup) (hai : ai ∉ q)
    (hget : A[tl]? = some o) (hne : q ≠ []) (hlen : ai < A.length) :
    lseg ((A.set tl ({ o with next := some ai })).set ai ⟨idv, p, sz, some tl, none⟩)
      p prev cur (q ++ [ai]) (some ai) none := by
  have h1 := @lseg_set_last_next _ _ _ _ _ _ _ _ (some ai) h hnd hget hne
  have h2 := @lseg_set_outside _ _ _ _ _ _ _ _ (⟨idv, p, sz, some tl, none⟩ : Order) hai h1
  refine lseg_append.mpr ⟨some tl, some ai, h2, ?_⟩
  refine ⟨rfl, ⟨idv, p, sz, some tl, none⟩, ?_, rfl, rfl, rfl, rfl⟩
  rw [List.getElem?_set_self]
  rw [List.length_set]
  exact hlen

theorem nodup_middle_facts {l1 l2 : List Nat} {x : Nat}
    (hnd : (l1 ++ x :: l2).Nodup) :
    l1.Nodup ∧ l2.Nodup ∧ x ∉ l1 ∧ x ∉ l2 ∧ ∀ a ∈ l1, a ∉ l2 := by
  rw [List.nodup_append] at hnd
  rcases hnd with ⟨h1, h2, hdis⟩
  rw [List.nodup_cons] at h2
  refine ⟨h1, h2.2, fun hx => hdis hx (List.mem_cons_self _ _), h2.1, ?_⟩
  exact fun a ha hal2 => hdis ha (List.mem_cons_of_mem _ hal2)

theorem relinkArena_none_none {A : List Order} : relinkArena A none none = A := rfl

theorem relinkArena_none_some {A : List Order} {nn : Nat} {no : Order}
    (hno : A[nn]? = some no) :
    relinkArena A none (some nn) = A.set nn ({ no with prev := none }) := by
  simp only [relinkArena]
  rw [hno]

theorem relinkArena_some_none {A : List Order} {pp : Nat} {po : Order}
    (hpo : A[pp]? = some po) :
    relinkArena A (some pp) none = A.set pp ({ po with next := none }) := by
  simp only [relinkArena]
  rw [hpo]

theorem relinkArena_some_some {A : List Order} {pp nn : Nat} {po no : Order}
    (hpo : A[pp]? = some po)
    (hno : (A.set pp ({ po with next := some nn }))[nn]? = some no) :
    relinkArena A (some pp) (some nn) =
      (A.set pp ({ po with next := some nn })).set nn ({ no with prev := some pp }) := by
  simp only [relinkArena]
  rw [hpo, hno]

theorem lseg_erase {A : List Order} {p : Nat} {l1 l2 : List Nat} {x : Nat}
    {o : Order} {hd tp : Option Nat}
    (h : lseg A p none hd (l1 ++ x :: l2) tp none)
    (hnd : (l1 ++ x :: l2).Nodup) (hget : A[x]? = some o) :
    lseg (relinkArena A o.prev o.next) p none
      (if l1 = [] then o.next else hd) (l1 ++ l2)
      (if l2 = [] then o.prev else tp) none := by
  rcases nodup_middle_facts hnd with ⟨hnd1, hnd2, hx1, hx2, hdis⟩
  rcases lseg_append.mp h with ⟨mp, mc, h1, h2⟩
  rcases h2 with ⟨hmc, o1, hget1, hpi, hpv, hseg2⟩
  have ho : o1 = o := by rw [hget1] at hget; injection hget
  subst ho
  cases hl1 : l1 with
  | nil =>
    subst hl1
    rcases lseg_exit_empty h1 with ⟨hmp, hmc2⟩
    rw [hmp] at hpv
    cases hl2 : l2 with
    | nil =>
      subst hl2
      rcases hseg2 with ⟨hxt, hnx⟩
      rw [if_pos rfl, if_pos rfl, List.nil_append, hpv, hnx, relinkArena_none_none]
      exact ⟨hpv.symm ▸ rfl, hnx ▸ rfl⟩
    | cons nn l2r =>
      subst hl2
      have hnn : o1.next = some nn := by
        have := lseg_head hseg2
        simpa using this
      rcases lseg_mem hseg2 nn (List.mem_cons_self _ _) with ⟨no, hno, _⟩
      rw [if_pos rfl, if_neg (by simp), List.nil_append, hpv, hnn,
        relinkArena_none_some hno]
      exact @lseg_set_head_prev _ _ _ _ _ none _ _ _ (hnn ▸ hseg2) hnd2 hno
  | cons y l1r =>
    subst hl1
    have hne1 : y :: l1r ≠ [] := by simp
    have hexit1 := lseg_exit h1
    rw [List.getLast?_eq_getLast _ hne1] at hexit1
    set pp := (y :: l1r).getLast hne1 with hpp
    have hmp : mp = some pp := by simpa using hexit1
    have hpp_mem : pp ∈ y :: l1r := List.getLast_mem hne1
    rcases lseg_mem h1 pp hpp_mem with ⟨po, hpo, _⟩
    have h1' := @lseg_set_last_next _ _ _ _ _ _ _ _ o1.next (hmp ▸ h1) hnd1 hpo hne1
    rw [hmp] at hpv
    cases hl2 : l2 with
    | nil =>
      subst hl2
      rcases hseg2 with ⟨hxt, hnx⟩
      rw [if_neg (by simp), if_pos rfl, List.append_nil, hpv, hnx,
        relinkArena_some_none hpo]
      rw [hnx] at h1'
      exact h1'
    | cons nn l2r =>
      subst hl2
      have hnn : o1.next = some nn := by
        have := lseg_head hseg2
        simpa using this
      have hnn_notin_l1 : nn ∉ y :: l1r := fun hin =>
        hdis nn hin (List.mem_cons_self _ _)
      have hpp_notin_l2 : pp ∉ nn :: l2r := hdis pp hpp_mem
      rcases lseg_mem hseg2 nn (List.mem_cons_self _ _) with ⟨no, hno, _⟩
      have hno' : (A.set pp ({ po with next := some nn }))[nn]? = some no := by
        rw [List.getElem?_set_ne, hno]
        intro hh
        exact hpp_notin_l2 (hh ▸ List.mem_cons_self nn l2r)
      rw [if_neg (by simp), if_neg (by simp), hpv, hnn,
        relinkArena_some_some hpo hno']
      rw [hnn] at h1'
      refine lseg_append.mpr ⟨some pp, some nn, ?_, ?_⟩
      · exact lseg_set_outside hnn_notin_l1 h1'
      · have hseg2' : lseg (A.set pp ({ po with next := some nn })) p (some x)
            (some nn) (nn :: l2r) tp none := by
          have := lseg_set_outside (o := ({ po with next := some nn } : Order))
            hpp_notin_l2 hseg2
          rw [hnn] at this
          exact this
        exact @lseg_set_head_prev _ _ _ _ _ (some pp) _ _ _ hseg2' hnd2 hno'

/-! ## Sum and flatten helpers -/

theorem sumSizes_nil (A : List Order) : sumSizes A [] = 0 := rfl

theorem sumSizes_cons (A : List Order) (a : Nat) (q : List Nat) :
    sumSizes A (a :: q) = (A.getD a Order.default).size + sumSizes A q := by
  simp [sumSizes]

theorem sumSizes_append (A : List Order) (l1 l2 : List Nat) :
    sumSizes A (l1 ++ l2) = sumSizes A l1 + sumSizes A l2 := by
  simp [sumSizes]

theorem sumSizes_congr {A A' : List Order} {q : List Nat}
    (h : ∀ a ∈ q, (A'.getD a Order.default).size = (A.getD a Order.default).size) :
    sumSizes A' q = sumSizes A q := by
  unfold sumSizes
  congr 1
  exact List.map_congr_left (fun a ha => h a ha)

theorem getD_set_outside {A : List Order} {a x : Nat} {o : Order} (h : a ≠ x) :
    ((A.set a o).getD x Order.default) = A.getD x Order.default := by
  rw [List.getD_eq_getElem?_getD, List.getD_eq_getElem?_getD,
    List.getElem?_set_ne h]

theorem getD_set_self {A : List Order} {a : Nat} {o : Order} (h : a < A.length) :
    ((A.set a o).getD a Order.default) = o := by
  rw [List.getD_eq_getElem?_getD, List.getElem?_set_self h]
  rfl

theorem sumSizes_set_outside {A : List Order} {q : List Nat} {a : Nat} {o : Order}
    (ha : a ∉ q) : sumSizes (A.set a o) q = sumSizes A q :=
  sumSizes_congr (fun x hx => by
    rw [getD_set_outside (fun hh => ha (by rw [hh]; exact hx))])

theorem sumSizes_nonneg {A : List Order} {q : List Nat}
    (h : ∀ a ∈ q, 0 < (A.getD a Order.default).size) : 0 ≤ sumSizes A q := by
  induction q with
  | nil => simp [sumSizes_nil]
  | cons a rest ih =>
    rw [sumSizes_cons]
    have h1 := h a (List.mem_cons_self _ _)
    have h2 := ih (fun x hx => h x (List.mem_cons_of_mem _ hx))
    omega

theorem sumSizes_pos {A : List Order} {q : List Nat} (hne : q ≠ [])
    (h : ∀ a ∈ q, 0 < (A.getD a Order.default).size) : 0 < sumSizes A q := by
  cases q with
  | nil => exact absurd rfl hne
  | cons a rest =>
    rw [sumSizes_cons]
    have h1 := h a (List.mem_cons_self _ _)
    have h2 := sumSizes_nonneg (fun x hx => h x (List.mem_cons_of_mem _ hx))
    omega

theorem sumSizes_eq_zero_iff {A : List Order} {q : List Nat}
    (h : ∀ a ∈ q, 0 < (A.getD a Order.default).size) :
    sumSizes A q = 0 ↔ q = [] := by
  constructor
  · intro hz
    by_contra hne
    have := sumSizes_pos hne h
    omega
  · intro hq
    subst hq
    rfl

theorem getD_eq_getElem_of_lt {Q : List (List Nat)} {p : Nat} (h : p < Q.length) :
    Q.getD p [] = Q[p] := by
  rw [List.getD_eq_getElem?_getD, List.getElem?_eq_getElem h]
  rfl

theorem flatten_decomp {Q : List (List Nat)} {p : Nat} (h : p < Q.length) :
    Q.flatten = (Q.take p).flatten ++ Q.getD p [] ++ (Q.drop (p + 1)).flatten := by
  conv_lhs => rw [← List.take_append_drop p Q]
  rw [List.drop_eq_getElem_cons h]
  rw [List.flatten_append, List.flatten_cons, getD_eq_getElem_of_lt h]
  simp [List.append_assoc]

theorem flatten_set_decomp {Q : List (List Nat)} {p : Nat} (q' : List Nat)
    (h : p < Q.length) :
    (Q.set p q').flatten = (Q.take p).flatten ++ q' ++ (Q.drop (p + 1)).flatten := by
  rw [List.set_eq_take_cons_drop _ h, List.flatten_append, List.flatten_cons]
  simp [List.append_assoc]

theorem mem_flatten_iff {Q : List (List Nat)} {a : Nat} :
    a ∈ Q.flatten ↔ ∃ p, p < Q.length ∧ a ∈ Q.getD p [] := by
  rw [List.mem_flatten]
  constructor
  · rintro ⟨l, hl, hal⟩
    rcases List.mem_iff_getElem.mp hl with ⟨p, hp, rfl⟩
    exact ⟨p, hp, by rw [getD_eq_getElem_of_lt hp]; exact hal⟩
  · rintro ⟨p, hp, ha⟩
    refine ⟨Q[p], List.getElem_mem hp, ?_⟩
    rw [getD_eq_getElem_of_lt hp] at ha
    exact ha

theorem flatten_set_sublist {Q : List (List Nat)} {p : Nat} {q' : List Nat}
    (h : p < Q.length) (hsub : List.Sublist q' (Q.getD p [])) :
    List.Sublist (Q.set p q').flatten Q.flatten := by
  rw [flatten_set_decomp q' h, flatten_decomp h]
  exact (hsub.append_left _).append_right _

theorem elim_none_some (o : Option Nat) : o.elim none some = o := by
  cases o <;> rfl

theorem flatten_set_append_perm {Q : List (List Nat)} {p : Nat} {ai : Nat}
    (h : p < Q.length) :
    List.Perm ((Q.set p (Q.getD p [] ++ [ai])).flatten) (ai :: Q.flatten) := by
  rw [flatten_set_decomp _ h]
  conv_rhs => rw [flatten_decomp h]
  have hassoc : (Q.take p).flatten ++ (Q.getD p [] ++ [ai]) ++ (Q.drop (p + 1)).flatten
      = ((Q.take p).flatten ++ Q.getD p []) ++ (ai :: (Q.drop (p + 1)).flatten) := by
    simp [List.append_assoc]
  rw [hassoc]
  have hassoc2 : (Q.take p).flatten ++ Q.getD p [] ++ (Q.drop (p + 1)).flatten
      = ((Q.take p).flatten ++ Q.getD p []) ++ (Q.drop (p + 1)).flatten := rfl
  rw [hassoc2]
  exact List.perm_middle

theorem mem_flatten_set_iff {Q : List (List Nat)} {p : Nat} {q' : List Nat} {x : Nat}
    (h : p < Q.length) (hnd : Q.flatten.Nodup) :
    x ∈ (Q.set p q').flatten ↔ x ∈ q' ∨ (x ∈ Q.flatten ∧ x ∉ Q.getD p []) := by
  have hdec := flatten_decomp h
  have hnd' := hnd
  rw [hdec, List.nodup_append, List.nodup_append] at hnd'
  rcases hnd' with ⟨⟨hndT, hndQ, hdisTQ⟩, hndD, hdisTQD⟩
  rw [flatten_set_decomp _ h, List.mem_append, List.mem_append, hdec]
  constructor
  · rintro ((hT | hq) | hD)
    · refine Or.inr ⟨by simp [List.mem_append, hT], ?_⟩
      exact fun hQp => hdisTQ hT hQp
    · exact Or.inl hq
    · refine Or.inr ⟨by simp [List.mem_append, hD], ?_⟩
      intro hQp
      exact hdisTQD (List.mem_append.mpr (Or.inr hQp)) hD
  · rintro (hq | ⟨hmem, hnotQp⟩)
    · exact Or.inl (Or.inr hq)
    · rw [List.mem_append, List.mem_append] at hmem
      rcases hmem with (hT | hQp) | hD
      · exact Or.inl (Or.inl hT)
      · exact absurd hQp hnotQp
      · exact Or.inr hD

/-- Bridge: the `levelRep` component of `WF` as an `lseg`. -/
theorem levelRep_lseg {A : List Order} {p : Nat} {pl : PriceLevel} {q : List Nat}
    (h : levelRep A p pl q) : lseg A p none pl.head q pl.tail none := by
  rcases h with ⟨hch, htail, _, _⟩
  rcases chainB_iff_lseg.mp hch with ⟨tp, hseg⟩
  have := lseg_exit hseg
  rw [elim_none_some] at this
  rw [htail, ← this]
  exact hseg

/-- Rebuild a `levelRep` from an `lseg` whose exit matches the stored
tail, a total equation and positivity. -/
theorem levelRep_of_lseg {A : List Order} {p : Nat} {pl : PriceLevel} {q : List Nat}
    (hseg : lseg A p none pl.head q pl.tail none)
    (htotal : pl.total_size = sumSizes A q)
    (hpos : ∀ a ∈ q, 0 < (A.getD a Order.default).size) :
    levelRep A p pl q := by
  have hexit := lseg_exit hseg
  rw [elim_none_some] at hexit
  exact ⟨chainB_iff_lseg.mpr ⟨pl.tail, hseg⟩, hexit, htotal, hpos⟩

/-! ## WF accessors and consequences -/

theorem WFC_qlen {b : HalfBook} {Q : List (List Nat)} (h : WFcore b Q) :
    Q.length = b.orders.length := h.1

theorem WFC_level {b : HalfBook} {Q : List (List Nat)} (h : WFcore b Q) :
    ∀ p < b.orders.length,
      levelRep b.arena p (b.orders.getD p PriceLevel.default) (Q.getD p []) := h.2.1

theorem WFC_flat_nodup {b : HalfBook} {Q : List (List Nat)} (h : WFcore b Q) :
    Q.flatten.Nodup := h.2.2.1

theorem WFC_keys_nodup {b : HalfBook} {Q : List (List Nat)} (h : WFcore b Q) :
    (b.ids.map Prod.fst).Nodup := h.2.2.2.1

theorem WFC_sound {b : HalfBook} {Q : List (List Nat)} (h : WFcore b Q) :
    ∀ pr ∈ b.ids, pr.2 ∈ Q.flatten ∧ (b.arena.getD pr.2 Order.default).id = pr.1 :=
  h.2.2.2.2.1

theorem WFC_chainIds {b : HalfBook} {Q : List (List Nat)} (h : WFcore b Q) :
    ∀ p < b.orders.length, ∀ a ∈ Q.getD p [],
      idsLookup b.ids ((b.arena.getD a Order.default).id) = some a :=
  h.2.2.2.2.2.1

theorem WFC_free {b : HalfBook} {Q : List (List Nat)} (h : WFcore b Q) :
    ∀ a ∈ b.free_list, a < b.arena.length ∧ a ∉ Q.flatten :=
  h.2.2.2.2.2.2.1

theorem WFC_free_nodup {b : HalfBook} {Q : List (List Nat)} (h : WFcore b Q) :
    b.free_list.Nodup := h.2.2.2.2.2.2.2

theorem WFC_mk {b : HalfBook} {Q : List (List Nat)}
    (h1 : Q.length = b.orders.length)
    (h2 : ∀ p < b.orders.length,
      levelRep b.arena p (b.orders.getD p PriceLevel.default) (Q.getD p []))
    (h3 : Q.flatten.Nodup)
    (h4 : (b.ids.map Prod.fst).Nodup)
    (h5 : ∀ pr ∈ b.ids, pr.2 ∈ Q.flatten ∧ (b.arena.getD pr.2 Order.default).id = pr.1)
    (h6 : ∀ p < b.orders.length, ∀ a ∈ Q.getD p [],
      idsLookup b.ids ((b.arena.getD a Order.default).id) = some a)
    (h7 : ∀ a ∈ b.free_list, a < b.arena.length ∧ a ∉ Q.flatten)
    (h8 : b.free_list.Nodup) : WFcore b Q :=
  ⟨h1, h2, h3, h4, h5, h6, h7, h8⟩

theorem WF_qlen {b : HalfBook} {Q : List (List Nat)} (h : WF b Q) :
    Q.length = b.orders.length := WFC_qlen h.1

theorem WF_level {b : HalfBook} {Q : List (List Nat)} (h : WF b Q) :
    ∀ p < b.orders.length,
      levelRep b.arena p (b.orders.getD p PriceLevel.default) (Q.getD p []) :=
  WFC_level h.1

theorem WF_flat_nodup {b : HalfBook} {Q : List (List Nat)} (h : WF b Q) :
    Q.flatten.Nodup := WFC_flat_nodup h.1

theorem WF_keys_nodup {b : HalfBook} {Q : List (List Nat)} (h : WF b Q) :
    (b.ids.map Prod.fst).Nodup := WFC_keys_nodup h.1

theorem WF_sound {b : HalfBook} {Q : List (List Nat)} (h : WF b Q) :
    ∀ pr ∈ b.ids, pr.2 ∈ Q.flatten ∧ (b.arena.getD pr.2 Order.default).id = pr.1 :=
  WFC_sound h.1

theorem WF_chainIds {b : HalfBook} {Q : List (List Nat)} (h : WF b Q) :
    ∀ p < b.orders.length, ∀ a ∈ Q.getD p [],
      idsLookup b.ids ((b.arena.getD a Order.default).id) = some a :=
  WFC_chainIds h.1

theorem WF_free {b : HalfBook} {Q : List (List Nat)} (h : WF b Q) :
    ∀ a ∈ b.free_list, a < b.arena.length ∧ a ∉ Q.flatten :=
  WFC_free h.1

theorem WF_free_nodup {b : HalfBook} {Q : List (List Nat)} (h : WF b Q) :
    b.free_list.Nodup := WFC_free_nodup h.1

theorem WF_tob {b : HalfBook} {Q : List (List Nat)} (h : WF b Q) : TobSpec b :=
  h.2

theorem WF_core {b : HalfBook} {Q : List (List Nat)} (h : WF b Q) : WFcore b Q :=
  h.1

theorem WF_of_core {b : HalfBook} {Q : List (List Nat)} (h : WFcore b Q)
    (ht : TobSpec b) : WF b Q := ⟨h, ht⟩

theorem WF_mk {b : HalfBook} {Q : List (List Nat)}
    (h1 : Q.length = b.orders.length)
    (h2 : ∀ p < b.orders.length,
      levelRep b.arena p (b.orders.getD p PriceLevel.default) (Q.getD p []))
    (h3 : Q.flatten.Nodup)
    (h4 : (b.ids.map Prod.fst).Nodup)
    (h5 : ∀ pr ∈ b.ids, pr.2 ∈ Q.flatten ∧ (b.arena.getD pr.2 Order.default).id = pr.1)
    (h6 : ∀ p < b.orders.length, ∀ a ∈ Q.getD p [],
      idsLookup b.ids ((b.arena.getD a Order.default).id) = some a)
    (h7 : ∀ a ∈ b.free_list, a < b.arena.length ∧ a ∉ Q.flatten)
    (h8 : b.free_list.Nodup)
    (h9 : TobSpec b) : WF b Q :=
  ⟨⟨h1, h2, h3, h4, h5, h6, h7, h8⟩, h9⟩

theorem mem_level_mem_flattenC {b : HalfBook} {Q : List (List Nat)} (h : WFcore b Q)
    {p a : Nat} (hp : p < b.orders.length) (ha : a ∈ Q.getD p []) :
    a ∈ Q.flatten :=
  mem_flatten_iff.mpr ⟨p, by rw [WFC_qlen h]; exact hp, ha⟩

theorem mem_level_mem_flatten {b : HalfBook} {Q : List (List Nat)} (h : WF b Q)
    {p a : Nat} (hp : p < b.orders.length) (ha : a ∈ Q.getD p []) :
    a ∈ Q.flatten :=
  mem_level_mem_flattenC h.1 hp ha

theorem flatten_mem_ltC {b : HalfBook} {Q : List (List Nat)} (h : WFcore b Q)
    {a : Nat} (ha : a ∈ Q.flatten) : a < b.arena.length := by
  rcases mem_flatten_iff.mp ha with ⟨p, hp, hap⟩
  rw [WFC_qlen h] at hp
  rcases lseg_mem (levelRep_lseg (WFC_level h p hp)) a hap with ⟨o, hget, _⟩
  exact getElem?_isSome_lt hget

theorem flatten_mem_lt {b : HalfBook} {Q : List (List Nat)} (h : WF b Q)
    {a : Nat} (ha : a ∈ Q.flatten) : a < b.arena.length :=
  flatten_mem_ltC h.1 ha

theorem level_nodupC {b : HalfBook} {Q : List (List Nat)} (h : WFcore b Q)
    {p : Nat} (hp : p < b.orders.length) : (Q.getD p []).Nodup := by
  have hlt : p < Q.length := by rw [WFC_qlen h]; exact hp
  have hdec := flatten_decomp hlt
  have hsub : List.Sublist (Q.getD p []) Q.flatten := by
    rw [hdec]
    exact (List.sublist_append_right _ _).trans (List.sublist_append_left _ _)
  exact (WFC_flat_nodup h).sublist hsub

theorem level_nodup {b : HalfBook} {Q : List (List Nat)} (h : WF b Q)
    {p : Nat} (hp : p < b.orders.length) : (Q.getD p []).Nodup :=
  level_nodupC h.1 hp

theorem levels_disjointC {b : HalfBook} {Q : List (List Nat)} (h : WFcore b Q)
    {p p' : Nat} (hp : p < b.orders.length) (hp' : p' < b.orders.length)
    (hne : p ≠ p') {a : Nat} (ha : a ∈ Q.getD p []) : a ∉ Q.getD p' [] := by
  intro ha'
  have hlt : p < Q.length := by rw [WFC_qlen h]; exact hp
  have hlt' : p' < Q.length := by rw [WFC_qlen h]; exact hp'
  rcases List.nodup_flatten.mp (WFC_flat_nodup h) with ⟨_, hpw⟩
  rcases Nat.lt_or_ge p p' with hlt2 | hge
  · have := (List.pairwise_iff_getElem.mp hpw) p p' hlt hlt' hlt2
    rw [getD_eq_getElem_of_lt hlt] at ha
    rw [getD_eq_getElem_of_lt hlt'] at ha'
    exact this ha ha'
  · have hlt2 : p' < p := Nat.lt_of_le_of_ne hge (fun hh => hne hh.symm)
    have := (List.pairwise_iff_getElem.mp hpw) p' p hlt' hlt hlt2
    rw [getD_eq_getElem_of_lt hlt] at ha
    rw [getD_eq_getElem_of_lt hlt'] at ha'
    exact this ha' ha

theorem levels_disjoint {b : HalfBook} {Q : List (List Nat)} (h : WF b Q)
    {p p' : Nat} (hp : p < b.orders.length) (hp' : p' < b.orders.length)
    (hne : p ≠ p') {a : Nat} (ha : a ∈ Q.getD p []) : a ∉ Q.getD p' [] :=
  levels_disjointC h.1 hp hp' hne ha

theorem levelRep_head_none_iff {A : List Order} {p : Nat} {pl : PriceLevel}
    {q : List Nat} (h : levelRep A p pl q) : pl.head = none ↔ q = [] := by
  have hseg := levelRep_lseg h
  constructor
  · intro hh
    cases q with
    | nil => rfl
    | cons x rest =>
      rcases hseg with ⟨hcur, _⟩
      rw [hh] at hcur
      cases hcur
  · intro hq
    subst hq
    rcases hseg with ⟨_, hcur⟩
    exact hcur

theorem getD_of_getElem?_levels {L : List PriceLevel} {p : Nat}
    (h : p < L.length) : L[p]? = some (L.getD p PriceLevel.default) := by
  rw [List.getD_eq_getElem?_getD, List.getElem?_eq_getElem h]
  rfl

theorem getD_of_getElem?_arena {A : List Order} {a : Nat}
    (h : a < A.length) : A[a]? = some (A.getD a Order.default) := by
  rw [List.getD_eq_getElem?_getD, List.getElem?_eq_getElem h]
  rfl

theorem sideLeB_refl (s : Side) (t : Nat) : sideLeB s t t = true := by
  cases s <;> simp [sideLeB]

theorem tobSpec_insert {b b' : HalfBook} {idx : Nat}
    (ht : TobSpec b) (hside : b'.side = b.side)
    (hlen : b'.orders.length = b.orders.length)
    (htob : b'.top_of_book = HalfBook.insertTob b.side b.top_of_book idx)
    (hidx : idx < b.orders.length)
    (hothers : ∀ p, p ≠ idx →
      (b'.orders.getD p PriceLevel.default).total_size =
        (b.orders.getD p PriceLevel.default).total_size)
    (hpos : 0 < (b'.orders.getD idx PriceLevel.default).total_size) :
    TobSpec b' := by
  unfold TobSpec at ht ⊢
  rw [htob, hlen, hside]
  rcases htb : b.top_of_book with _ | t
  · rw [htb] at ht
    cases hsd : b.side <;>
    · simp only [HalfBook.insertTob]
      refine ⟨hidx, by omega, ?_⟩
      intro p hplt hpne
      by_cases hpe : p = idx
      · subst hpe
        exact sideLeB_refl _ _
      · rw [hothers p hpe] at hpne
        exact absurd (ht p hplt) hpne
  · rw [htb] at ht
    rcases ht with ⟨htlt, htnz, hmax⟩
    have htnz' : ∀ p, p < b.orders.length →
        (b'.orders.getD p PriceLevel.default).total_size ≠ 0 →
        sideLeB b.side p t = true ∨ p = idx := by
      intro p hplt hpnz
      by_cases hpe : p = idx
      · exact Or.inr hpe
      · rw [hothers p hpe] at hpnz
        exact Or.inl (hmax p hplt hpnz)
    cases hsd : b.side
    · -- Buy: new tob is the max
      simp only [HalfBook.insertTob]
      by_cases hcmp : t < idx
      · rw [if_pos hcmp]
        refine ⟨hidx, by omega, ?_⟩
        intro p hplt hpnz
        rcases htnz' p hplt hpnz with hle | rfl
        · rw [hsd] at hle
          simp only [sideLeB] at hle ⊢
          simp only [decide_eq_true_eq] at hle ⊢
          omega
        · exact sideLeB_refl _ _
      · rw [if_neg hcmp]
        refine ⟨htlt, ?_, ?_⟩
        · by_cases hte : t = idx
          · subst hte
            omega
          · rw [hothers t hte]
            exact htnz
        · intro p hplt hpnz
          rcases htnz' p hplt hpnz with hle | rfl
          · rw [hsd] at hle
            exact hle
          · simp only [sideLeB]
            simp only [decide_eq_true_eq]
            omega
    · -- Sell: new tob is the min
      simp only [HalfBook.insertTob]
      by_cases hcmp : t > idx
      · rw [if_pos hcmp]
        refine ⟨hidx, by omega, ?_⟩
        intro p hplt hpnz
        rcases htnz' p hplt hpnz with hle | rfl
        · rw [hsd] at hle
          simp only [sideLeB] at hle ⊢
          simp only [decide_eq_true_eq] at hle ⊢
          omega
        · exact sideLeB_refl _ _
      · rw [if_neg hcmp]
        refine ⟨htlt, ?_, ?_⟩
        · by_cases hte : t = idx
          · subst hte
            omega
          · rw [hothers t hte]
            exact htnz
        · intro p hplt hpnz
          rcases htnz' p hplt hpnz with hle | rfl
          · rw [hsd] at hle
            exact hle
          · simp only [sideLeB]
            simp only [decide_eq_true_eq]
            omega

theorem WF_pop_free {b : HalfBook} {Q : List (List Nat)} {ai : Nat} {rest : List Nat}
    (hwf : WF b Q) (hfl : b.free_list = ai :: rest) :
    WF { b with free_list := rest } Q := by
  refine WF_mk ?_ ?_ ?_ ?_ ?_ ?_ ?_ ?_ ?_
  · exact @WF_qlen b _ hwf
  · exact @WF_level b _ hwf
  · exact @WF_flat_nodup b _ hwf
  · exact @WF_keys_nodup b _ hwf
  · exact @WF_sound b _ hwf
  · exact @WF_chainIds b _ hwf
  · intro a ha
    exact WF_free hwf a (by rw [hfl]; exact List.mem_cons_of_mem _ ha)
  · have := WF_free_nodup hwf
    rw [hfl] at this
    exact (List.nodup_cons.mp this).2
  · exact @WF_tob b _ hwf

theorem WF_grow_arena {b : HalfBook} {Q : List (List Nat)} (hwf : WF b Q) :
    WF { b with arena := b.arena ++ [Order.default] } Q := by
  have hptr : ∀ a, a ∈ Q.flatten →
      (b.arena ++ [Order.default])[a]? = b.arena[a]? := fun a ha =>
    List.getElem?_append_left (flatten_mem_lt hwf ha)
  have hgd : ∀ a, a ∈ Q.flatten →
      ((b.arena ++ [Order.default]).getD a Order.default) =
        b.arena.getD a Order.default := by
    intro a ha
    rw [List.getD_eq_getElem?_getD, List.getD_eq_getElem?_getD, hptr a ha]
  refine WF_mk ?_ ?_ ?_ ?_ ?_ ?_ ?_ ?_ ?_
  · exact @WF_qlen b _ hwf
  · intro p hp
    rcases WF_level hwf p hp with ⟨hch, htail, htotal, hpos⟩
    refine ⟨?_, htail, ?_, ?_⟩
    · rcases chainB_iff_lseg.mp hch with ⟨tp, hseg⟩
      refine chainB_iff_lseg.mpr ⟨tp, lseg_congr (fun a ha => ?_) hseg⟩
      rw [hptr a (mem_level_mem_flatten hwf hp ha)]
    · rw [htotal]
      exact sumSizes_congr (fun a ha => by
        rw [hgd a (mem_level_mem_flatten hwf hp ha)])
    · intro a ha
      rw [hgd a (mem_level_mem_flatten hwf hp ha)]
      exact hpos a ha
  · exact @WF_flat_nodup b _ hwf
  · exact @WF_keys_nodup b _ hwf
  · intro pr hpr
    rcases WF_sound hwf pr hpr with ⟨hmem, hid⟩
    exact ⟨hmem, by rw [hgd pr.2 hmem]; exact hid⟩
  · intro p hp a ha
    rw [hgd a (mem_level_mem_flatten hwf hp ha)]
    exact @WF_chainIds b _ hwf p hp a ha
  · intro a ha
    rcases WF_free hwf a ha with ⟨hlt, hnm⟩
    exact ⟨by rw [List.length_append]; simp; omega, hnm⟩
  · exact @WF_free_nodup b _ hwf
  · exact @WF_tob b _ hwf

theorem getD_set_ne' {α : Type} {L : List α} {i x : Nat} {v d : α} (h : i ≠ x) :
    (L.set i v).getD x d = L.getD x d := by
  rw [List.getD_eq_getElem?_getD, List.getD_eq_getElem?_getD, List.getElem?_set_ne h]

theorem getD_set_self' {α : Type} {L : List α} {i : Nat} {v d : α}
    (h : i < L.length) : (L.set i v).getD i d = v := by
  rw [List.getD_eq_getElem?_getD, List.getElem?_set_self h]
  rfl

/-- Common core of the two `insert` success paths: given the final arena
and the new head pointer with the segment fact for the extended FIFO,
the updated book is well-formed. -/
theorem insert_core_wf {b1 : HalfBook} {Q : List (List Nat)} {idx ai id : Nat}
    {size : Int} {Afin : List Order} {head' : Option Nat}
    (hwf : WF b1 Q) (hid : idsLookup b1.ids id = none) (hs : 0 < size)
    (hidx : idx < b1.orders.length) (hai_nm : ai ∉ Q.flatten)
    (hai_free : ai ∉ b1.free_list)
    (F1 : lseg Afin idx none head' (Q.getD idx [] ++ [ai]) (some ai) none)
    (F3 : ∀ a, a ∉ Q.getD idx [] → a ≠ ai → Afin[a]? = b1.arena[a]?)
    (F2 : ∀ a, a ≠ ai →
      (Afin.getD a Order.default).size = (b1.arena.getD a Order.default).size ∧
      (Afin.getD a Order.default).id = (b1.arena.getD a Order.default).id)
    (F4 : Afin.getD ai Order.default =
      ⟨id, idx, size, (b1.orders.getD idx PriceLevel.default).tail, none⟩)
    (F5 : Afin.length = b1.arena.length) :
    WF { b1 with
          orders := b1.orders.set idx
            ⟨head', some ai, (b1.orders.getD idx PriceLevel.default).total_size + size⟩,
          arena := Afin,
          ids := idsStore b1.ids id ai,
          top_of_book := HalfBook.insertTob b1.side b1.top_of_book idx }
        (Q.set idx (Q.getD idx [] ++ [ai])) := by
  have hidxQ : idx < Q.length := by rw [WF_qlen hwf]; exact hidx
  have hlr := WF_level hwf idx hidx
  have hperm := @flatten_set_append_perm _ _ ai hidxQ
  have hmem' : ∀ x, x ∈ (Q.set idx (Q.getD idx [] ++ [ai])).flatten ↔
      x = ai ∨ x ∈ Q.flatten := by
    intro x
    rw [hperm.mem_iff, List.mem_cons]
  have hQnd := level_nodup hwf hidx
  have haiq : ai ∉ Q.getD idx [] := fun hh => hai_nm (mem_level_mem_flatten hwf hidx hh)
  have hidpt : ∀ a, a ∈ Q.getD idx [] → a ≠ ai := fun a ha hh => haiq (hh ▸ ha)
  -- sizes over the old level are unchanged
  have hsz_q : ∀ a ∈ Q.getD idx [],
      (Afin.getD a Order.default).size = (b1.arena.getD a Order.default).size :=
    fun a ha => (F2 a (hidpt a ha)).1
  have htotal_old := hlr.2.2.1
  have hpos_old := hlr.2.2.2
  refine WF_mk ?_ ?_ ?_ ?_ ?_ ?_ ?_ ?_ ?_
  · -- lengths
    simp only [List.length_set]
    exact WF_qlen hwf
  · -- levels
    intro p hp
    simp only [List.length_set] at hp
    by_cases hpe : p = idx
    · subst hpe
      rw [getD_set_self' hidx, getD_set_self' hidxQ]
      refine levelRep_of_lseg ?_ ?_ ?_
      · exact F1
      · rw [sumSizes_append, sumSizes_cons, sumSizes_nil, htotal_old]
        rw [sumSizes_congr hsz_q, F4]
        ring
      · intro a ha
        rcases List.mem_append.mp ha with haq | hax
        · rw [hsz_q a haq]
          exact hpos_old a haq
        · have hax' : a = ai := by simpa using hax
          subst hax'
          rw [F4]
          exact hs
    · rw [getD_set_ne' (fun hh => hpe hh.symm), getD_set_ne' (fun hh => hpe hh.symm)]
      rcases WF_level hwf p hp with ⟨hch, htail, htotal, hpos⟩
      have hdisj : ∀ a ∈ Q.getD p [], a ∉ Q.getD idx [] := fun a ha =>
        levels_disjoint hwf hp hidx hpe ha
      have hne_ai : ∀ a ∈ Q.getD p [], a ≠ ai := fun a ha hh =>
        hai_nm (hh ▸ mem_level_mem_flatten hwf hp ha)
      refine ⟨?_, htail, ?_, ?_⟩
      · rcases chainB_iff_lseg.mp hch with ⟨tp, hseg⟩
        refine chainB_iff_lseg.mpr ⟨tp, lseg_congr (fun a ha => ?_) hseg⟩
        rw [F3 a (hdisj a ha) (hne_ai a ha)]
      · rw [htotal]
        exact (sumSizes_congr (fun a ha => (F2 a (hne_ai a ha)).1)).symm
      · intro a ha
        rw [(F2 a (hne_ai a ha)).1]
        exact hpos a ha
  · -- flatten nodup
    refine hperm.nodup_iff.mpr (List.nodup_cons.mpr ⟨hai_nm, WF_flat_nodup hwf⟩)
  · exact keysNodup_idsStore (WF_keys_nodup hwf) id ai
  · -- ids sound
    intro pr hpr
    rcases mem_idsStore hpr with rfl | hold
    · refine ⟨(hmem' ai).mpr (Or.inl rfl), ?_⟩
      rw [F4]
    · rcases WF_sound hwf pr hold with ⟨hmem, hidv⟩
      have hne : pr.2 ≠ ai := fun hh => hai_nm (hh ▸ hmem)
      exact ⟨(hmem' pr.2).mpr (Or.inr hmem), by rw [(F2 pr.2 hne).2]; exact hidv⟩
  · -- chain ids
    intro p hp a ha
    simp only [List.length_set] at hp
    by_cases hpe : p = idx
    · subst hpe
      rw [getD_set_self' hidxQ] at ha
      rcases List.mem_append.mp ha with haq | hax
      · have hne := hidpt a haq
        rw [(F2 a hne).2]
        have hold := WF_chainIds hwf _ hidx a haq
        have hkey : (b1.arena.getD a Order.default).id ≠ id := by
          intro hh
          rw [hh, hid] at hold
          cases hold
        rw [idsLookup_store_ne _ _ _ _ hkey]
        exact hold
      · have hax' : a = ai := by simpa using hax
        subst hax'
        rw [F4]
        exact idsLookup_store_self _ _ _
    · rw [getD_set_ne' (fun hh => hpe hh.symm)] at ha
      have hne : a ≠ ai := fun hh =>
        hai_nm (hh ▸ mem_level_mem_flatten hwf hp ha)
      rw [(F2 a hne).2]
      have hold := WF_chainIds hwf p hp a ha
      have hkey : (b1.arena.getD a Order.default).id ≠ id := by
        intro hh
        rw [hh, hid] at hold
        cases hold
      rw [idsLookup_store_ne _ _ _ _ hkey]
      exact hold
  · -- free list
    intro a ha
    rcases WF_free hwf a ha with ⟨hlt, hnm⟩
    refine ⟨by rw [F5]; exact hlt, ?_⟩
    rw [hmem' a]
    rintro (rfl | hmem)
    · exact hai_free ha
    · exact hnm hmem
  · exact @WF_free_nodup b1 _ hwf
  · -- top of book
    have hnn : 0 ≤ (b1.orders.getD idx PriceLevel.default).total_size := by
      rw [htotal_old]
      exact sumSizes_nonneg hpos_old
    refine tobSpec_insert (WF_tob hwf) rfl (by simp) rfl hidx ?_ ?_
    · intro p hpe
      rw [getD_set_ne' (fun hh => hpe hh.symm)]
    · rw [getD_set_self' hidx]
      simp only
      omega

theorem getLast?_none_nil {q : List Nat} (h : q.getLast? = none) : q = [] := by
  cases q with
  | nil => rfl
  | cons x xs =>
    rw [List.getLast?_eq_getLast _ (by simp)] at h
    cases h

theorem insertAfter_ok {b1 : HalfBook} {Q : List (List Nat)} {id idx ai : Nat}
    {size : Int} (hwf : WF b1 Q) (hid : idsLookup b1.ids id = none) (hs : 0 < size)
    (hidx : idx < b1.orders.length) (hai_lt : ai < b1.arena.length)
    (hai_nm : ai ∉ Q.flatten) (hai_free : ai ∉ b1.free_list) :
    (HalfBook.insertAfter b1 id idx size ai).1 = Except.ok () ∧
    WF (HalfBook.insertAfter b1 id idx size ai).2 (Q.set idx (Q.getD idx [] ++ [ai])) ∧
    (HalfBook.insertAfter b1 id idx size ai).2.min_price = b1.min_price ∧
    (HalfBook.insertAfter b1 id idx size ai).2.max_price = b1.max_price ∧
    (HalfBook.insertAfter b1 id idx size ai).2.tick_size = b1.tick_size ∧
    (HalfBook.insertAfter b1 id idx size ai).2.side = b1.side ∧
    (HalfBook.insertAfter b1 id idx size ai).2.free_list = b1.free_list ∧
    (HalfBook.insertAfter b1 id idx size ai).2.top_of_book =
      HalfBook.insertTob b1.side b1.top_of_book idx ∧
    (HalfBook.insertAfter b1 id idx size ai).2.ids = idsStore b1.ids id ai ∧
    (HalfBook.insertAfter b1 id idx size ai).2.orders = b1.orders.set idx
      ⟨(if (b1.orders.getD idx PriceLevel.default).head = none then some ai
         else (b1.orders.getD idx PriceLevel.default).head), some ai,
        (b1.orders.getD idx PriceLevel.default).total_size + size⟩ ∧
    (HalfBook.insertAfter b1 id idx size ai).2.arena.length = b1.arena.length ∧
    (HalfBook.insertAfter b1 id idx size ai).2.arena.getD ai Order.default =
      ⟨id, idx, size, (b1.orders.getD idx PriceLevel.default).tail, none⟩ ∧
    (∀ a, a ≠ ai →
      ((HalfBook.insertAfter b1 id idx size ai).2.arena.getD a Order.default).size =
        (b1.arena.getD a Order.default).size ∧
      ((HalfBook.insertAfter b1 id idx size ai).2.arena.getD a Order.default).id =
        (b1.arena.getD a Order.default).id) := by
  have hidxQ : idx < Q.length := by rw [WF_qlen hwf]; exact hidx
  have hlr := WF_level hwf idx hidx
  have e1 : b1.orders[idx]? = some (b1.orders.getD idx PriceLevel.default) :=
    getD_of_getElem?_levels hidx
  have haiq : ai ∉ Q.getD idx [] := fun hh => hai_nm (mem_level_mem_flatten hwf hidx hh)
  have hQnd := level_nodup hwf hidx
  have hseg := levelRep_lseg hlr
  rcases htail : (b1.orders.getD idx PriceLevel.default).tail with _ | tl
  · -- the level was empty
    have hq : Q.getD idx [] = [] := by
      refine getLast?_none_nil ?_
      rw [← hlr.2.1, htail]
    have hhead : (b1.orders.getD idx PriceLevel.default).head = none :=
      (levelRep_head_none_iff hlr).mpr hq
    have e4 : b1.arena[ai]? = some (b1.arena.getD ai Order.default) :=
      getD_of_getElem?_arena hai_lt
    have hEQ : HalfBook.insertAfter b1 id idx size ai = (Except.ok (),
        { b1 with
          orders := b1.orders.set idx
            ⟨some ai, some ai, (b1.orders.getD idx PriceLevel.default).total_size + size⟩,
          arena := b1.arena.set ai ⟨id, idx, size, none, none⟩,
          ids := idsStore b1.ids id ai,
          top_of_book := HalfBook.insertTob b1.side b1.top_of_book idx }) := by
      rw [HalfBook.insertAfter, e1]
      simp only [hhead, htail, if_pos rfl, if_true, HalfBook.insertFinish,
        List.getElem?_set_self hidx, List.set_set, e4]
    rw [hEQ]
    have F5 : (b1.arena.set ai (⟨id, idx, size, none, none⟩ : Order)).length
        = b1.arena.length := by rw [List.length_set]
    have F4 : (b1.arena.set ai (⟨id, idx, size, none, none⟩ : Order)).getD ai
        Order.default = ⟨id, idx, size, none, none⟩ := by
      rw [getD_set_self hai_lt]
    have F2 : ∀ a, a ≠ ai →
        ((b1.arena.set ai (⟨id, idx, size, none, none⟩ : Order)).getD a Order.default).size =
          (b1.arena.getD a Order.default).size ∧
        ((b1.arena.set ai (⟨id, idx, size, none, none⟩ : Order)).getD a Order.default).id =
          (b1.arena.getD a Order.default).id := by
      intro a hne
      rw [getD_set_outside (fun hh => hne hh.symm)]
      exact ⟨rfl, rfl⟩
    refine ⟨rfl, ?_, rfl, rfl, rfl, rfl, rfl, rfl, rfl, by rw [hhead]; rfl, F5, F4, F2⟩
    have hwfS := @insert_core_wf _ _ _ _ _ _ _ (some ai) hwf hid hs hidx hai_nm
      hai_free ?_ ?_ F2 (by rw [htail]; exact F4) F5
    · exact hwfS
    · rw [hq]
      exact lseg_single_new hai_lt
    · intro a _ hne
      rw [List.getElem?_set_ne (fun hh => hne hh.symm)]
  · -- the level had a tail
    have hqne : Q.getD idx [] ≠ [] := by
      intro hh
      rw [hlr.2.1, hh] at htail
      simp at htail
    have htl_mem : tl ∈ Q.getD idx [] := by
      have h2 := hlr.2.1
      rw [htail] at h2
      cases hq : Q.getD idx [] with
      | nil => exact absurd hq hqne
      | cons x xs =>
        rw [hq, List.getLast?_eq_getLast _ (by simp)] at h2
        have h3 : tl = (x :: xs).getLast (by simp) := by injection h2
        rw [h3]
        exact List.getLast_mem _
    have htl_ne_ai : tl ≠ ai := fun hh => haiq (by rw [← hh]; exact htl_mem)
    have htl_lt : tl < b1.arena.length := by
      rcases lseg_mem hseg tl htl_mem with ⟨o, hget, _⟩
      exact getElem?_isSome_lt hget
    have e2 : b1.arena[tl]? = some (b1.arena.getD tl Order.default) :=
      getD_of_getElem?_arena htl_lt
    have hhead : (b1.orders.getD idx PriceLevel.default).head ≠ none := by
      intro hh
      exact hqne ((levelRep_head_none_iff hlr).mp hh)
    have e4 : ((b1.arena.set tl
        ({ b1.arena.getD tl Order.default with next := some ai } : Order)))[ai]? =
        some ((b1.arena.set tl
          ({ b1.arena.getD tl Order.default with next := some ai} : Order)).getD ai
          Order.default) := by
      refine getD_of_getElem?_arena ?_
      rw [List.length_set]
      exact hai_lt
    have hEQ : HalfBook.insertAfter b1 id idx size ai = (Except.ok (),
        { b1 with
          orders := b1.orders.set idx
            ⟨(b1.orders.getD idx PriceLevel.default).head, some ai,
              (b1.orders.getD idx PriceLevel.default).total_size + size⟩,
          arena := (b1.arena.set tl
            ({ b1.arena.getD tl Order.default with next := some ai })).set ai
            ⟨id, idx, size, some tl, none⟩,
          ids := idsStore b1.ids id ai,
          top_of_book := HalfBook.insertTob b1.side b1.top_of_book idx }) := by
      rw [HalfBook.insertAfter, e1]
      simp only [htail, if_neg hhead, HalfBook.insertFinish,
        List.getElem?_set_self hidx, List.set_set, e2, e4]
    rw [hEQ]
    have F5 : ((b1.arena.set tl ({ b1.arena.getD tl Order.default with next := some ai })).set ai
        (⟨id, idx, size, some tl, none⟩ : Order)).length = b1.arena.length := by
      rw [List.length_set, List.length_set]
    have F4 : ((b1.arena.set tl ({ b1.arena.getD tl Order.default with next := some ai })).set ai
        (⟨id, idx, size, some tl, none⟩ : Order)).getD ai Order.default =
        ⟨id, idx, size, some tl, none⟩ := by
      rw [getD_set_self (by rw [List.length_set]; exact hai_lt)]
    have F2 : ∀ a, a ≠ ai →
        (((b1.arena.set tl ({ b1.arena.getD tl Order.default with next := some ai })).set ai
          (⟨id, idx, size, some tl, none⟩ : Order)).getD a Order.default).size =
          (b1.arena.getD a Order.default).size ∧
        (((b1.arena.set tl ({ b1.arena.getD tl Order.default with next := some ai })).set ai
          (⟨id, idx, size, some tl, none⟩ : Order)).getD a Order.default).id =
          (b1.arena.getD a Order.default).id := by
      intro a hne
      rw [getD_set_outside (fun hh => hne hh.symm)]
      by_cases hta : a = tl
      · subst hta
        rw [getD_set_self htl_lt]
        exact ⟨rfl, rfl⟩
      · rw [getD_set_outside (fun hh => hta hh.symm)]
        exact ⟨rfl, rfl⟩
    refine ⟨rfl, ?_, rfl, rfl, rfl, rfl, rfl, rfl, rfl, by rw [if_neg hhead], F5, F4, F2⟩
    have hwfS := @insert_core_wf _ _ _ _ _ _ _
      ((b1.orders.getD idx PriceLevel.default).head)
      hwf hid hs hidx hai_nm hai_free ?_ ?_ F2 (by rw [htail]; exact F4) F5
    · exact hwfS
    · exact lseg_snoc (htail ▸ hseg) hQnd haiq e2 hqne hai_lt
    · intro a haq hne
      rw [List.getElem?_set_ne (fun hh => hne hh.symm),
        List.getElem?_set_ne (fun hh => haq (by rw [← hh]; exact htl_mem))]

theorem getD_append_ne {A : List Order} {x : Order} {a : Nat} (h : a ≠ A.length) :
    (A ++ [x]).getD a Order.default = A.getD a Order.default := by
  rcases Nat.lt_or_ge a A.length with hlt | hge
  · rw [List.getD_eq_getElem?_getD, List.getD_eq_getElem?_getD,
      List.getElem?_append_left hlt]
  · have hgt : A.length < a + 1 := by omega
    rw [List.getD_eq_getElem?_getD, List.getD_eq_getElem?_getD,
      @List.getElem?_eq_none _ A _ hge, List.getElem?_eq_none]
    rw [List.length_append]
    simp only [List.length_cons, List.length_nil]
    omega

/-- Full characterization of a successful `insert` on a well-formed book. -/
theorem insert_ok {b : HalfBook} {Q : List (List Nat)} {id : Nat} {price size : Int}
    (hwf : WF b Q) (hid : idsLookup b.ids id = none) (hp : 0 < price) (hs : 0 < size)
    (hidx : b.calculate_price_index price < b.orders.length) :
    ∃ ai, ai ∉ Q.flatten ∧
    (b.insert id price size).1 = Except.ok () ∧
    WF (b.insert id price size).2
      (Q.set (b.calculate_price_index price)
        (Q.getD (b.calculate_price_index price) [] ++ [ai])) ∧
    (b.insert id price size).2.min_price = b.min_price ∧
    (b.insert id price size).2.max_price = b.max_price ∧
    (b.insert id price size).2.tick_size = b.tick_size ∧
    (b.insert id price size).2.side = b.side ∧
    (b.insert id price size).2.top_of_book =
      HalfBook.insertTob b.side b.top_of_book (b.calculate_price_index price) ∧
    (b.insert id price size).2.ids = idsStore b.ids id ai ∧
    (b.insert id price size).2.orders = b.orders.set (b.calculate_price_index price)
      ⟨(if (b.orders.getD (b.calculate_price_index price) PriceLevel.default).head = none
         then some ai
         else (b.orders.getD (b.calculate_price_index price) PriceLevel.default).head),
        some ai,
        (b.orders.getD (b.calculate_price_index price) PriceLevel.default).total_size + size⟩ ∧
    (b.insert id price size).2.arena.getD ai Order.default =
      ⟨id, b.calculate_price_index price, size,
        (b.orders.getD (b.calculate_price_index price) PriceLevel.default).tail, none⟩ ∧
    (∀ a, a ≠ ai →
      ((b.insert id price size).2.arena.getD a Order.default).size =
        (b.arena.getD a Order.default).size ∧
      ((b.insert id price size).2.arena.getD a Order.default).id =
        (b.arena.getD a Order.default).id) ∧
    ((∃ rest, b.free_list = ai :: rest ∧ (b.insert id price size).2.free_list = rest ∧
        (b.insert id price size).2.arena.length = b.arena.length) ∨
      (b.free_list = [] ∧ (b.insert id price size).2.free_list = [] ∧ ai = b.arena.length ∧
        (b.insert id price size).2.arena.length = b.arena.length + 1)) := by
  have hps : ¬(price ≤ 0 ∨ size ≤ 0) := by omega
  rcases hfl : b.free_list with _ | ⟨ai, rest⟩
  · -- grow the arena
    have hEQ : b.insert id price size =
        HalfBook.insertAfter { b with arena := b.arena ++ [Order.default] } id
          (b.calculate_price_index price) size b.arena.length := by
      rw [HalfBook.insert, if_neg hps, hfl]
    have hwf1 := WF_grow_arena hwf
    have hnm : b.arena.length ∉ Q.flatten := fun hmem =>
      Nat.lt_irrefl _ (flatten_mem_lt hwf hmem)
    have h1 := @insertAfter_ok _ _ id (b.calculate_price_index price)
      b.arena.length size hwf1 hid hs hidx
      (by rw [List.length_append]; simp) hnm (by rw [hfl]; exact List.not_mem_nil _)
    rcases h1 with ⟨hok, hwfr, hmin, hmax, htick, hside, hfree, htob, hids, hord,
      halen, hgai, hoff⟩
    refine ⟨b.arena.length, hnm, ?_, ?_, ?_, ?_, ?_, ?_, ?_, ?_, ?_, ?_, ?_, ?_⟩
    · rw [hEQ]; exact hok
    · rw [hEQ]; exact hwfr
    · rw [hEQ]; exact hmin
    · rw [hEQ]; exact hmax
    · rw [hEQ]; exact htick
    · rw [hEQ]; exact hside
    · rw [hEQ]; exact htob
    · rw [hEQ]; exact hids
    · rw [hEQ]; exact hord
    · rw [hEQ]; exact hgai
    · intro a hne
      rw [hEQ]
      rcases hoff a hne with ⟨hsz, hidv⟩
      rw [hsz, hidv]
      constructor
      · rw [getD_append_ne hne]
      · rw [getD_append_ne hne]
    · right
      refine ⟨rfl, ?_, rfl, ?_⟩
      · rw [hEQ, hfree]
        exact hfl
      · rw [hEQ, halen, List.length_append]
        simp
  · -- pop the free list
    have hEQ : b.insert id price size =
        HalfBook.insertAfter { b with free_list := rest } id
          (b.calculate_price_index price) size ai := by
      rw [HalfBook.insert, if_neg hps, hfl]
    have hwf1 := WF_pop_free hwf hfl
    rcases WF_free hwf ai (by rw [hfl]; exact List.mem_cons_self _ _) with ⟨hai_lt, hai_nm⟩
    have hai_rest : ai ∉ rest := by
      have := WF_free_nodup hwf
      rw [hfl] at this
      exact (List.nodup_cons.mp this).1
    have h1 := @insertAfter_ok _ _ id (b.calculate_price_index price)
      ai size hwf1 hid hs hidx hai_lt hai_nm hai_rest
    rcases h1 with ⟨hok, hwfr, hmin, hmax, htick, hside, hfree, htob, hids, hord,
      halen, hgai, hoff⟩
    refine ⟨ai, hai_nm, ?_, ?_, ?_, ?_, ?_, ?_, ?_, ?_, ?_, ?_, ?_, ?_⟩
    · rw [hEQ]; exact hok
    · rw [hEQ]; exact hwfr
    · rw [hEQ]; exact hmin
    · rw [hEQ]; exact hmax
    · rw [hEQ]; exact htick
    · rw [hEQ]; exact hside
    · rw [hEQ]; exact htob
    · rw [hEQ]; exact hids
    · rw [hEQ]; exact hord
    · rw [hEQ]; exact hgai
    · intro a hne
      rw [hEQ]
      exact hoff a hne
    · left
      exact ⟨rest, rfl, by rw [hEQ, hfree], by rw [hEQ, halen]⟩

/-! ## Correctness of the best-level scan -/

theorem findDown_some {b : HalfBook} :
    ∀ {t r : Nat}, t ≤ b.orders.length → HalfBook.findDown b t = some r →
      r < t ∧ (b.orders.getD r PriceLevel.default).total_size ≠ 0 ∧
      ∀ s, r < s → s < t → (b.orders.getD s PriceLevel.default).total_size = 0 := by
  intro t
  induction t with
  | zero => intro r _ h; cases h
  | succ t ih =>
    intro r ht h
    rw [HalfBook.findDown] at h
    have hget : b.orders[t]? = some (b.orders.getD t PriceLevel.default) :=
      getD_of_getElem?_levels (by omega)
    simp only [hget] at h
    by_cases hz : (b.orders.getD t PriceLevel.default).total_size ≠ 0
    · rw [if_pos hz] at h
      injection h with h
      subst h
      exact ⟨by omega, hz, fun s hs1 hs2 => by omega⟩
    · rw [if_neg hz] at h
      push_neg at hz
      rcases ih (by omega) h with ⟨h1, h2, h3⟩
      refine ⟨by omega, h2, ?_⟩
      intro s hs1 hs2
      rcases Nat.lt_or_ge s t with hst | hst
      · exact h3 s hs1 hst
      · have : s = t := by omega
        subst this
        exact hz

theorem findDown_none {b : HalfBook} :
    ∀ {t : Nat}, t ≤ b.orders.length → HalfBook.findDown b t = none →
      ∀ s < t, (b.orders.getD s PriceLevel.default).total_size = 0 := by
  intro t
  induction t with
  | zero => intro _ _ s hs; omega
  | succ t ih =>
    intro ht h s hs
    rw [HalfBook.findDown] at h
    have hget : b.orders[t]? = some (b.orders.getD t PriceLevel.default) :=
      getD_of_getElem?_levels (by omega)
    simp only [hget] at h
    by_cases hz : (b.orders.getD t PriceLevel.default).total_size ≠ 0
    · rw [if_pos hz] at h
      cases h
    · rw [if_neg hz] at h
      push_neg at hz
      rcases Nat.lt_or_ge s t with hst | hst
      · exact ih (by omega) h s hst
      · have : s = t := by omega
        subst this
        exact hz

theorem findUp_some {b : HalfBook} :
    ∀ {fuel t r : Nat}, HalfBook.findUp b fuel t = some r →
      t < r ∧ r < b.orders.length ∧
      (b.orders.getD r PriceLevel.default).total_size ≠ 0 ∧
      ∀ s, t < s → s < r → (b.orders.getD s PriceLevel.default).total_size = 0 := by
  intro fuel
  induction fuel with
  | zero => intro t r h; cases h
  | succ fuel ih =>
    intro t r h
    rw [HalfBook.findUp] at h
    rcases hget : b.orders[t + 1]? with _ | pl
    · simp only [hget] at h
      rcases ih h with ⟨h1, h2, h3, h4⟩
      refine ⟨by omega, h2, h3, ?_⟩
      intro s hs1 hs2
      rcases Nat.lt_or_ge (t + 1) s with hst | hst
      · exact h4 s hst hs2
      · have hlen : ¬ (t + 1 < b.orders.length) := fun hh => by
          rw [getD_of_getElem?_levels hh] at hget
          cases hget
        omega
    · simp only [hget] at h
      have hlt : t + 1 < b.orders.length := by
        by_contra hh
        rw [List.getElem?_eq_none (by omega)] at hget
        cases hget
      have hpl : pl = b.orders.getD (t + 1) PriceLevel.default := by
        rw [getD_of_getElem?_levels hlt] at hget
        injection hget with hh
        exact hh.symm
      by_cases hz : pl.total_size ≠ 0
      · rw [if_pos hz] at h
        injection h with h
        subst h
        refine ⟨by omega, hlt, by rw [← hpl]; exact hz, ?_⟩
        intro s hs1 hs2
        omega
      · rw [if_neg hz] at h
        push_neg at hz
        rcases ih h with ⟨h1, h2, h3, h4⟩
        refine ⟨by omega, h2, h3, ?_⟩
        intro s hs1 hs2
        rcases Nat.lt_or_ge (t + 1) s with hst | hst
        · exact h4 s hst hs2
        · have : s = t + 1 := by omega
          subst this
          rw [← hpl]
          exact hz

theorem findUp_none {b : HalfBook} :
    ∀ {fuel t : Nat}, HalfBook.findUp b fuel t = none →
      ∀ s, t < s → s ≤ t + fuel → s < b.orders.length →
        (b.orders.getD s PriceLevel.default).total_size = 0 := by
  intro fuel
  induction fuel with
  | zero => intro t _ s hs1 hs2 _; omega
  | succ fuel ih =>
    intro t h s hs1 hs2 hs3
    rw [HalfBook.findUp] at h
    rcases hget : b.orders[t + 1]? with _ | pl
    · simp only [hget] at h
      have hlen : ¬ (t + 1 < b.orders.length) := fun hh => by
        rw [getD_of_getElem?_levels hh] at hget
        cases hget
      omega
    · simp only [hget] at h
      have hlt : t + 1 < b.orders.length := by
        by_contra hh
        rw [List.getElem?_eq_none (by omega)] at hget
        cases hget
      have hpl : pl = b.orders.getD (t + 1) PriceLevel.default := by
        rw [getD_of_getElem?_levels hlt] at hget
        injection hget with hh
        exact hh.symm
      by_cases hz : pl.total_size ≠ 0
      · rw [if_pos hz] at h
        cases h
      · rw [if_neg hz] at h
        push_neg at hz
        rcases Nat.lt_or_ge (t + 1) s with hst | hst
        · exact ih h s hst (by omega) hs3
        · have : s = t + 1 := by omega
          subst this
          rw [← hpl]
          exact hz

theorem tobSpec_none {bb : HalfBook}
    (h : ∀ p < bb.orders.length, (bb.orders.getD p PriceLevel.default).total_size = 0) :
    TobSpec { bb with top_of_book := none } := by
  unfold TobSpec
  exact h

theorem tobSpec_some {bb : HalfBook} {t : Nat} (h1 : t < bb.orders.length)
    (h2 : (bb.orders.getD t PriceLevel.default).total_size ≠ 0)
    (h3 : ∀ p < bb.orders.length,
      (bb.orders.getD p PriceLevel.default).total_size ≠ 0 → sideLeB bb.side p t = true) :
    TobSpec { bb with top_of_book := some t } := by
  unfold TobSpec
  exact ⟨h1, h2, h3⟩

/-- After the level at the stale top `t` has drained, rescanning yields a
correct top-of-book pointer. -/
theorem findNext_correct {bb : HalfBook} {t : Nat} (ht : t < bb.orders.length)
    (hmax : ∀ r < bb.orders.length,
      (bb.orders.getD r PriceLevel.default).total_size ≠ 0 → sideLeB bb.side r t = true)
    (htz : (bb.orders.getD t PriceLevel.default).total_size = 0) :
    TobSpec { bb with top_of_book := bb.find_next_best_level t } := by
  rcases hres : bb.find_next_best_level t with _ | r
  · refine tobSpec_none ?_
    intro p hp
    by_contra hpz
    have hle := hmax p hp hpz
    unfold HalfBook.find_next_best_level at hres
    cases hsd : bb.side
    · simp only [hsd] at hres
      rw [hsd] at hle
      simp only [sideLeB, decide_eq_true_eq] at hle
      by_cases ht0 : t = 0
      · subst ht0
        have : p = 0 := by omega
        subst this
        exact hpz htz
      · rw [if_neg ht0] at hres
        rcases Nat.lt_or_ge p t with hpt | hpt
        · exact hpz (findDown_none (by omega) hres p hpt)
        · have : p = t := by omega
          subst this
          exact hpz htz
    · simp only [hsd] at hres
      rw [hsd] at hle
      simp only [sideLeB, decide_eq_true_eq] at hle
      by_cases htL : t = bb.orders.length
      · omega
      · rw [if_neg htL] at hres
        rcases Nat.lt_or_ge t p with hpt | hpt
        · exact hpz (findUp_none hres p hpt (by omega) hp)
        · have : p = t := by omega
          subst this
          exact hpz htz
  · unfold HalfBook.find_next_best_level at hres
    cases hsd : bb.side
    · simp only [hsd] at hres
      by_cases ht0 : t = 0
      · rw [if_pos ht0] at hres
        cases hres
      · rw [if_neg ht0] at hres
        rcases findDown_some (by omega) hres with ⟨h1, h2, h3⟩
        rw [← hsd]
        refine tobSpec_some (by omega) h2 ?_
        intro p hp hpz
        rw [hsd]
        simp only [sideLeB, decide_eq_true_eq]
        have hle := hmax p hp hpz
        rw [hsd] at hle
        simp only [sideLeB, decide_eq_true_eq] at hle
        by_contra hgt
        push_neg at hgt
        rcases Nat.lt_or_ge p t with hpt | hpt
        · exact hpz (h3 p (by omega) hpt)
        · have : p = t := by omega
          subst this
          exact hpz htz
    · simp only [hsd] at hres
      by_cases htL : t = bb.orders.length
      · omega
      · rw [if_neg htL] at hres
        rcases findUp_some hres with ⟨h1, h2, h3, h4⟩
        rw [← hsd]
        refine tobSpec_some h2 h3 ?_
        intro p hp hpz
        rw [hsd]
        simp only [sideLeB, decide_eq_true_eq]
        have hle := hmax p hp hpz
        rw [hsd] at hle
        simp only [sideLeB, decide_eq_true_eq] at hle
        by_contra hgt
        push_neg at hgt
        rcases Nat.lt_or_ge t p with hpt | hpt
        · exact hpz (h4 p hpt (by omega))
        · have : p = t := by omega
          subst this
          exact hpz htz

/-! ## Top-of-book uniqueness and congruence -/

theorem sideLeB_antisymm {s : Side} {a b : Nat} (h1 : sideLeB s a b = true)
    (h2 : sideLeB s b a = true) : a = b := by
  cases s <;> simp only [sideLeB, decide_eq_true_eq] at h1 h2 <;> omega

theorem tobSpec_unique {b b' : HalfBook} (hb : TobSpec b) (hb' : TobSpec b')
    (hside : b'.side = b.side) (hlen : b'.orders.length = b.orders.length)
    (htot : ∀ p < b.orders.length,
      (b'.orders.getD p PriceLevel.default).total_size =
        (b.orders.getD p PriceLevel.default).total_size) :
    b'.top_of_book = b.top_of_book := by
  unfold TobSpec at hb hb'
  rcases ht : b.top_of_book with _ | t <;> rcases ht' : b'.top_of_book with _ | t'
  · rfl
  · rw [ht] at hb
    rw [ht'] at hb'
    rcases hb' with ⟨h1, h2, _⟩
    rw [hlen] at h1
    rw [htot t' h1] at h2
    exact absurd (hb t' h1) h2
  · rw [ht] at hb
    rw [ht'] at hb'
    rcases hb with ⟨h1, h2, _⟩
    have := hb' t (by omega)
    rw [htot t h1] at this
    exact absurd this h2
  · rw [ht] at hb
    rw [ht'] at hb'
    rcases hb with ⟨h1, h2, hm⟩
    rcases hb' with ⟨h1', h2', hm'⟩
    rw [hlen] at h1'
    have ha : sideLeB b.side t' t = true := by
      refine hm t' h1' ?_
      rw [← htot t' h1']
      exact h2'
    have hbb : sideLeB b.side t t' = true := by
      have := hm' t (by omega) (by rw [htot t h1]; exact h2)
      rw [hside] at this
      exact this
    rw [sideLeB_antisymm hbb ha]

theorem tobSpec_congr {b b' : HalfBook} (h : TobSpec b) (hside : b'.side = b.side)
    (hord : b'.orders = b.orders) (htop : b'.top_of_book = b.top_of_book) :
    TobSpec b' := by
  unfold TobSpec at h ⊢
  rw [hside, hord, htop]
  exact h

theorem findDown_congr {b b' : HalfBook} (hord : b'.orders = b.orders) :
    ∀ t, HalfBook.findDown b' t = HalfBook.findDown b t := by
  intro t
  induction t with
  | zero => rfl
  | succ t ih =>
    rw [HalfBook.findDown, HalfBook.findDown, hord, ih]

theorem findUp_congr {b b' : HalfBook} (hord : b'.orders = b.orders) :
    ∀ fuel t, HalfBook.findUp b' fuel t = HalfBook.findUp b fuel t := by
  intro fuel
  induction fuel with
  | zero => intro t; rfl
  | succ fuel ih =>
    intro t
    rw [HalfBook.findUp, HalfBook.findUp, hord, ih]

theorem find_next_congr {b b' : HalfBook} (hside : b'.side = b.side)
    (hord : b'.orders = b.orders) (t : Nat) :
    b'.find_next_best_level t = b.find_next_best_level t := by
  unfold HalfBook.find_next_best_level
  rw [hside, hord]
  cases b.side
  · by_cases h0 : t = 0
    · rw [if_pos h0, if_pos h0]
    · rw [if_neg h0, if_neg h0, findDown_congr hord]
  · by_cases hL : t = b.orders.length
    · rw [if_pos hL, if_pos hL]
    · rw [if_neg hL, if_neg hL, findUp_congr hord]

/-! ## Relink frame lemmas and success of the unlink step -/

theorem relink_length {A : List Order} {pv nx : Option Nat}
    (hpv : ∀ pp, pv = some pp → pp < A.length)
    (hnx : ∀ nn, nx = some nn → nn < A.length) :
    (relinkArena A pv nx).length = A.length := by
  rcases pv with _ | pp
  · rcases nx with _ | nn
    · rw [relinkArena_none_none]
    · rw [relinkArena_none_some (getD_of_getElem?_arena (hnx nn rfl)), List.length_set]
  · rcases nx with _ | nn
    · rw [relinkArena_some_none (getD_of_getElem?_arena (hpv pp rfl)), List.length_set]
    · have hlen : nn <
          (A.set pp ({ A.getD pp Order.default with next := some nn })).length := by
        rw [List.length_set]
        exact hnx nn rfl
      rw [relinkArena_some_some (getD_of_getElem?_arena (hpv pp rfl))
        (getD_of_getElem?_arena hlen), List.length_set, List.length_set]

theorem relink_set_frame {A : List Order} {i : Nat} {v : Order} (a : Nat)
    (hlt : i < A.length)
    (hs : v.size = (A.getD i Order.default).size)
    (hi : v.id = (A.getD i Order.default).id) :
    ((A.set i v).getD a Order.default).size = (A.getD a Order.default).size ∧
    ((A.set i v).getD a Order.default).id = (A.getD a Order.default).id := by
  by_cases hia : i = a
  · subst hia
    rw [getD_set_self hlt]
    exact ⟨hs, hi⟩
  · rw [getD_set_outside hia]
    exact ⟨rfl, rfl⟩

theorem relink_size_id {A : List Order} {pv nx : Option Nat} (a : Nat)
    (hpv : ∀ pp, pv = some pp → pp < A.length)
    (hnx : ∀ nn, nx = some nn → nn < A.length) :
    ((relinkArena A pv nx).getD a Order.default).size = (A.getD a Order.default).size ∧
    ((relinkArena A pv nx).getD a Order.default).id = (A.getD a Order.default).id := by
  rcases pv with _ | pp
  · rcases nx with _ | nn
    · rw [relinkArena_none_none]
      exact ⟨rfl, rfl⟩
    · rw [relinkArena_none_some (getD_of_getElem?_arena (hnx nn rfl))]
      exact relink_set_frame a (hnx nn rfl) rfl rfl
  · rcases nx with _ | nn
    · rw [relinkArena_some_none (getD_of_getElem?_arena (hpv pp rfl))]
      exact relink_set_frame a (hpv pp rfl) rfl rfl
    · have hlen : nn <
          (A.set pp ({ A.getD pp Order.default with next := some nn })).length := by
        rw [List.length_set]
        exact hnx nn rfl
      rw [relinkArena_some_some (getD_of_getElem?_arena (hpv pp rfl))
        (getD_of_getElem?_arena hlen)]
      have s1 := @relink_set_frame A pp
        { A.getD pp Order.default with next := some nn } a (hpv pp rfl) rfl rfl
      have s2 := @relink_set_frame
        (A.set pp ({ A.getD pp Order.default with next := some nn })) nn
        { (A.set pp ({ A.getD pp Order.default with next := some nn })).getD nn
          Order.default with prev := some pp } a hlen rfl rfl
      exact ⟨s2.1.trans s1.1, s2.2.trans s1.2⟩

theorem relink_get_outside {A : List Order} {pv nx : Option Nat} {a : Nat}
    (hpv : ∀ pp, pv = some pp → pp < A.length ∧ pp ≠ a)
    (hnx : ∀ nn, nx = some nn → nn < A.length ∧ nn ≠ a) :
    (relinkArena A pv nx)[a]? = A[a]? := by
  rcases pv with _ | pp
  · rcases nx with _ | nn
    · rw [relinkArena_none_none]
    · rw [relinkArena_none_some (getD_of_getElem?_arena (hnx nn rfl).1),
        List.getElem?_set_ne (hnx nn rfl).2]
  · rcases nx with _ | nn
    · rw [relinkArena_some_none (getD_of_getElem?_arena (hpv pp rfl).1),
        List.getElem?_set_ne (hpv pp rfl).2]
    · have hlen : nn <
          (A.set pp ({ A.getD pp Order.default with next := some nn })).length := by
        rw [List.length_set]
        exact (hnx nn rfl).1
      rw [relinkArena_some_some (getD_of_getElem?_arena (hpv pp rfl).1)
          (getD_of_getElem?_arena hlen),
        List.getElem?_set_ne (hnx nn rfl).2, List.getElem?_set_ne (hpv pp rfl).2]

theorem rofll_ok {b : HalfBook} {pv nx : Option Nat}
    (hpv : ∀ pp, pv = some pp → pp < b.arena.length)
    (hnx : ∀ nn, nx = some nn → nn < b.arena.length) :
    HalfBook.remove_order_from_linked_list b pv nx =
      (Except.ok (), { b with arena := relinkArena b.arena pv nx }) := by
  rcases pv with _ | pp
  · rcases nx with _ | nn
    · rfl
    · have h := getD_of_getElem?_arena (hnx nn rfl)
      simp only [HalfBook.remove_order_from_linked_list, relinkArena]
      rw [h]
  · have hp := getD_of_getElem?_arena (hpv pp rfl)
    rcases nx with _ | nn
    · simp only [HalfBook.remove_order_from_linked_list, relinkArena]
      rw [hp]
    · have hlen : nn < (b.arena.set pp
          ({ b.arena.getD pp Order.default with next := some nn })).length := by
        rw [List.length_set]
        exact hnx nn rfl
      have hn := getD_of_getElem?_arena hlen
      simp only [HalfBook.remove_order_from_linked_list, relinkArena]
      rw [hp]
      simp only
      rw [hn]

/-! ## Removal: well-formedness core -/

theorem fst_ne_of_mem_idsErase {l : List (Nat × Nat)} {k : Nat} {x : Nat × Nat}
    (h : x ∈ idsErase l k) : x.1 ≠ k := by
  have := List.of_mem_filter h
  simpa using this

theorem set_getD_self {Q : List (List Nat)} {p : Nat} (h : p < Q.length) :
    Q.set p (Q.getD p []) = Q := by
  apply List.ext_getElem?
  intro i
  by_cases hip : p = i
  · subst hip
    rw [List.getElem?_set_self h, List.getD_eq_getElem?_getD, List.getElem?_eq_getElem h]
    rfl
  · rw [List.getElem?_set_ne hip]

theorem sublist_erase_middle (l1 l2 : List Nat) (x : Nat) :
    List.Sublist (l1 ++ l2) (l1 ++ x :: l2) :=
  (List.sublist_cons_self x l2).append_left l1

theorem remove_core_wfcore {b : HalfBook} {Q : List (List Nat)} {id x p : Nat}
    {l1 l2 : List Nat} {Afin : List Order} {hd' tl' tob' : Option Nat}
    (hwf : WFcore b Q) (hloc : idsLookup b.ids id = some x)
    (hp : p < b.orders.length) (hdec : Q.getD p [] = l1 ++ x :: l2)
    (F1 : lseg Afin p none hd' (l1 ++ l2) tl' none)
    (F2 : ∀ a, a ≠ x →
      (Afin.getD a Order.default).size = (b.arena.getD a Order.default).size ∧
      (Afin.getD a Order.default).id = (b.arena.getD a Order.default).id)
    (F3 : ∀ a, a ∉ Q.getD p [] → Afin[a]? = b.arena[a]?)
    (F5 : Afin.length = b.arena.length) :
    WFcore { b with
          orders := b.orders.set p
            ⟨hd', tl', (b.orders.getD p PriceLevel.default).total_size -
              (b.arena.getD x Order.default).size⟩,
          arena := Afin,
          ids := idsErase b.ids id,
          free_list := x :: b.free_list,
          top_of_book := tob' }
        (Q.set p (l1 ++ l2)) := by
  have hpQ : p < Q.length := by rw [WFC_qlen hwf]; exact hp
  have hxp : x ∈ Q.getD p [] := by
    rw [hdec]
    exact List.mem_append.mpr (Or.inr (List.mem_cons_self _ _))
  have hxQ : x ∈ Q.flatten := mem_level_mem_flattenC hwf hp hxp
  have hxlt : x < b.arena.length := flatten_mem_ltC hwf hxQ
  have hxid : (b.arena.getD x Order.default).id = id := by
    have hpr : (id, x) ∈ b.ids := idsLookup_mem hloc
    exact (WFC_sound hwf _ hpr).2
  have hndq : (l1 ++ x :: l2).Nodup := by
    rw [← hdec]
    exact level_nodupC hwf hp
  rcases nodup_middle_facts hndq with ⟨hnd1, hnd2, hx1, hx2, hdis12⟩
  have hmem12 : ∀ a, a ∈ l1 ++ l2 → a ∈ Q.getD p [] := by
    intro a ha
    rw [hdec]
    rcases List.mem_append.mp ha with h1 | h1
    · exact List.mem_append.mpr (Or.inl h1)
    · exact List.mem_append.mpr (Or.inr (List.mem_cons_of_mem _ h1))
  have hx12 : x ∉ l1 ++ l2 := by
    intro hh
    rcases List.mem_append.mp hh with h1 | h1
    · exact hx1 h1
    · exact hx2 h1
  have hne12 : ∀ a, a ∈ l1 ++ l2 → a ≠ x := by
    intro a ha hh
    exact hx12 (hh ▸ ha)
  have hlr := WFC_level hwf p hp
  have hsub12 : List.Sublist (l1 ++ l2) (Q.getD p []) := by
    rw [hdec]
    exact sublist_erase_middle l1 l2 x
  have hflat_sub : List.Sublist (Q.set p (l1 ++ l2)).flatten Q.flatten :=
    flatten_set_sublist hpQ hsub12
  refine WFC_mk ?_ ?_ ?_ ?_ ?_ ?_ ?_ ?_
  · simp only [List.length_set]
    exact WFC_qlen hwf
  · -- levels
    intro r hr
    simp only [List.length_set] at hr
    by_cases hre : r = p
    · subst hre
      rw [getD_set_self' hp, getD_set_self' hpQ]
      refine levelRep_of_lseg F1 ?_ ?_
      · have htot := hlr.2.2.1
        rw [hdec] at htot
        rw [sumSizes_append, sumSizes_cons] at htot
        have hcg : sumSizes Afin (l1 ++ l2) = sumSizes b.arena (l1 ++ l2) :=
          sumSizes_congr (fun a ha => (F2 a (hne12 a ha)).1)
        simp only
        rw [hcg, sumSizes_append, htot]
        ring
      · intro a ha
        rw [(F2 a (hne12 a ha)).1]
        exact hlr.2.2.2 a (hmem12 a ha)
    · rw [getD_set_ne' (fun hh => hre hh.symm), getD_set_ne' (fun hh => hre hh.symm)]
      rcases WFC_level hwf r hr with ⟨hch, htail, htotal, hpos⟩
      have hdisj : ∀ a, a ∈ Q.getD r [] → a ∉ Q.getD p [] := by
        intro a ha
        exact levels_disjointC hwf hr hp hre ha
      have hner : ∀ a, a ∈ Q.getD r [] → a ≠ x := by
        intro a ha hh
        exact hdisj a ha (by rw [hh]; exact hxp)
      refine ⟨?_, htail, ?_, ?_⟩
      · rcases chainB_iff_lseg.mp hch with ⟨tp, hseg⟩
        refine chainB_iff_lseg.mpr ⟨tp, lseg_congr (fun a ha => ?_) hseg⟩
        rw [F3 a (hdisj a ha)]
      · rw [htotal]
        exact (sumSizes_congr (fun a ha => (F2 a (hner a ha)).1)).symm
      · intro a ha
        rw [(F2 a (hner a ha)).1]
        exact hpos a ha
  · exact (WFC_flat_nodup hwf).sublist hflat_sub
  · exact keysNodup_idsErase (WFC_keys_nodup hwf) id
  · -- soundness of ids
    intro pr hpr
    have hmem := mem_idsErase hpr
    have hold := WFC_sound hwf _ hmem
    have hne_x : pr.2 ≠ x := by
      intro hh
      have : pr.1 = id := by rw [← hold.2, hh, hxid]
      exact fst_ne_of_mem_idsErase hpr this
    constructor
    · rw [mem_flatten_set_iff hpQ (WFC_flat_nodup hwf)]
      by_cases hin : pr.2 ∈ Q.getD p []
      · refine Or.inl ?_
        rw [hdec] at hin
        rcases List.mem_append.mp hin with h1 | h1
        · exact List.mem_append.mpr (Or.inl h1)
        · rcases List.mem_cons.mp h1 with h2 | h2
          · exact absurd h2 hne_x
          · exact List.mem_append.mpr (Or.inr h2)
      · exact Or.inr ⟨hold.1, hin⟩
    · rw [(F2 pr.2 hne_x).2]
      exact hold.2
  · -- chain ids
    intro r hr a ha
    simp only [List.length_set] at hr
    by_cases hre : r = p
    · rw [hre, getD_set_self' hpQ] at ha
      have haQ : a ∈ Q.getD p [] := hmem12 a ha
      have hax : a ≠ x := fun hh => hx12 (hh ▸ ha)
      have haid : (Afin.getD a Order.default).id = (b.arena.getD a Order.default).id :=
        (F2 a hax).2
      have hold := WFC_chainIds hwf p hp a haQ
      have hne_id : (b.arena.getD a Order.default).id ≠ id := by
        intro hh
        rw [hh, hloc] at hold
        injection hold with hold
        exact hax hold.symm
      rw [haid, idsLookup_erase_ne _ _ _ hne_id]
      exact WFC_chainIds hwf p hp a haQ
    · rw [getD_set_ne' (fun hh => hre hh.symm)] at ha
      have hold := WFC_chainIds hwf r hr a ha
      have hax : a ≠ x := by
        intro hh
        exact levels_disjointC hwf hr hp hre ha (hh ▸ hxp)
      have haid : (Afin.getD a Order.default).id = (b.arena.getD a Order.default).id :=
        (F2 a hax).2
      have hne_id : (b.arena.getD a Order.default).id ≠ id := by
        intro hh
        rw [hh, hloc] at hold
        injection hold with hold
        exact hax hold.symm
      rw [haid, idsLookup_erase_ne _ _ _ hne_id]
      exact hold
  · -- free list validity
    intro a ha
    rcases List.mem_cons.mp ha with rfl | ha
    · refine ⟨by rw [F5]; exact hxlt, ?_⟩
      rw [mem_flatten_set_iff hpQ (WFC_flat_nodup hwf)]
      rintro (h1 | ⟨_, h2⟩)
      · exact hx12 h1
      · exact h2 hxp
    · rcases WFC_free hwf a ha with ⟨h1, h2⟩
      exact ⟨by rw [F5]; exact h1, fun hh => h2 (hflat_sub.mem hh)⟩
  · rw [List.nodup_cons]
    refine ⟨fun hh => ?_, WFC_free_nodup hwf⟩
    exact (WFC_free hwf x hh).2 hxQ

theorem remove_core_wf {b : HalfBook} {Q : List (List Nat)} {id x p : Nat}
    {l1 l2 : List Nat} {Afin : List Order} {hd' tl' tob' : Option Nat}
    (hwf : WF b Q) (hloc : idsLookup b.ids id = some x)
    (hp : p < b.orders.length) (hdec : Q.getD p [] = l1 ++ x :: l2)
    (F1 : lseg Afin p none hd' (l1 ++ l2) tl' none)
    (F2 : ∀ a, (Afin.getD a Order.default).size = (b.arena.getD a Order.default).size ∧
      (Afin.getD a Order.default).id = (b.arena.getD a Order.default).id)
    (F3 : ∀ a, a ∉ Q.getD p [] → Afin[a]? = b.arena[a]?)
    (F5 : Afin.length = b.arena.length)
    (T : TobSpec { b with
          orders := b.orders.set p
            ⟨hd', tl', (b.orders.getD p PriceLevel.default).total_size -
              (b.arena.getD x Order.default).size⟩,
          arena := Afin,
          ids := idsErase b.ids id,
          free_list := x :: b.free_list,
          top_of_book := tob' }) :
    WF { b with
          orders := b.orders.set p
            ⟨hd', tl', (b.orders.getD p PriceLevel.default).total_size -
              (b.arena.getD x Order.default).size⟩,
          arena := Afin,
          ids := idsErase b.ids id,
          free_list := x :: b.free_list,
          top_of_book := tob' }
        (Q.set p (l1 ++ l2)) :=
  WF_of_core
    (remove_core_wfcore hwf.1 hloc hp hdec F1 (fun a _ => F2 a) F3 F5) T

/-- Computation of `HalfBook::remove` on a resting order: the code path
taken when the id resolves, expressed with the queue-position facts
(`l1` before the order, `l2` after it) deciding the head/tail updates. -/
theorem remove_eq {b : HalfBook} {id x p : Nat} {l1 l2 : List Nat}
    (hloc : idsLookup b.ids id = some x)
    (hxlt : x < b.arena.length)
    (hpi : (b.arena.getD x Order.default).price_index = p)
    (hp : p < b.orders.length)
    (hhead_iff : ((b.orders.getD p PriceLevel.default).head = some x) ↔ l1 = [])
    (htail_iff : ((b.orders.getD p PriceLevel.default).tail = some x) ↔ l2 = [])
    (hpv_lt : ∀ pp, (b.arena.getD x Order.default).prev = some pp →
      pp < b.arena.length)
    (hnx_lt : ∀ nn, (b.arena.getD x Order.default).next = some nn →
      nn < b.arena.length) :
    b.remove id = (Except.ok (),
      let b3 : HalfBook := { b with
        ids := idsErase b.ids id,
        orders := b.orders.set p
          ⟨(if l1 = [] then (b.arena.getD x Order.default).next
            else (b.orders.getD p PriceLevel.default).head),
           (if l2 = [] then (b.arena.getD x Order.default).prev
            else (b.orders.getD p PriceLevel.default).tail),
           (b.orders.getD p PriceLevel.default).total_size -
             (b.arena.getD x Order.default).size⟩,
        arena := relinkArena b.arena (b.arena.getD x Order.default).prev
          (b.arena.getD x Order.default).next }
      match b.top_of_book with
      | some tob =>
        if tob = p ∧ (b.orders.getD p PriceLevel.default).total_size -
            (b.arena.getD x Order.default).size = 0
        then
          let b4 := { b3 with top_of_book := b3.find_next_best_level tob }
          { b4 with free_list := x :: b4.free_list }
        else { b3 with free_list := x :: b3.free_list }
      | none => { b3 with free_list := x :: b3.free_list }) := by
  have hgx : b.arena[x]? = some (b.arena.getD x Order.default) :=
    getD_of_getElem?_arena hxlt
  have e1 : b.orders[p]? = some (b.orders.getD p PriceLevel.default) :=
    getD_of_getElem?_levels hp
  have hro : ∀ O : List PriceLevel,
      HalfBook.remove_order_from_linked_list
        { b with ids := idsErase b.ids id, orders := O }
        (b.arena.getD x Order.default).prev (b.arena.getD x Order.default).next =
      (Except.ok (),
        { b with
          ids := idsErase b.ids id
          orders := O
          arena := relinkArena b.arena (b.arena.getD x Order.default).prev
            (b.arena.getD x Order.default).next }) := by
    intro O
    exact rofll_ok (b := { b with ids := idsErase b.ids id, orders := O })
      hpv_lt hnx_lt
  simp only [HalfBook.remove, hloc, hgx, hpi, e1]
  by_cases h1 : l1 = []
  · have hh := hhead_iff.mpr h1
    by_cases h2 : l2 = []
    · have ht := htail_iff.mpr h2
      simp only [if_pos hh, if_pos h1, if_pos h2, if_pos ht]
      rw [hro]
      dsimp only
      cases htb : b.top_of_book with
      | none => rfl
      | some t =>
        dsimp only
        by_cases hc : t = p ∧ (b.orders.getD p PriceLevel.default).total_size -
          (b.arena.getD x Order.default).size = 0
        · rw [if_pos hc, if_pos hc]
        · rw [if_neg hc, if_neg hc]
    · have ht := fun hc => h2 (htail_iff.mp hc)
      simp only [if_pos hh, if_pos h1, if_neg h2, if_neg ht]
      rw [hro]
      dsimp only
      cases htb : b.top_of_book with
      | none => rfl
      | some t =>
        dsimp only
        by_cases hc : t = p ∧ (b.orders.getD p PriceLevel.default).total_size -
          (b.arena.getD x Order.default).size = 0
        · rw [if_pos hc, if_pos hc]
        · rw [if_neg hc, if_neg hc]
  · have hh := fun hc => h1 (hhead_iff.mp hc)
    by_cases h2 : l2 = []
    · have ht := htail_iff.mpr h2
      simp only [if_neg hh, if_neg h1, if_pos h2, if_pos ht]
      rw [hro]
      dsimp only
      cases htb : b.top_of_book with
      | none => rfl
      | some t =>
        dsimp only
        by_cases hc : t = p ∧ (b.orders.getD p PriceLevel.default).total_size -
          (b.arena.getD x Order.default).size = 0
        · rw [if_pos hc, if_pos hc]
        · rw [if_neg hc, if_neg hc]
    · have ht := fun hc => h2 (htail_iff.mp hc)
      simp only [if_neg hh, if_neg h1, if_neg h2, if_neg ht]
      rw [hro]
      dsimp only
      cases htb : b.top_of_book with
      | none => rfl
      | some t =>
        dsimp only
        by_cases hc : t = p ∧ (b.orders.getD p PriceLevel.default).total_size -
          (b.arena.getD x Order.default).size = 0
        · rw [if_pos hc, if_pos hc]
        · rw [if_neg hc, if_neg hc]

/-- Full characterization of a successful `HalfBook::remove`: the order
is unlinked from its level's FIFO, its slot freed and its id erased,
with all other observable state framed. -/
theorem remove_ok {b : HalfBook} {Q : List (List Nat)} {id x : Nat}
    (hwf : WF b Q) (hloc : idsLookup b.ids id = some x) :
    ∃ p l1 l2,
      p < b.orders.length ∧
      (b.arena.getD x Order.default).price_index = p ∧
      Q.getD p [] = l1 ++ x :: l2 ∧
      (b.remove id).1 = Except.ok () ∧
      WF (b.remove id).2 (Q.set p (l1 ++ l2)) ∧
      (b.remove id).2.min_price = b.min_price ∧
      (b.remove id).2.max_price = b.max_price ∧
      (b.remove id).2.tick_size = b.tick_size ∧
      (b.remove id).2.side = b.side ∧
      (b.remove id).2.ids = idsErase b.ids id ∧
      (b.remove id).2.free_list = x :: b.free_list ∧
      (b.remove id).2.arena.length = b.arena.length ∧
      (∀ a, ((b.remove id).2.arena.getD a Order.default).size =
          (b.arena.getD a Order.default).size ∧
        ((b.remove id).2.arena.getD a Order.default).id =
          (b.arena.getD a Order.default).id) ∧
      (b.remove id).2.orders = b.orders.set p (removedLevel b x p l1 l2) := by
  have hpr : (id, x) ∈ b.ids := idsLookup_mem hloc
  have hxQ : x ∈ Q.flatten := (WF_sound hwf _ hpr).1
  have hxlt : x < b.arena.length := flatten_mem_lt hwf hxQ
  rcases mem_flatten_iff.mp hxQ with ⟨p, hpQ, hxp⟩
  have hp : p < b.orders.length := by rw [← WF_qlen hwf]; exact hpQ
  have hgx : b.arena[x]? = some (b.arena.getD x Order.default) :=
    getD_of_getElem?_arena hxlt
  have hlr := WF_level hwf p hp
  have hseg0 := levelRep_lseg hlr
  have hpi : (b.arena.getD x Order.default).price_index = p := by
    rcases lseg_mem hseg0 x hxp with ⟨o0, hg0, hp0⟩
    rw [hgx] at hg0
    injection hg0 with hg0
    rw [hg0]
    exact hp0
  rcases List.append_of_mem hxp with ⟨l1, l2, hdec⟩
  have hndq : (l1 ++ x :: l2).Nodup := by
    rw [← hdec]
    exact level_nodup hwf hp
  rcases nodup_middle_facts hndq with ⟨hnd1, hnd2, hx1, hx2, hdis12⟩
  have hseg : lseg b.arena p none (b.orders.getD p PriceLevel.default).head
      (l1 ++ x :: l2) (b.orders.getD p PriceLevel.default).tail none := by
    rw [← hdec]
    exact hseg0
  rcases lseg_append.mp hseg with ⟨mp, mc, hseg1, hseg2⟩
  rcases hseg2 with ⟨hmc, o', hgo', hpi', hprev', hseg3⟩
  have ho' : o' = b.arena.getD x Order.default := by
    rw [hgx] at hgo'
    injection hgo' with h
    exact h.symm
  subst ho'
  have hmemQ : ∀ a, a ∈ l1 ++ x :: l2 → a < b.arena.length := by
    intro a ha
    refine flatten_mem_lt hwf (mem_level_mem_flatten hwf hp ?_)
    rw [hdec]
    exact ha
  have hmp := lseg_exit hseg1
  have hnxh := lseg_head hseg3
  have hprev_mem : ∀ pp, (b.arena.getD x Order.default).prev = some pp → pp ∈ l1 := by
    intro pp hpp
    rw [hprev'] at hpp
    rw [hmp] at hpp
    cases hl : l1.getLast? with
    | none =>
      rw [hl] at hpp
      simp at hpp
    | some y =>
      rw [hl] at hpp
      have hy : y = pp := by simpa using hpp
      subst hy
      exact @List.mem_of_mem_getLast? _ l1 _ (by rw [hl]; exact rfl)
  have hnext_mem : ∀ nn, (b.arena.getD x Order.default).next = some nn → nn ∈ l2 := by
    intro nn hnn
    rw [hnxh] at hnn
    cases hl : l2.head? with
    | none =>
      rw [hl] at hnn
      simp at hnn
    | some y =>
      rw [hl] at hnn
      have hy : y = nn := by simpa using hnn
      subst hy
      exact @List.mem_of_mem_head? _ l2 _ (by rw [hl]; exact rfl)
  have hpv_lt : ∀ pp, (b.arena.getD x Order.default).prev = some pp →
      pp < b.arena.length := by
    intro pp h
    exact hmemQ pp (List.mem_append.mpr (Or.inl (hprev_mem pp h)))
  have hnx_lt : ∀ nn, (b.arena.getD x Order.default).next = some nn →
      nn < b.arena.length := by
    intro nn h
    exact hmemQ nn
      (List.mem_append.mpr (Or.inr (List.mem_cons_of_mem _ (hnext_mem nn h))))
  have hhead_eq : (b.orders.getD p PriceLevel.default).head =
      ((l1 ++ x :: l2).head?).elim none some := lseg_head hseg
  have htail_eq : (b.orders.getD p PriceLevel.default).tail =
      ((l1 ++ x :: l2).getLast?).elim none some := lseg_exit hseg
  have hhead_iff : ((b.orders.getD p PriceLevel.default).head = some x) ↔ l1 = [] := by
    cases l1 with
    | nil =>
      simp only [List.nil_append, List.head?_cons] at hhead_eq
      rw [hhead_eq]
      simp
    | cons y t =>
      simp only [List.cons_append, List.head?_cons] at hhead_eq
      constructor
      · intro hcc
        rw [hhead_eq] at hcc
        have hyx : y = x := by simpa using hcc
        exact absurd (by rw [← hyx]; exact List.mem_cons_self y t) hx1
      · intro hcc
        exact absurd hcc (List.cons_ne_nil y t)
  have htail_iff : ((b.orders.getD p PriceLevel.default).tail = some x) ↔ l2 = [] := by
    cases l2 with
    | nil =>
      rw [htail_eq, List.getLast?_append_of_ne_nil l1 (List.cons_ne_nil x [])]
      simp
    | cons z t =>
      rw [htail_eq, List.getLast?_append_of_ne_nil l1 (List.cons_ne_nil x (z :: t)),
        List.getLast?_cons_cons]
      constructor
      · intro hcc
        exfalso
        cases hgl : (z :: t).getLast? with
        | none =>
          rw [hgl] at hcc
          simp at hcc
        | some w =>
          rw [hgl] at hcc
          have hwx : w = x := by simpa using hcc
          refine hx2 ?_
          rw [← hwx]
          exact @List.mem_of_mem_getLast? _ (z :: t) _ (by rw [hgl]; exact rfl)
      · intro hcc
        exact absurd hcc (List.cons_ne_nil z t)
  have hEQ := remove_eq hloc hxlt hpi hp hhead_iff htail_iff hpv_lt hnx_lt
  have F1 := lseg_erase hseg hndq hgx
  have F2 : ∀ a, ((relinkArena b.arena (b.arena.getD x Order.default).prev
        (b.arena.getD x Order.default).next).getD a Order.default).size =
      (b.arena.getD a Order.default).size ∧
      ((relinkArena b.arena (b.arena.getD x Order.default).prev
        (b.arena.getD x Order.default).next).getD a Order.default).id =
      (b.arena.getD a Order.default).id :=
    fun a => relink_size_id a hpv_lt hnx_lt
  have F3 : ∀ a, a ∉ Q.getD p [] →
      (relinkArena b.arena (b.arena.getD x Order.default).prev
        (b.arena.getD x Order.default).next)[a]? = b.arena[a]? := by
    intro a ha
    refine relink_get_outside ?_ ?_
    · intro pp hpp
      refine ⟨hpv_lt pp hpp, ?_⟩
      intro hppa
      subst hppa
      refine ha ?_
      rw [hdec]
      exact List.mem_append.mpr (Or.inl (hprev_mem _ hpp))
    · intro nn hnn
      refine ⟨hnx_lt nn hnn, ?_⟩
      intro hnna
      subst hnna
      refine ha ?_
      rw [hdec]
      exact List.mem_append.mpr (Or.inr (List.mem_cons_of_mem _ (hnext_mem _ hnn)))
  have F5 := @relink_length b.arena _ _ hpv_lt hnx_lt
  have hT := WF_tob hwf
  have htotp : (b.orders.getD p PriceLevel.default).total_size =
      sumSizes b.arena (l1 ++ x :: l2) := by
    rw [hlr.2.2.1, hdec]
  have hpos : ∀ a ∈ l1 ++ x :: l2, 0 < (b.arena.getD a Order.default).size := by
    intro a ha
    refine hlr.2.2.2 a ?_
    rw [hdec]
    exact ha
  have htot_pos : 0 < (b.orders.getD p PriceLevel.default).total_size := by
    rw [htotp]
    exact sumSizes_pos (by simp) hpos
  rcases htob : b.top_of_book with _ | t
  · exfalso
    unfold TobSpec at hT
    rw [htob] at hT
    have hz := hT p hp
    omega
  · unfold TobSpec at hT
    rw [htob] at hT
    rcases hT with ⟨hTlt, hTnz, hTmax⟩
    have hlenset : (b.orders.set p (removedLevel b x p l1 l2)).length =
        b.orders.length := List.length_set b.orders p _
    have hKEY : ∃ tob' : Option Nat,
        b.remove id = (Except.ok (), removedBook b id x p l1 l2 tob') ∧
        TobSpec (removedBook b id x p l1 l2 tob') := by
      by_cases hcond : t = p ∧ (b.orders.getD p PriceLevel.default).total_size -
          (b.arena.getD x Order.default).size = 0
      · refine ⟨HalfBook.find_next_best_level
          { b with
            ids := idsErase b.ids id
            orders := b.orders.set p (removedLevel b x p l1 l2)
            arena := relinkArena b.arena (b.arena.getD x Order.default).prev
              (b.arena.getD x Order.default).next
            top_of_book := some t } t, ?_, ?_⟩
        · rw [hEQ]
          dsimp only
          rw [htob]
          dsimp only
          rw [if_pos hcond]
          rfl
        · have hcor := @findNext_correct
            { b with
              ids := idsErase b.ids id
              orders := b.orders.set p (removedLevel b x p l1 l2)
              arena := relinkArena b.arena (b.arena.getD x Order.default).prev
                (b.arena.getD x Order.default).next
              top_of_book := some t }
            t
            (by show t < (b.orders.set p (removedLevel b x p l1 l2)).length
                rw [hlenset]
                exact hTlt)
            ?_ ?_
          · exact tobSpec_congr hcor rfl rfl rfl
          · intro r hr hnz
            show sideLeB b.side r t = true
            rw [hlenset] at hr
            by_cases hrp : r = p
            · exfalso
              refine hnz ?_
              show ((b.orders.set p (removedLevel b x p l1 l2)).getD r
                PriceLevel.default).total_size = 0
              rw [hrp, getD_set_self' hp]
              exact hcond.2
            · refine hTmax r hr ?_
              intro hz
              refine hnz ?_
              show ((b.orders.set p (removedLevel b x p l1 l2)).getD r
                PriceLevel.default).total_size = 0
              rw [getD_set_ne' (fun hh => hrp hh.symm)]
              exact hz
          · show ((b.orders.set p (removedLevel b x p l1 l2)).getD t
              PriceLevel.default).total_size = 0
            rw [hcond.1, getD_set_self' hp]
            exact hcond.2
      · refine ⟨some t, ?_, ?_⟩
        · rw [hEQ]
          dsimp only
          rw [htob]
          dsimp only
          rw [if_neg hcond]
          rfl
        · refine @tobSpec_some (removedBook b id x p l1 l2 (some t)) _ ?_ ?_ ?_
          · show t < (b.orders.set p (removedLevel b x p l1 l2)).length
            rw [hlenset]
            exact hTlt
          · show ((b.orders.set p (removedLevel b x p l1 l2)).getD t
              PriceLevel.default).total_size ≠ 0
            by_cases htp : t = p
            · rw [htp, getD_set_self' hp]
              intro hz
              exact hcond ⟨htp, hz⟩
            · rw [getD_set_ne' (fun hh => htp hh.symm)]
              exact hTnz
          · intro r hr hnz
            show sideLeB b.side r t = true
            have hr' : r < b.orders.length := by
              rw [← hlenset]
              exact hr
            by_cases hrp : r = p
            · refine hTmax r hr' ?_
              rw [hrp]
              omega
            · refine hTmax r hr' ?_
              intro hz
              refine hnz ?_
              show ((b.orders.set p (removedLevel b x p l1 l2)).getD r
                PriceLevel.default).total_size = 0
              rw [getD_set_ne' (fun hh => hrp hh.symm)]
              exact hz
    rcases hKEY with ⟨tob', hres, hTS⟩
    refine ⟨p, l1, l2, hp, hpi, hdec, ?_, ?_, ?_, ?_, ?_, ?_, ?_, ?_, ?_, ?_, ?_⟩
    · rw [hres]
    · rw [hres]
      exact remove_core_wf hwf hloc hp hdec F1 F2 F3 F5 hTS
    · rw [hres]
      rfl
    · rw [hres]
      rfl
    · rw [hres]
      rfl
    · rw [hres]
      rfl
    · rw [hres]
      rfl
    · rw [hres]
      rfl
    · rw [hres]
      exact F5
    · intro a
      rw [hres]
      exact F2 a
    · rw [hres]
      rfl

/-! ## Matching: inner-loop step lemmas -/

theorem matchInner_ret {b : HalfBook} {fuel tob : Nat} {size notional : Int}
    (hf : 1 ≤ fuel) (htob : tob < b.orders.length) (hs : size ≤ 0) :
    HalfBook.matchInner b fuel tob size notional =
      (Except.ok (size, notional), b) := by
  rcases fuel with _ | f
  · omega
  · rw [HalfBook.matchInner, getD_of_getElem?_levels htob]
    simp only
    rw [if_pos (Or.inl hs)]

theorem WFcore_resize {b : HalfBook} {Q : List (List Nat)} {tob x : Nat} {s : Int}
    (hwf : WFcore b Q) (htob : tob < b.orders.length)
    (hx : x ∈ Q.getD tob []) (hs : 0 < s) :
    WFcore { b with
      orders := b.orders.set tob
        { b.orders.getD tob PriceLevel.default with
          total_size := (b.orders.getD tob PriceLevel.default).total_size -
            (b.arena.getD x Order.default).size + s }
      arena := b.arena.set x { b.arena.getD x Order.default with size := s } } Q := by
  have htobQ : tob < Q.length := by rw [WFC_qlen hwf]; exact htob
  have hxF : x ∈ Q.flatten := mem_level_mem_flattenC hwf htob hx
  have hxlt : x < b.arena.length := flatten_mem_ltC hwf hxF
  have hgx : b.arena[x]? = some (b.arena.getD x Order.default) :=
    getD_of_getElem?_arena hxlt
  have hsz : ∀ a, a ≠ x →
      ((b.arena.set x { b.arena.getD x Order.default with size := s }).getD a
        Order.default) = b.arena.getD a Order.default := by
    intro a ha
    exact getD_set_outside (fun hh => ha hh.symm)
  have hszx : (b.arena.set x { b.arena.getD x Order.default with size := s }).getD x
      Order.default = { b.arena.getD x Order.default with size := s } :=
    getD_set_self hxlt
  have hid_all : ∀ a,
      ((b.arena.set x { b.arena.getD x Order.default with size := s }).getD a
        Order.default).id = (b.arena.getD a Order.default).id := by
    intro a
    by_cases ha : a = x
    · subst ha
      rw [hszx]
    · rw [hsz a ha]
  refine WFC_mk ?_ ?_ ?_ ?_ ?_ ?_ ?_ ?_
  · simp only [List.length_set]
    exact WFC_qlen hwf
  · intro r hr
    simp only [List.length_set] at hr
    rcases WFC_level hwf r hr with ⟨hch, htail, htotal, hpos⟩
    have hchain : ∀ (pl : PriceLevel),
        chainB b.arena r none pl.head (Q.getD r []) = true →
        chainB (b.arena.set x { b.arena.getD x Order.default with size := s }) r
          none pl.head (Q.getD r []) = true := by
      intro pl hc
      rcases chainB_iff_lseg.mp hc with ⟨tp, hsg⟩
      refine chainB_iff_lseg.mpr ⟨tp, lseg_congr (fun a _ => ?_) hsg⟩
      by_cases ha : a = x
      · subst ha
        rw [List.getElem?_set_self hxlt, hgx]
        rfl
      · rw [List.getElem?_set_ne (fun hh => ha hh.symm)]
    by_cases hre : r = tob
    · subst hre
      rw [getD_set_self' htob]
      refine ⟨hchain _ hch, htail, ?_, ?_⟩
      · have hdecq := List.append_of_mem hx
        rcases hdecq with ⟨u1, u2, hu⟩
        have hnd : (u1 ++ x :: u2).Nodup := by
          rw [← hu]
          exact level_nodupC hwf htob
        rcases nodup_middle_facts hnd with ⟨_, _, hxu1, hxu2, _⟩
        simp only [htotal, hu, sumSizes_append, sumSizes_cons,
          sumSizes_set_outside hxu1, sumSizes_set_outside hxu2, hszx]
        ring
      · intro a ha
        by_cases hax : a = x
        · subst hax
          rw [hszx]
          exact hs
        · rw [hsz a hax]
          exact hpos a ha
    · rw [getD_set_ne' (fun hh => hre hh.symm)]
      refine ⟨hchain _ hch, htail, ?_, ?_⟩
      · have hax : ∀ a ∈ Q.getD r [], a ≠ x := by
          intro a ha hh
          exact levels_disjointC hwf hr htob hre ha (hh ▸ hx)
        rw [htotal]
        exact (sumSizes_congr (fun a ha => by rw [hsz a (hax a ha)])).symm
      · intro a ha
        by_cases hax : a = x
        · subst hax
          rw [hszx]
          exact hs
        · rw [hsz a hax]
          exact hpos a ha
  · exact @WFC_flat_nodup b _ hwf
  · exact @WFC_keys_nodup b _ hwf
  · intro pr hpr
    rcases WFC_sound hwf pr hpr with ⟨h1, h2⟩
    refine ⟨h1, ?_⟩
    rw [hid_all pr.2]
    exact h2
  · intro r hr a ha
    simp only [List.length_set] at hr
    rw [hid_all a]
    exact WFC_chainIds hwf r hr a ha
  · intro a ha
    rcases WFC_free hwf a ha with ⟨h1, h2⟩
    exact ⟨by rw [List.length_set]; exact h1, h2⟩
  · exact @WFC_free_nodup b _ hwf

theorem matchInner_step_resize {b : HalfBook} {fuel tob x : Nat}
    {size notional : Int}
    (htob : tob < b.orders.length)
    (hhead : (b.orders.getD tob PriceLevel.default).head = some x)
    (hxlt : x < b.arena.length)
    (hsz : 0 < size)
    (htot : 0 < (b.orders.getD tob PriceLevel.default).total_size)
    (hos : size < (b.arena.getD x Order.default).size) :
    HalfBook.matchInner b (fuel + 1) tob size notional =
      HalfBook.matchInner
        { b with
          orders := b.orders.set tob
            { b.orders.getD tob PriceLevel.default with
              total_size := (b.orders.getD tob PriceLevel.default).total_size - size }
          arena := b.arena.set x
            { b.arena.getD x Order.default with
              size := (b.arena.getD x Order.default).size - size } }
        fuel tob (size - size)
        (notional + size * b.get_price_from_index tob) := by
  have hmin : min size (b.arena.getD x Order.default).size = size :=
    min_eq_left (le_of_lt hos)
  have hne : ¬((b.arena.getD x Order.default).size - size = 0) := by
    have := hos
    omega
  have hcond : ¬(size ≤ 0 ∨ (b.orders.getD tob PriceLevel.default).total_size ≤ 0) := by
    omega
  rw [HalfBook.matchInner, getD_of_getElem?_levels htob]
  simp only
  rw [if_neg hcond, hhead]
  simp only
  rw [getD_of_getElem?_arena hxlt]
  simp only
  rw [hmin]
  rw [@getD_of_getElem?_levels b.orders _ htob]
  simp only
  rw [if_neg hne, hhead]

theorem matchInner_step_full {b : HalfBook} {fuel tob x : Nat}
    {size notional : Int} {qrest : List Nat}
    (htob : tob < b.orders.length)
    (hhead : (b.orders.getD tob PriceLevel.default).head = some x)
    (hxlt : x < b.arena.length)
    (htl : ((b.orders.getD tob PriceLevel.default).tail = some x) ↔ qrest = [])
    (hpv_lt : ∀ pp, (b.arena.getD x Order.default).prev = some pp →
      pp < b.arena.length)
    (hnx_lt : ∀ nn, (b.arena.getD x Order.default).next = some nn →
      nn < b.arena.length)
    (hsz : 0 < size)
    (htot : 0 < (b.orders.getD tob PriceLevel.default).total_size)
    (hos : (b.arena.getD x Order.default).size ≤ size) :
    HalfBook.matchInner b (fuel + 1) tob size notional =
      HalfBook.matchInner
        { b with
          orders := b.orders.set tob
            ⟨(b.arena.getD x Order.default).next,
             (if qrest = [] then none
              else (b.orders.getD tob PriceLevel.default).tail),
             ((b.orders.getD tob PriceLevel.default).total_size -
                 (b.arena.getD x Order.default).size) -
               ((b.arena.getD x Order.default).size -
                 (b.arena.getD x Order.default).size)⟩
          arena := relinkArena
            (b.arena.set x { b.arena.getD x Order.default with
              size := (b.arena.getD x Order.default).size -
                (b.arena.getD x Order.default).size })
            (b.arena.getD x Order.default).prev
            (b.arena.getD x Order.default).next
          ids := idsErase b.ids (b.arena.getD x Order.default).id
          free_list := x :: b.free_list }
        fuel tob (size - (b.arena.getD x Order.default).size)
        (notional + (b.arena.getD x Order.default).size *
          b.get_price_from_index tob) := by
  have hmin : min size (b.arena.getD x Order.default).size =
      (b.arena.getD x Order.default).size := min_eq_right hos
  have hz : (b.arena.getD x Order.default).size -
      (b.arena.getD x Order.default).size = 0 := by ring
  have hcond : ¬(size ≤ 0 ∨ (b.orders.getD tob PriceLevel.default).total_size ≤ 0) := by
    omega
  have hxlt2 : x < (b.arena.set x { b.arena.getD x Order.default with
      size := (b.arena.getD x Order.default).size -
        (b.arena.getD x Order.default).size }).length := by
    rw [List.length_set]
    exact hxlt
  have hro : ∀ (O : List PriceLevel),
      HalfBook.remove_order_from_linked_list
        { b with
          orders := O
          arena := b.arena.set x { b.arena.getD x Order.default with
            size := (b.arena.getD x Order.default).size -
              (b.arena.getD x Order.default).size } }
        (b.arena.getD x Order.default).prev (b.arena.getD x Order.default).next =
      (Except.ok (),
        { b with
          orders := O
          arena := relinkArena
            (b.arena.set x { b.arena.getD x Order.default with
              size := (b.arena.getD x Order.default).size -
                (b.arena.getD x Order.default).size })
            (b.arena.getD x Order.default).prev
            (b.arena.getD x Order.default).next }) := by
    intro O
    refine rofll_ok ?_ ?_
    · intro pp h
      rw [List.length_set]
      exact hpv_lt pp h
    · intro nn h
      rw [List.length_set]
      exact hnx_lt nn h
  rw [HalfBook.matchInner, getD_of_getElem?_levels htob]
  simp only
  rw [if_neg hcond, hhead]
  simp only
  rw [getD_of_getElem?_arena hxlt]
  simp only
  rw [hmin]
  rw [@getD_of_getElem?_levels b.orders _ htob]
  simp only
  rw [if_pos hz]
  rw [HalfBook.remove_head_of_price_level]
  simp only
  rw [List.getElem?_set_self htob]
  simp only
  rw [hhead]
  simp only
  rw [List.getElem?_set_self hxlt]
  simp only
  by_cases hq : qrest = []
  · rw [if_pos (htl.mpr hq), if_pos hq]
    rw [List.set_set]
    rw [hro]
  · rw [if_neg (fun hc => hq (htl.mp hc)), if_neg hq]
    rw [List.set_set]
    rw [hro]

theorem WFcore_full_step {b : HalfBook} {Q : List (List Nat)} {tob x : Nat}
    {qrest : List Nat}
    (hwf : WFcore b Q) (htob : tob < b.orders.length)
    (hq : Q.getD tob [] = x :: qrest) :
    WFcore
      { b with
        orders := b.orders.set tob
          ⟨(b.arena.getD x Order.default).next,
           (if qrest = [] then none
            else (b.orders.getD tob PriceLevel.default).tail),
           ((b.orders.getD tob PriceLevel.default).total_size -
               (b.arena.getD x Order.default).size) -
             ((b.arena.getD x Order.default).size -
               (b.arena.getD x Order.default).size)⟩
        arena := relinkArena
          (b.arena.set x { b.arena.getD x Order.default with
            size := (b.arena.getD x Order.default).size -
              (b.arena.getD x Order.default).size })
          (b.arena.getD x Order.default).prev
          (b.arena.getD x Order.default).next
        ids := idsErase b.ids (b.arena.getD x Order.default).id
        free_list := x :: b.free_list }
      (Q.set tob qrest) := by
  have hx : x ∈ Q.getD tob [] := by
    rw [hq]
    exact List.mem_cons_self _ _
  have hxF : x ∈ Q.flatten := mem_level_mem_flattenC hwf htob hx
  have hxlt : x < b.arena.length := flatten_mem_ltC hwf hxF
  have hgx : b.arena[x]? = some (b.arena.getD x Order.default) :=
    getD_of_getElem?_arena hxlt
  have hlr := WFC_level hwf tob htob
  have hseg0 := levelRep_lseg hlr
  have hseg : lseg b.arena tob none (b.orders.getD tob PriceLevel.default).head
      (x :: qrest) (b.orders.getD tob PriceLevel.default).tail none := by
    rw [← hq]
    exact hseg0
  rcases hseg with ⟨hhd, o', hgo', hpi', hprev', hseg3⟩
  have ho' : o' = b.arena.getD x Order.default := by
    rw [hgx] at hgo'
    injection hgo' with h
    exact h.symm
  subst ho'
  have hloc : idsLookup b.ids ((b.arena.getD x Order.default).id) = some x :=
    WFC_chainIds hwf tob htob x hx
  have hndq : (x :: qrest).Nodup := by
    rw [← hq]
    exact level_nodupC hwf htob
  have hmemQ : ∀ a, a ∈ x :: qrest → a < b.arena.length := by
    intro a ha
    refine flatten_mem_ltC hwf (mem_level_mem_flattenC hwf htob ?_)
    rw [hq]
    exact ha
  have hnext_mem : ∀ nn, (b.arena.getD x Order.default).next = some nn →
      nn ∈ qrest := by
    intro nn hnn
    rw [lseg_head hseg3] at hnn
    cases hl : qrest.head? with
    | none =>
      rw [hl] at hnn
      simp at hnn
    | some y =>
      rw [hl] at hnn
      have hy : y = nn := by simpa using hnn
      subst hy
      exact @List.mem_of_mem_head? _ qrest _ (by rw [hl]; exact rfl)
  have hpv_lt : ∀ pp, (b.arena.getD x Order.default).prev = some pp →
      pp < b.arena.length := by
    intro pp h
    rw [hprev'] at h
    cases h
  have hnx_lt : ∀ nn, (b.arena.getD x Order.default).next = some nn →
      nn < b.arena.length := by
    intro nn h
    exact hmemQ nn (List.mem_cons_of_mem _ (hnext_mem nn h))
  have hA0len : (b.arena.set x { b.arena.getD x Order.default with
      size := (b.arena.getD x Order.default).size -
        (b.arena.getD x Order.default).size }).length = b.arena.length :=
    List.length_set b.arena x _
  have hpv0 : ∀ pp, (b.arena.getD x Order.default).prev = some pp →
      pp < (b.arena.set x { b.arena.getD x Order.default with
        size := (b.arena.getD x Order.default).size -
          (b.arena.getD x Order.default).size }).length := by
    intro pp h
    rw [hA0len]
    exact hpv_lt pp h
  have hnx0 : ∀ nn, (b.arena.getD x Order.default).next = some nn →
      nn < (b.arena.set x { b.arena.getD x Order.default with
        size := (b.arena.getD x Order.default).size -
          (b.arena.getD x Order.default).size }).length := by
    intro nn h
    rw [hA0len]
    exact hnx_lt nn h
  have hgA0 : (b.arena.set x { b.arena.getD x Order.default with
      size := (b.arena.getD x Order.default).size -
        (b.arena.getD x Order.default).size })[x]? =
      some { b.arena.getD x Order.default with
        size := (b.arena.getD x Order.default).size -
          (b.arena.getD x Order.default).size } :=
    List.getElem?_set_self hxlt
  have hsegA0 : lseg (b.arena.set x { b.arena.getD x Order.default with
        size := (b.arena.getD x Order.default).size -
          (b.arena.getD x Order.default).size }) tob
      none (b.orders.getD tob PriceLevel.default).head ([] ++ x :: qrest)
      (b.orders.getD tob PriceLevel.default).tail none := by
    refine lseg_set_size _ hgx ?_
    rw [← hq]
    exact hseg0
  have hndq' : (([] : List Nat) ++ x :: qrest).Nodup := hndq
  have F1' := lseg_erase hsegA0 hndq' hgA0
  have hz : ∀ a : Nat, a ≠ x →
      ((relinkArena
          (b.arena.set x { b.arena.getD x Order.default with
            size := (b.arena.getD x Order.default).size -
              (b.arena.getD x Order.default).size })
          (b.arena.getD x Order.default).prev
          (b.arena.getD x Order.default).next).getD a Order.default).size =
        (b.arena.getD a Order.default).size ∧
      ((relinkArena
          (b.arena.set x { b.arena.getD x Order.default with
            size := (b.arena.getD x Order.default).size -
              (b.arena.getD x Order.default).size })
          (b.arena.getD x Order.default).prev
          (b.arena.getD x Order.default).next).getD a Order.default).id =
        (b.arena.getD a Order.default).id := by
    intro a ha
    have h1 := relink_size_id (A := b.arena.set x { b.arena.getD x Order.default with
      size := (b.arena.getD x Order.default).size -
        (b.arena.getD x Order.default).size }) a hpv0 hnx0
    have h2 : ((b.arena.set x { b.arena.getD x Order.default with
        size := (b.arena.getD x Order.default).size -
          (b.arena.getD x Order.default).size }).getD a Order.default) =
        b.arena.getD a Order.default :=
      getD_set_outside (fun hh => ha hh.symm)
    rw [h2] at h1
    exact h1
  have F3' : ∀ a, a ∉ Q.getD tob [] →
      (relinkArena
        (b.arena.set x { b.arena.getD x Order.default with
          size := (b.arena.getD x Order.default).size -
            (b.arena.getD x Order.default).size })
        (b.arena.getD x Order.default).prev
        (b.arena.getD x Order.default).next)[a]? = b.arena[a]? := by
    intro a ha
    have hax : a ≠ x := fun hh => ha (hh ▸ hx)
    have hout := @relink_get_outside
      (b.arena.set x { b.arena.getD x Order.default with
        size := (b.arena.getD x Order.default).size -
          (b.arena.getD x Order.default).size })
      ((b.arena.getD x Order.default).prev)
      ((b.arena.getD x Order.default).next)
      a ?_ ?_
    · rw [hout]
      exact List.getElem?_set_ne (fun hh => hax hh.symm)
    · intro pp hpp
      rw [hprev'] at hpp
      cases hpp
    · intro nn hnn
      refine ⟨hnx0 nn hnn, ?_⟩
      intro hnna
      subst hnna
      refine ha ?_
      rw [hq]
      exact List.mem_cons_of_mem _ (hnext_mem _ hnn)
  have F5' : (relinkArena
      (b.arena.set x { b.arena.getD x Order.default with
        size := (b.arena.getD x Order.default).size -
          (b.arena.getD x Order.default).size })
      (b.arena.getD x Order.default).prev
      (b.arena.getD x Order.default).next).length = b.arena.length := by
    rw [relink_length hpv0 hnx0, hA0len]
  have hcore := @remove_core_wfcore _ _ _ _ _ [] qrest _
    ((b.arena.getD x Order.default).next)
    (if qrest = [] then none
      else (b.orders.getD tob PriceLevel.default).tail)
    (b.top_of_book)
    hwf hloc htob (by rw [hq]; rfl) ?_ hz F3' F5'
  · have htotz : ((b.orders.getD tob PriceLevel.default).total_size -
        (b.arena.getD x Order.default).size) -
        ((b.arena.getD x Order.default).size -
          (b.arena.getD x Order.default).size) =
        (b.orders.getD tob PriceLevel.default).total_size -
          (b.arena.getD x Order.default).size := by ring
    rw [htotz]
    exact hcore
  · have htl : (if qrest = [] then (b.arena.getD x Order.default).prev
        else (b.orders.getD tob PriceLevel.default).tail) =
        (if qrest = [] then none
        else (b.orders.getD tob PriceLevel.default).tail) := by
      rw [hprev']
    rw [← htl]
    exact F1'

theorem getLast?_cons_some_iff {x : Nat} {l : List Nat} (hx : x ∉ l) :
    ((((x :: l).getLast?).elim none some : Option Nat) = some x) ↔ l = [] := by
  cases l with
  | nil => simp
  | cons z t =>
    rw [List.getLast?_cons_cons]
    constructor
    · intro h
      exfalso
      cases hgl : (z :: t).getLast? with
      | none =>
        rw [hgl] at h
        simp at h
      | some w =>
        rw [hgl] at h
        have hwx : w = x := by simpa using h
        refine hx ?_
        rw [← hwx]
        exact @List.mem_of_mem_getLast? _ (z :: t) _ (by rw [hgl]; exact rfl)
    · intro h
      exact absurd h (List.cons_ne_nil z t)

theorem map_entryOf_congr {b b' : HalfBook} {tob : Nat} {l : List Nat}
    (hmin : b'.min_price = b.min_price)
    (h : ∀ a ∈ l,
      (b'.arena.getD a Order.default).size = (b.arena.getD a Order.default).size ∧
      (b'.arena.getD a Order.default).id = (b.arena.getD a Order.default).id) :
    l.map (entryOf b' tob) = l.map (entryOf b tob) := by
  refine List.map_congr_left ?_
  intro a ha
  unfold entryOf HalfBook.get_price_from_index
  rw [(h a ha).1, (h a ha).2, hmin]

/-- Simulation of the inner matching loop: consuming the FIFO of level
`tob` head-first agrees with the specification-level stream consumption,
preserves the structural invariant, and frames everything else. -/
theorem matchInner_sim : ∀ (q : List Nat), ∀ {b : HalfBook} {Q : List (List Nat)}
    {fuel tob : Nat} {size notional : Int},
    WFcore b Q → tob < b.orders.length → Q.getD tob [] = q →
    q.length + 2 ≤ fuel →
    ∃ b' k,
      HalfBook.matchInner b fuel tob size notional =
        (Except.ok ((specConsume (q.map (entryOf b tob)) size).2.1,
          notional + (specConsume (q.map (entryOf b tob)) size).1), b') ∧
      k ≤ q.length ∧
      WFcore b' (Q.set tob (q.drop k)) ∧
      (q.drop k).map (entryOf b' tob) =
        (specConsume (q.map (entryOf b tob)) size).2.2 ∧
      b'.min_price = b.min_price ∧
      b'.max_price = b.max_price ∧
      b'.tick_size = b.tick_size ∧
      b'.side = b.side ∧
      b'.top_of_book = b.top_of_book ∧
      b'.arena.length = b.arena.length ∧
      b'.orders.length = b.orders.length ∧
      (∀ r, r ≠ tob → b'.orders.getD r PriceLevel.default =
        b.orders.getD r PriceLevel.default) ∧
      (∃ consumed : List Nat, b'.free_list = consumed ++ b.free_list) ∧
      (∀ a, a ∉ q → (b'.arena.getD a Order.default).size =
          (b.arena.getD a Order.default).size ∧
        (b'.arena.getD a Order.default).id = (b.arena.getD a Order.default).id) := by
  intro q
  induction q with
  | nil =>
    intro b Q fuel tob size notional hwf htob hq hfuel
    have htobQ : tob < Q.length := by rw [WFC_qlen hwf]; exact htob
    have hlr := WFC_level hwf tob htob
    have htot0 : (b.orders.getD tob PriceLevel.default).total_size = 0 := by
      rw [hlr.2.2.1, hq, sumSizes_nil]
    rcases fuel with _ | f
    · omega
    · refine ⟨b, 0, ?_, Nat.le_refl _, ?_, rfl, rfl, rfl, rfl, rfl, rfl, rfl, rfl,
        fun r _ => rfl, ⟨[], rfl⟩, fun a _ => ⟨rfl, rfl⟩⟩
      · rw [HalfBook.matchInner, getD_of_getElem?_levels htob]
        simp only
        rw [if_pos (Or.inr (le_of_eq htot0))]
        simp only [List.map_nil, specConsume]
        rw [add_zero]
      · have hQ : Q.set tob (([] : List Nat).drop 0) = Q := by
          rw [List.drop_zero, ← hq, set_getD_self htobQ]
        rw [hQ]
        exact hwf
  | cons x qrest ih =>
    intro b Q fuel tob size notional hwf htob hq hfuel
    have htobQ : tob < Q.length := by rw [WFC_qlen hwf]; exact htob
    have hx : x ∈ Q.getD tob [] := by
      rw [hq]
      exact List.mem_cons_self _ _
    have hxF : x ∈ Q.flatten := mem_level_mem_flattenC hwf htob hx
    have hxlt : x < b.arena.length := flatten_mem_ltC hwf hxF
    have hgx : b.arena[x]? = some (b.arena.getD x Order.default) :=
      getD_of_getElem?_arena hxlt
    have hlr := WFC_level hwf tob htob
    have hseg : lseg b.arena tob none (b.orders.getD tob PriceLevel.default).head
        (x :: qrest) (b.orders.getD tob PriceLevel.default).tail none := by
      rw [← hq]
      exact levelRep_lseg hlr
    have hexit := lseg_exit hseg
    rcases hseg with ⟨hhd, o', hgo', hpi', hprev', hseg3⟩
    have ho' : o' = b.arena.getD x Order.default := by
      rw [hgx] at hgo'
      injection hgo' with h
      exact h.symm
    subst ho'
    have hndq : (x :: qrest).Nodup := by
      rw [← hq]
      exact level_nodupC hwf htob
    have hxn : x ∉ qrest := (List.nodup_cons.mp hndq).1
    have htliff : ((b.orders.getD tob PriceLevel.default).tail = some x) ↔
        qrest = [] := by
      rw [hexit]
      exact getLast?_cons_some_iff hxn
    have hmemQ : ∀ a, a ∈ x :: qrest → a < b.arena.length := by
      intro a ha
      refine flatten_mem_ltC hwf (mem_level_mem_flattenC hwf htob ?_)
      rw [hq]
      exact ha
    have hnext_mem : ∀ nn, (b.arena.getD x Order.default).next = some nn →
        nn ∈ qrest := by
      intro nn hnn
      rw [lseg_head hseg3] at hnn
      cases hl : qrest.head? with
      | none =>
        rw [hl] at hnn
        simp at hnn
      | some y =>
        rw [hl] at hnn
        have hy : y = nn := by simpa using hnn
        subst hy
        exact @List.mem_of_mem_head? _ qrest _ (by rw [hl]; exact rfl)
    have hpv_lt : ∀ pp, (b.arena.getD x Order.default).prev = some pp →
        pp < b.arena.length := by
      intro pp h
      rw [hprev'] at h
      cases h
    have hnx_lt : ∀ nn, (b.arena.getD x Order.default).next = some nn →
        nn < b.arena.length := by
      intro nn h
      exact hmemQ nn (List.mem_cons_of_mem _ (hnext_mem nn h))
    have hospos : 0 < (b.arena.getD x Order.default).size := hlr.2.2.2 x hx
    have htotpos : 0 < (b.orders.getD tob PriceLevel.default).total_size := by
      rw [hlr.2.2.1, hq]
      refine sumSizes_pos (List.cons_ne_nil _ _) ?_
      intro a ha
      refine hlr.2.2.2 a ?_
      rw [hq]
      exact ha
    rcases fuel with _ | f
    · omega
    · by_cases hs0 : size ≤ 0
      · refine ⟨b, 0, ?_, Nat.zero_le _, ?_, ?_, rfl, rfl, rfl, rfl, rfl, rfl, rfl,
          fun r _ => rfl, ⟨[], rfl⟩, fun a _ => ⟨rfl, rfl⟩⟩
        · rw [matchInner_ret (by omega) htob hs0]
          simp only [List.map_cons, specConsume]
          rw [if_pos hs0, add_zero]
        · have hQ : Q.set tob ((x :: qrest).drop 0) = Q := by
            rw [List.drop_zero, ← hq, set_getD_self htobQ]
          rw [hQ]
          exact hwf
        · simp only [List.drop_zero, List.map_cons, specConsume]
          rw [if_pos hs0]
      · push_neg at hs0
        by_cases hfull : (b.arena.getD x Order.default).size ≤ size
        · -- the head order is fully consumed
          have hstep := @matchInner_step_full _ f _ _ _ notional _
            htob hhd hxlt htliff hpv_lt hnx_lt hs0 htotpos hfull
          have hwfB4 := WFcore_full_step hwf htob hq
          have hA0len : (b.arena.set x { b.arena.getD x Order.default with
              size := (b.arena.getD x Order.default).size -
                (b.arena.getD x Order.default).size }).length = b.arena.length :=
            List.length_set b.arena x _
          have hpv0 : ∀ pp, (b.arena.getD x Order.default).prev = some pp →
              pp < (b.arena.set x { b.arena.getD x Order.default with
                size := (b.arena.getD x Order.default).size -
                  (b.arena.getD x Order.default).size }).length := by
            intro pp h
            rw [hA0len]
            exact hpv_lt pp h
          have hnx0 : ∀ nn, (b.arena.getD x Order.default).next = some nn →
              nn < (b.arena.set x { b.arena.getD x Order.default with
                size := (b.arena.getD x Order.default).size -
                  (b.arena.getD x Order.default).size }).length := by
            intro nn h
            rw [hA0len]
            exact hnx_lt nn h
          have hB4sz : ∀ a, a ≠ x →
              ((relinkArena
                  (b.arena.set x { b.arena.getD x Order.default with
                    size := (b.arena.getD x Order.default).size -
                      (b.arena.getD x Order.default).size })
                  (b.arena.getD x Order.default).prev
                  (b.arena.getD x Order.default).next).getD a Order.default).size =
                (b.arena.getD a Order.default).size ∧
              ((relinkArena
                  (b.arena.set x { b.arena.getD x Order.default with
                    size := (b.arena.getD x Order.default).size -
                      (b.arena.getD x Order.default).size })
                  (b.arena.getD x Order.default).prev
                  (b.arena.getD x Order.default).next).getD a Order.default).id =
                (b.arena.getD a Order.default).id := by
            intro a ha
            have h1 := relink_size_id
              (A := b.arena.set x { b.arena.getD x Order.default with
                size := (b.arena.getD x Order.default).size -
                  (b.arena.getD x Order.default).size }) a hpv0 hnx0
            have h2 : ((b.arena.set x { b.arena.getD x Order.default with
                size := (b.arena.getD x Order.default).size -
                  (b.arena.getD x Order.default).size }).getD a Order.default) =
                b.arena.getD a Order.default :=
              getD_set_outside (fun hh => ha hh.symm)
            rw [h2] at h1
            exact h1
          have hB4alen : (relinkArena
              (b.arena.set x { b.arena.getD x Order.default with
                size := (b.arena.getD x Order.default).size -
                  (b.arena.getD x Order.default).size })
              (b.arena.getD x Order.default).prev
              (b.arena.getD x Order.default).next).length = b.arena.length := by
            rw [relink_length hpv0 hnx0, hA0len]
          have htob4 : tob < (b.orders.set tob
              (⟨(b.arena.getD x Order.default).next,
               (if qrest = [] then none
                else (b.orders.getD tob PriceLevel.default).tail),
               ((b.orders.getD tob PriceLevel.default).total_size -
                   (b.arena.getD x Order.default).size) -
                 ((b.arena.getD x Order.default).size -
                   (b.arena.getD x Order.default).size)⟩ : PriceLevel)).length := by
            rw [List.length_set]
            exact htob
          have hq4 : (Q.set tob qrest).getD tob [] = qrest := getD_set_self' htobQ
          have hfuel4 : qrest.length + 2 ≤ f := by
            simp only [List.length_cons] at hfuel
            omega
          obtain ⟨b', k', hrun', hk', hwf', hstream', hmin', hmax', htick', hside',
            htop', halen', holen', hords', hfree', hframe'⟩ :=
            ih hwfB4 htob4 hq4 hfuel4
          have hmapeq : qrest.map (entryOf
              { b with
                orders := b.orders.set tob
                  ⟨(b.arena.getD x Order.default).next,
                   (if qrest = [] then none
                    else (b.orders.getD tob PriceLevel.default).tail),
                   ((b.orders.getD tob PriceLevel.default).total_size -
                       (b.arena.getD x Order.default).size) -
                     ((b.arena.getD x Order.default).size -
                       (b.arena.getD x Order.default).size)⟩
                arena := relinkArena
                  (b.arena.set x { b.arena.getD x Order.default with
                    size := (b.arena.getD x Order.default).size -
                      (b.arena.getD x Order.default).size })
                  (b.arena.getD x Order.default).prev
                  (b.arena.getD x Order.default).next
                ids := idsErase b.ids (b.arena.getD x Order.default).id
                free_list := x :: b.free_list } tob) =
              qrest.map (entryOf b tob) := by
            refine map_entryOf_congr rfl ?_
            intro a ha
            exact hB4sz a (fun hh => hxn (hh ▸ ha))
          rw [hmapeq] at hrun' hstream'
          have htr : min size (b.arena.getD x Order.default).size =
              (b.arena.getD x Order.default).size := min_eq_right hfull
          refine ⟨b', k' + 1, ?_, ?_, ?_, ?_, hmin', hmax', htick', hside', htop',
            halen'.trans hB4alen, ?_, ?_, ?_, ?_⟩
          · rw [hstep, hrun']
            simp only [List.map_cons, specConsume, entryOf]
            rw [if_neg (by omega : ¬ size ≤ 0), if_pos hfull, htr, add_assoc]
          · simp only [List.length_cons]
            omega
          · rw [List.set_set] at hwf'
            rw [List.drop_succ_cons]
            exact hwf'
          · rw [List.drop_succ_cons, hstream']
            simp only [List.map_cons, specConsume, entryOf]
            rw [if_neg (by omega : ¬ size ≤ 0), if_pos hfull, htr]
          · rw [holen', List.length_set]
          · intro r hr
            rw [hords' r hr]
            exact getD_set_ne' (fun hh => hr hh.symm)
          · obtain ⟨c, hc⟩ := hfree'
            refine ⟨c ++ [x], ?_⟩
            rw [hc]
            simp [List.append_assoc]
          · intro a ha
            have hax : a ≠ x := fun hh => ha (hh ▸ List.mem_cons_self _ _)
            have haq : a ∉ qrest := fun hh => ha (List.mem_cons_of_mem _ hh)
            have h1 := hframe' a haq
            have h2 := hB4sz a hax
            exact ⟨h1.1.trans h2.1, h1.2.trans h2.2⟩
        · -- the head order is only partially consumed
          push_neg at hfull
          have hstep := @matchInner_step_resize _ f _ _ _ notional
            htob hhd hxlt hs0 htotpos hfull
          set B2 : HalfBook := { b with
            orders := b.orders.set tob
              { b.orders.getD tob PriceLevel.default with
                total_size := (b.orders.getD tob PriceLevel.default).total_size -
                  size }
            arena := b.arena.set x
              { b.arena.getD x Order.default with
                size := (b.arena.getD x Order.default).size - size } } with hB2
          have hretlt : tob < B2.orders.length := by
            rw [hB2]
            simp only
            rw [List.length_set]
            exact htob
          have hret := @matchInner_ret B2
            f tob (size - size)
            (notional + size * b.get_price_from_index tob)
            (by omega) hretlt (by omega)
          have hres := @WFcore_resize _ _ _ _
            ((b.arena.getD x Order.default).size - size)
            hwf htob hx (by omega)
          have heq1 : (b.orders.getD tob PriceLevel.default).total_size -
              (b.arena.getD x Order.default).size +
              ((b.arena.getD x Order.default).size - size) =
              (b.orders.getD tob PriceLevel.default).total_size - size := by
            ring
          rw [heq1] at hres
          have hszx : (b.arena.set x { b.arena.getD x Order.default with
              size := (b.arena.getD x Order.default).size - size }).getD x
              Order.default = { b.arena.getD x Order.default with
              size := (b.arena.getD x Order.default).size - size } :=
            getD_set_self hxlt
          have htr : min size (b.arena.getD x Order.default).size = size :=
            min_eq_left (le_of_lt hfull)
          have hB2frame : ∀ a, a ≠ x →
              (B2.arena.getD a Order.default).size =
                (b.arena.getD a Order.default).size ∧
              (B2.arena.getD a Order.default).id =
                (b.arena.getD a Order.default).id := by
            intro a hax
            rw [hB2]
            simp only
            rw [getD_set_outside (fun hh => hax hh.symm)]
            exact ⟨rfl, rfl⟩
          refine ⟨B2, 0, ?_, Nat.zero_le _, ?_, ?_, rfl, rfl, rfl, rfl, rfl, ?_, ?_,
            ?_, ⟨[], rfl⟩, ?_⟩
          · rw [hstep, hret]
            simp only [List.map_cons, specConsume, entryOf]
            rw [if_neg (by omega : ¬ size ≤ 0), if_neg (by omega :
              ¬ (b.arena.getD x Order.default).size ≤ size), htr]
          · have hQ : Q.set tob ((x :: qrest).drop 0) = Q := by
              rw [List.drop_zero, ← hq, set_getD_self htobQ]
            rw [hQ]
            exact hres
          · simp only [List.drop_zero, List.map_cons, specConsume, entryOf]
            rw [if_neg (by omega : ¬ size ≤ 0), if_neg (by omega :
              ¬ (b.arena.getD x Order.default).size ≤ size), htr]
            have htl2 : qrest.map (entryOf B2 tob) = qrest.map (entryOf b tob) := by
              refine map_entryOf_congr rfl ?_
              intro a ha
              exact hB2frame a (fun hh => hxn (hh ▸ ha))
            rw [htl2]
            simp only [hszx, hB2, HalfBook.get_price_from_index]
          · rw [hB2]
            simp only
            rw [List.length_set]
          · rw [hB2]
            simp only
            rw [List.length_set]
          · intro r hr
            rw [hB2]
            simp only
            exact getD_set_ne' (fun hh => hr hh.symm)
          · intro a ha
            have hax : a ≠ x := fun hh => ha (hh ▸ List.mem_cons_self _ _)
            exact hB2frame a hax

/-! ## Matching: outer-loop machinery -/

theorem specConsume_nonpos {L : List BookEntry} {size : Int} (h : size ≤ 0) :
    specConsume L size = (0, size, L) := by
  cases L with
  | nil => rfl
  | cons e rest =>
    rw [specConsume, if_pos h]

theorem specConsume_append (A : List BookEntry) :
    ∀ (B : List BookEntry) (size : Int),
    specConsume (A ++ B) size =
      if (specConsume A size).2.2 = []
      then ((specConsume A size).1 + (specConsume B (specConsume A size).2.1).1,
            (specConsume B (specConsume A size).2.1).2.1,
            (specConsume B (specConsume A size).2.1).2.2)
      else ((specConsume A size).1, (specConsume A size).2.1,
            (specConsume A size).2.2 ++ B) := by
  induction A with
  | nil =>
    intro B size
    have h0 : (specConsume ([] : List BookEntry) size) = (0, size, []) := rfl
    rw [List.nil_append, h0, if_pos rfl]
    simp only [zero_add]
  | cons e A' ihA =>
    intro B size
    by_cases hs : size ≤ 0
    · simp only [List.cons_append, specConsume, List.append_eq, if_pos hs]
      rw [if_neg (List.cons_ne_nil _ _)]
    · simp only [List.cons_append, specConsume, List.append_eq, if_neg hs]
      by_cases hfull : e.esize ≤ size
      · rw [if_pos hfull, if_pos hfull, ihA B (size - min size e.esize)]
        by_cases hA : (specConsume A' (size - min size e.esize)).2.2 = []
        · rw [if_pos hA, if_pos hA]
          simp only
          rw [add_assoc]
        · rw [if_neg hA, if_neg hA]
      · rw [if_neg hfull, if_neg hfull, if_neg (List.cons_ne_nil _ _)]
        rfl

theorem bestIdx_decomp {s : Side} {len t : Nat} (ht : t < len) :
    bestIdx s len = betterIdx s len t ++ t :: worseIdx s len t := by
  cases s
  · -- Buy
    show (List.range len).reverse = _
    have h1 : List.range len = List.range (t + 1) ++ List.range' (t + 1) (len - (t + 1)) := by
      rw [List.range_eq_range', List.range_eq_range']
      have := List.range'_append 0 (t + 1) (len - (t + 1)) 1
      simp only [one_mul, zero_add] at this
      rw [this]
      congr 1
      omega
    rw [h1, List.reverse_append, List.range_succ, List.reverse_append]
    rfl
  · -- Sell
    show List.range len = _
    have h1 : List.range len = List.range (t + 1) ++ List.range' (t + 1) (len - (t + 1)) := by
      rw [List.range_eq_range', List.range_eq_range']
      have := List.range'_append 0 (t + 1) (len - (t + 1)) 1
      simp only [one_mul, zero_add] at this
      rw [this]
      congr 1
      omega
    rw [h1, List.range_succ]
    show (List.range t ++ [t]) ++ _ = List.range t ++ t :: _
    rw [List.append_assoc]
    rfl

theorem mem_betterIdx {s : Side} {len t p : Nat} (h : p ∈ betterIdx s len t) :
    p < len → sideLeB s p t = false := by
  intro _
  cases s
  · simp only [betterIdx, List.mem_reverse, List.mem_range'_1] at h
    simp only [sideLeB, decide_eq_false_iff_not]
    omega
  · simp only [betterIdx, List.mem_range] at h
    simp only [sideLeB, decide_eq_false_iff_not]
    omega

theorem mem_betterIdx_lt {s : Side} {len t p : Nat} (ht : t < len)
    (h : p ∈ betterIdx s len t) : p < len ∧ p ≠ t := by
  cases s
  · simp only [betterIdx, List.mem_reverse, List.mem_range'_1] at h
    omega
  · simp only [betterIdx, List.mem_range] at h
    omega

theorem mem_worseIdx_lt {s : Side} {len t p : Nat} (ht : t < len)
    (h : p ∈ worseIdx s len t) : p < len ∧ p ≠ t := by
  cases s
  · simp only [worseIdx, List.mem_reverse, List.mem_range] at h
    omega
  · simp only [worseIdx, List.mem_range'_1] at h
    omega

theorem level_empty_of_total_zero {b : HalfBook} {Q : List (List Nat)} {p : Nat}
    (hwf : WFcore b Q) (hp : p < b.orders.length)
    (hz : (b.orders.getD p PriceLevel.default).total_size = 0) :
    Q.getD p [] = [] := by
  have hlr := WFC_level hwf p hp
  have htot := hlr.2.2.1
  rw [hz] at htot
  exact (sumSizes_eq_zero_iff hlr.2.2.2).mp htot.symm

theorem length_le_totalCount {Q : List (List Nat)} {t : Nat} (h : t < Q.length) :
    (Q.getD t []).length ≤ totalCount Q := by
  induction Q generalizing t with
  | nil => simp at h
  | cons q Qs ihq =>
    cases t with
    | zero =>
      simp only [List.getD_cons_zero, totalCount, List.map_cons, List.sum_cons]
      have : 0 ≤ (Qs.map List.length).sum := Nat.zero_le _
      omega
    | succ t2 =>
      simp only [List.getD_cons_succ, totalCount, List.map_cons, List.sum_cons]
      have := @ihq t2 (by simpa using h)
      simp only [totalCount] at this
      omega

theorem totalCount_set {Q : List (List Nat)} {t : Nat} {l : List Nat}
    (h : t < Q.length) :
    totalCount (Q.set t l) + (Q.getD t []).length = totalCount Q + l.length := by
  induction Q generalizing t with
  | nil => simp at h
  | cons q Qs ihq =>
    cases t with
    | zero =>
      simp only [List.set_cons_zero, totalCount, List.map_cons, List.sum_cons,
        List.getD_cons_zero]
      omega
    | succ t2 =>
      simp only [List.set_cons_succ, totalCount, List.map_cons, List.sum_cons,
        List.getD_cons_succ]
      have := @ihq t2 (by simpa using h)
      simp only [totalCount] at this
      omega

theorem mem_bestIdx_lt {s : Side} {len p : Nat} (h : p ∈ bestIdx s len) : p < len := by
  cases s <;> simp only [bestIdx, List.mem_reverse, List.mem_range] at h <;> exact h

theorem flatBook_none {b : HalfBook} {Q : List (List Nat)} (hwf : WF b Q)
    (htop : b.top_of_book = none) : flatBook b Q = [] := by
  have hT := WF_tob hwf
  unfold TobSpec at hT
  rw [htop] at hT
  unfold flatBook
  refine List.flatMap_eq_nil_iff.mpr ?_
  intro p hp
  have hplt : p < b.orders.length := mem_bestIdx_lt hp
  rw [level_empty_of_total_zero hwf.1 hplt (hT p hplt)]
  rfl

theorem flatBook_decomp {b : HalfBook} {Q : List (List Nat)} {t : Nat}
    (hwf : WF b Q) (htop : b.top_of_book = some t) :
    flatBook b Q = (Q.getD t []).map (entryOf b t) ++
      (worseIdx b.side b.orders.length t).flatMap
        (fun p => (Q.getD p []).map (entryOf b p)) := by
  have hT := WF_tob hwf
  unfold TobSpec at hT
  rw [htop] at hT
  rcases hT with ⟨hlt, hnz, hmax⟩
  unfold flatBook
  rw [bestIdx_decomp hlt, List.flatMap_append, List.flatMap_cons]
  have hbetter : (betterIdx b.side b.orders.length t).flatMap
      (fun p => (Q.getD p []).map (entryOf b p)) = [] := by
    refine List.flatMap_eq_nil_iff.mpr ?_
    intro p hp
    rcases mem_betterIdx_lt hlt hp with ⟨hplt, hpt⟩
    have hfalse := mem_betterIdx hp hplt
    have hz : (b.orders.getD p PriceLevel.default).total_size = 0 := by
      by_contra hnz2
      have := hmax p hplt hnz2
      rw [hfalse] at this
      cases this
    rw [level_empty_of_total_zero hwf.1 hplt hz]
    rfl
  rw [hbetter, List.nil_append]

theorem worse_flatMap_congr {b b2 : HalfBook} {Q : List (List Nat)} {t : Nat}
    {l2 : List Nat}
    (hwfc : WFcore b Q) (hlt : t < b.orders.length)
    (hmin : b2.min_price = b.min_price)
    (hframe : ∀ a, a ∉ Q.getD t [] →
      (b2.arena.getD a Order.default).size = (b.arena.getD a Order.default).size ∧
      (b2.arena.getD a Order.default).id = (b.arena.getD a Order.default).id) :
    ∀ L : List Nat, (∀ p ∈ L, p < b.orders.length ∧ p ≠ t) →
      L.flatMap (fun p => ((Q.set t l2).getD p []).map (entryOf b2 p)) =
      L.flatMap (fun p => (Q.getD p []).map (entryOf b p)) := by
  intro L hL
  refine List.flatMap_congr ?_
  intro p hp
  rcases hL p hp with ⟨hplt, hpt⟩
  rw [getD_set_ne' (fun hh => hpt hh.symm)]
  refine map_entryOf_congr hmin ?_
  intro a ha
  refine hframe a ?_
  exact levels_disjointC hwfc hplt hlt hpt ha

theorem flatBook_drained {b b2 : HalfBook} {Q : List (List Nat)} {t : Nat}
    (hwf : WF b Q) (htop : b.top_of_book = some t)
    (hside : b2.side = b.side) (hmin : b2.min_price = b.min_price)
    (holen : b2.orders.length = b.orders.length)
    (hQlen : t < Q.length)
    (hframe : ∀ a, a ∉ Q.getD t [] →
      (b2.arena.getD a Order.default).size = (b.arena.getD a Order.default).size ∧
      (b2.arena.getD a Order.default).id = (b.arena.getD a Order.default).id) :
    flatBook b2 (Q.set t []) =
      (worseIdx b.side b.orders.length t).flatMap
        (fun p => (Q.getD p []).map (entryOf b p)) := by
  have hT := WF_tob hwf
  unfold TobSpec at hT
  rw [htop] at hT
  rcases hT with ⟨hlt, hnz, hmax⟩
  unfold flatBook
  rw [hside, holen, bestIdx_decomp hlt, List.flatMap_append, List.flatMap_cons]
  have hbetter : (betterIdx b.side b.orders.length t).flatMap
      (fun p => ((Q.set t []).getD p []).map (entryOf b2 p)) = [] := by
    refine List.flatMap_eq_nil_iff.mpr ?_
    intro p hp
    rcases mem_betterIdx_lt hlt hp with ⟨hplt, hpt⟩
    have hfalse := mem_betterIdx hp hplt
    have hz : (b.orders.getD p PriceLevel.default).total_size = 0 := by
      by_contra hnz2
      have := hmax p hplt hnz2
      rw [hfalse] at this
      cases this
    rw [getD_set_ne' (fun hh => hpt hh.symm),
      level_empty_of_total_zero hwf.1 hplt hz]
    rfl
  have hmid : ((Q.set t []).getD t []).map (entryOf b2 t) = [] := by
    rw [getD_set_self' hQlen]
    rfl
  rw [hbetter, hmid, List.nil_append, List.nil_append]
  refine worse_flatMap_congr hwf.1 hlt hmin hframe _ ?_
  intro p hp
  exact mem_worseIdx_lt hlt hp

theorem specConsume_rem_nonpos : ∀ (L : List BookEntry) (size : Int),
    (specConsume L size).2.2 ≠ [] → (specConsume L size).2.1 ≤ 0 := by
  intro L
  induction L with
  | nil =>
    intro size h
    exact absurd rfl h
  | cons e rest ihL =>
    intro size h
    by_cases hs : size ≤ 0
    · rw [specConsume, if_pos hs] at h ⊢
      exact hs
    · rw [specConsume, if_neg hs] at h ⊢
      by_cases hfull : e.esize ≤ size
      · rw [if_pos hfull] at h ⊢
        exact ihL _ h
      · rw [if_neg hfull] at h ⊢
        simp only
        have hm : min size e.esize = size := min_eq_left (by omega)
        rw [hm]
        omega

/-- Simulation of the outer matching loop: `matchOuter` consumes the
best-first FIFO stream of the book exactly as the specification-level
`specConsume` does, restores full well-formedness, and frames the rest. -/
theorem matchOuter_sim : ∀ (fuel : Nat) {b : HalfBook} {Q : List (List Nat)}
    {size notional : Int},
    WF b Q → totalCount Q + 3 ≤ fuel →
    ∃ b' Q',
      HalfBook.matchOuter b fuel size notional =
        (Except.ok (notional + (specConsume (flatBook b Q) size).1), b') ∧
      WF b' Q' ∧
      flatBook b' Q' = (specConsume (flatBook b Q) size).2.2 ∧
      b'.min_price = b.min_price ∧
      b'.max_price = b.max_price ∧
      b'.tick_size = b.tick_size ∧
      b'.side = b.side ∧
      b'.orders.length = b.orders.length ∧
      b'.arena.length = b.arena.length ∧
      Q'.length = Q.length ∧
      (∀ r, ∃ kk, Q'.getD r [] = (Q.getD r []).drop kk) ∧
      (∃ consumed : List Nat, b'.free_list = consumed ++ b.free_list) := by
  intro fuel
  induction fuel with
  | zero =>
    intro b Q size notional hwf hf
    omega
  | succ f ihf =>
    intro b Q size notional hwf hf
    by_cases hs : size > 0
    · rcases htop : b.top_of_book with _ | t
      · -- empty book: nothing to match
        refine ⟨b, Q, ?_, hwf, ?_, rfl, rfl, rfl, rfl, rfl, rfl, rfl,
          fun r => ⟨0, rfl⟩, ⟨[], rfl⟩⟩
        · rw [HalfBook.matchOuter, if_pos hs, htop, flatBook_none hwf htop]
          rw [show specConsume [] size = (0, size, []) from rfl, add_zero]
        · rw [flatBook_none hwf htop]
          rfl
      · -- a populated best level
        have hT := WF_tob hwf
        unfold TobSpec at hT
        rw [htop] at hT
        rcases hT with ⟨hlt, hnz, hmax⟩
        have hQlt : t < Q.length := by rw [WF_qlen hwf]; exact hlt
        have hqne : Q.getD t [] ≠ [] := by
          intro hq0
          refine hnz ?_
          rw [(WFC_level hwf.1 t hlt).2.2.1, hq0, sumSizes_nil]
        have hflen : (Q.getD t []).length + 2 ≤ f := by
          have h1 := length_le_totalCount hQlt
          omega
        obtain ⟨b2, k, hrun, hk, hwf2, hstream, hmin2, hmax2, htick2, hside2,
          htop2, halen2, holen2, hords2, hfree2, hframe2⟩ :=
          @matchInner_sim (Q.getD t []) _ _ _ _ size notional
            hwf.1 hlt rfl hflen
        have hlt2 : t < b2.orders.length := by
          rw [holen2]
          exact hlt
        have hflat := flatBook_decomp hwf htop
        have hsplit := specConsume_append ((Q.getD t []).map (entryOf b t))
          ((worseIdx b.side b.orders.length t).flatMap
            (fun p => (Q.getD p []).map (entryOf b p))) size
        by_cases hzero : (b2.orders.getD t PriceLevel.default).total_size = 0
        · -- the best level has drained: rescan and continue
          have hlr2 := WFC_level hwf2 t hlt2
          have hdrop : (Q.getD t []).drop k = [] := by
            have htot2 := hlr2.2.2.1
            rw [getD_set_self' hQlt] at htot2
            have hpos2 := hlr2.2.2.2
            rw [hzero] at htot2
            refine (sumSizes_eq_zero_iff ?_).mp htot2.symm
            intro a ha
            refine hpos2 a ?_
            rw [getD_set_self' hQlt]
            exact ha
          have hrest : (specConsume ((Q.getD t []).map (entryOf b t)) size).2.2 = [] := by
            rw [← hstream, hdrop]
            rfl
          have hwfc'' : WFcore
              { b2 with top_of_book := b2.find_next_best_level t }
              (Q.set t []) := by
            rw [← hdrop]
            exact hwf2
          have hts'' : TobSpec { b2 with top_of_book := b2.find_next_best_level t } := by
            refine findNext_correct hlt2 ?_ hzero
            intro r hr hnz2
            show sideLeB b2.side r t = true
            rw [hside2]
            by_cases hrt : r = t
            · rw [hrt]
              exact sideLeB_refl _ _
            · refine hmax r (by rw [← holen2]; exact hr) ?_
              rw [← hords2 r hrt]
              exact hnz2
          have hcount : totalCount (Q.set t []) + 3 ≤ f := by
            have hset := @totalCount_set _ _ ([] : List Nat) hQlt
            have h1 := length_le_totalCount hQlt
            have h2 : Q.getD t [] ≠ [] := hqne
            have h3 : 1 ≤ (Q.getD t []).length := by
              cases hq : Q.getD t [] with
              | nil => exact absurd hq h2
              | cons a l => simp
            simp only [List.length_nil] at hset
            omega
          obtain ⟨b3, Q3, hrun3, hwf3, hflat3, hmin3, hmax3, htick3, hside3,
            holen3, halen3, hQlen3, hdrops3, hfree3⟩ :=
            @ihf { b2 with top_of_book := b2.find_next_best_level t }
              (Q.set t [])
              ((specConsume ((Q.getD t []).map (entryOf b t)) size).2.1)
              (notional +
                (specConsume ((Q.getD t []).map (entryOf b t)) size).1)
              ⟨hwfc'', hts''⟩ hcount
          have hworse : flatBook { b2 with top_of_book := b2.find_next_best_level t }
              (Q.set t []) =
              (worseIdx b.side b.orders.length t).flatMap
                (fun p => (Q.getD p []).map (entryOf b p)) :=
            flatBook_drained hwf htop hside2 hmin2 holen2 hQlt hframe2
          rw [hworse] at hrun3 hflat3
          refine ⟨b3, Q3, ?_, hwf3, ?_, hmin3.trans hmin2, hmax3.trans hmax2,
            htick3.trans htick2, hside3.trans hside2, holen3.trans holen2,
            halen3.trans halen2, ?_, ?_, ?_⟩
          · rw [HalfBook.matchOuter, if_pos hs, htop]
            dsimp only
            rw [hrun]
            simp only
            rw [getD_of_getElem?_levels hlt2]
            simp only
            rw [if_pos hzero, hrun3, hflat, hsplit, if_pos hrest]
            simp only
            rw [add_assoc]
          · rw [hflat3, hflat, hsplit, if_pos hrest]
          · rw [hQlen3, List.length_set]
          · intro r
            obtain ⟨kk, hkk⟩ := hdrops3 r
            by_cases hrt : r = t
            · refine ⟨(Q.getD t []).length + kk, ?_⟩
              rw [hrt] at hkk ⊢
              rw [hkk, getD_set_self' hQlt]
              rw [show ∀ n, ([] : List Nat).drop n = [] from fun n => List.drop_nil]
              rw [← List.drop_drop, List.drop_length, List.drop_nil]
            · refine ⟨kk, ?_⟩
              rw [hkk, getD_set_ne' (fun hh => hrt hh.symm)]
          · obtain ⟨c3, hc3⟩ := hfree3
            obtain ⟨c2, hc2⟩ := hfree2
            refine ⟨c3 ++ c2, ?_⟩
            rw [hc3]
            show c3 ++ b2.free_list = _
            rw [hc2, List.append_assoc]
        · -- the best level survives: the taker is exhausted
          obtain ⟨f2, rfl⟩ : ∃ f2, f = f2 + 1 := ⟨f - 1, by omega⟩
          have hdropne : (Q.getD t []).drop k ≠ [] := by
            intro hd0
            refine hzero ?_
            have htot2 := (WFC_level hwf2 t hlt2).2.2.1
            rw [getD_set_self' hQlt, hd0, sumSizes_nil] at htot2
            exact htot2
          have hrestne : (specConsume ((Q.getD t []).map (entryOf b t)) size).2.2
              ≠ [] := by
            rw [← hstream]
            intro hh
            exact hdropne (List.map_eq_nil_iff.mp hh)
          have hrem := specConsume_rem_nonpos _ _ hrestne
          have hwfb2 : WF b2 (Q.set t ((Q.getD t []).drop k)) := by
            refine ⟨hwf2, ?_⟩
            unfold TobSpec
            rw [htop2, htop]
            refine ⟨hlt2, hzero, ?_⟩
            intro r hr hnz2
            rw [hside2]
            by_cases hrt : r = t
            · rw [hrt]
              exact sideLeB_refl _ _
            · refine hmax r (by rw [← holen2]; exact hr) ?_
              rw [← hords2 r hrt]
              exact hnz2
          have hflat2 : flatBook b2 (Q.set t ((Q.getD t []).drop k)) =
              (specConsume ((Q.getD t []).map (entryOf b t)) size).2.2 ++
              (worseIdx b.side b.orders.length t).flatMap
                (fun p => (Q.getD p []).map (entryOf b p)) := by
            rw [flatBook_decomp hwfb2 (htop2.trans htop)]
            congr 1
            · rw [getD_set_self' hQlt]
              exact hstream
            · rw [hside2, holen2]
              refine worse_flatMap_congr hwf.1 hlt hmin2 hframe2 _ ?_
              intro p hp
              exact mem_worseIdx_lt hlt hp
          refine ⟨b2, Q.set t ((Q.getD t []).drop k), ?_, hwfb2, ?_, hmin2, hmax2,
            htick2, hside2, holen2, halen2, ?_, ?_, hfree2⟩
          · rw [HalfBook.matchOuter, if_pos hs, htop]
            dsimp only
            rw [hrun]
            simp only
            rw [getD_of_getElem?_levels hlt2]
            simp only
            rw [if_neg hzero]
            rw [HalfBook.matchOuter, if_neg (by omega :
              ¬ (specConsume ((Q.getD t []).map (entryOf b t)) size).2.1 > 0)]
            rw [hflat, hsplit, if_neg hrestne]
          · rw [hflat2, hflat, hsplit, if_neg hrestne]
          · rw [List.length_set]
          · intro r
            by_cases hrt : r = t
            · refine ⟨k, ?_⟩
              rw [hrt, getD_set_self' hQlt]
            · refine ⟨0, ?_⟩
              rw [getD_set_ne' (fun hh => hrt hh.symm)]
              rfl
    · -- nothing requested
      refine ⟨b, Q, ?_, hwf, ?_, rfl, rfl, rfl, rfl, rfl, rfl, rfl,
        fun r => ⟨0, rfl⟩, ⟨[], rfl⟩⟩
      · rw [HalfBook.matchOuter, if_neg hs,
          specConsume_nonpos (by omega : size ≤ 0)]
        rw [add_zero]
      · rw [specConsume_nonpos (by omega : size ≤ 0)]

/-! ## `match_size`, liquidity congruence, and the insert/remove round trip -/

/-- `match_size` with a nonzero requested size runs the outer loop on a
zero notional accumulator. -/
theorem match_size_sim {b : HalfBook} {Q : List (List Nat)} {size : Int}
    {fuel : Nat} (hwf : WF b Q) (hs : size ≠ 0)
    (hfuel : totalCount Q + 3 ≤ fuel) :
    ∃ b' Q',
      HalfBook.match_size fuel b size =
        (Except.ok ((specConsume (flatBook b Q) size).1), b') ∧
      WF b' Q' ∧
      flatBook b' Q' = (specConsume (flatBook b Q) size).2.2 ∧
      b'.min_price = b.min_price ∧
      b'.max_price = b.max_price ∧
      b'.tick_size = b.tick_size ∧
      b'.side = b.side ∧
      b'.orders.length = b.orders.length ∧
      b'.arena.length = b.arena.length ∧
      Q'.length = Q.length ∧
      (∀ r, ∃ kk, Q'.getD r [] = (Q.getD r []).drop kk) ∧
      (∃ consumed : List Nat, b'.free_list = consumed ++ b.free_list) := by
  obtain ⟨b', Q', hrun, hrest⟩ := @matchOuter_sim fuel _ _ size 0
    hwf hfuel
  refine ⟨b', Q', ?_, hrest⟩
  rw [HalfBook.match_size, if_neg hs, hrun, zero_add]

theorem total_liquidity_congr {b b' : HalfBook}
    (hlen : b'.orders.length = b.orders.length)
    (h : ∀ r, (b'.orders.getD r PriceLevel.default).total_size =
      (b.orders.getD r PriceLevel.default).total_size) :
    b'.get_total_liquidity = b.get_total_liquidity := by
  unfold HalfBook.get_total_liquidity
  have hmap : b'.orders.map PriceLevel.total_size =
      b.orders.map PriceLevel.total_size := by
    apply List.ext_getElem?
    intro i
    rw [List.getElem?_map, List.getElem?_map]
    by_cases hi : i < b.orders.length
    · rw [getD_of_getElem?_levels hi, getD_of_getElem?_levels (by rw [hlen]; exact hi)]
      show some ((b'.orders.getD i PriceLevel.default).total_size) =
        some ((b.orders.getD i PriceLevel.default).total_size)
      rw [h i]
    · rw [List.getElem?_eq_none (by omega), List.getElem?_eq_none (by omega)]
  have hfold : ∀ O : List PriceLevel, O.foldl (fun acc o => acc + o.total_size) 0 =
      (O.map PriceLevel.total_size).foldl (fun acc v => acc + v) 0 := by
    intro O
    rw [List.foldl_map]
  rw [hfold, hfold, hmap]

theorem append_singleton_eq {q l1 l2 : List Nat} {a : Nat} (ha : a ∉ q)
    (h : q ++ [a] = l1 ++ a :: l2) : l1 = q ∧ l2 = [] := by
  induction q generalizing l1 with
  | nil =>
    cases l1 with
    | nil =>
      simp only [List.nil_append] at h
      injection h with _ h2
      exact ⟨rfl, h2.symm⟩
    | cons y t =>
      simp only [List.nil_append, List.cons_append] at h
      injection h with h1 h2
      exact absurd h2.symm (by simp)
  | cons x q' ihq =>
    cases l1 with
    | nil =>
      simp only [List.cons_append, List.nil_append] at h
      injection h with h1 h2
      exact absurd h1 (fun hh => ha (hh ▸ List.mem_cons_self _ _))
    | cons y t =>
      simp only [List.cons_append] at h
      injection h with h1 h2
      have := ihq (fun hh => ha (List.mem_cons_of_mem _ hh)) h2
      exact ⟨by rw [h1, this.1], this.2⟩

/-- The insert/remove round trip restores every observable of the book:
cached top, per-level totals, and total liquidity. -/
theorem insert_remove_roundtrip {b : HalfBook} {Q : List (List Nat)} {id : Nat}
    {price size : Int}
    (hwf : WF b Q) (hid : idsLookup b.ids id = none) (hp : 0 < price)
    (hs : 0 < size) (hidx : b.calculate_price_index price < b.orders.length) :
    (b.insert id price size).1 = Except.ok () ∧
    ((b.insert id price size).2.remove id).1 = Except.ok () ∧
    WF ((b.insert id price size).2.remove id).2 Q ∧
    ((b.insert id price size).2.remove id).2.top_of_book = b.top_of_book ∧
    (∀ r, ((((b.insert id price size).2.remove id).2.orders.getD r
        PriceLevel.default).total_size =
      (b.orders.getD r PriceLevel.default).total_size)) ∧
    ((b.insert id price size).2.remove id).2.get_total_liquidity =
      b.get_total_liquidity := by
  have hidxQ : b.calculate_price_index price < Q.length := by
    rw [WF_qlen hwf]
    exact hidx
  obtain ⟨ai, hainm, hok, hwf1, hmin1, hmax1, htick1, hside1, htob1, hids1, hord1,
    hgai1, hoff1, hfree1⟩ := insert_ok hwf hid hp hs hidx
  have hloc1 : idsLookup (b.insert id price size).2.ids id = some ai := by
    rw [hids1]
    exact idsLookup_store_self _ _ _
  obtain ⟨p', l1, l2, hp', hpi', hdec', hok2, hwf2, hmin2, hmax2, htick2, hside2,
    hids2, hfree2, halen2, hframe2, hord2⟩ := remove_ok hwf1 hloc1
  have hpidx : p' = b.calculate_price_index price := by
    rw [hgai1] at hpi'
    exact hpi'.symm
  subst hpidx
  have hq_eq : Q.getD (b.calculate_price_index price) [] ++ [ai] = l1 ++ ai :: l2 := by
    rw [getD_set_self' hidxQ] at hdec'
    exact hdec'
  have hainq : ai ∉ Q.getD (b.calculate_price_index price) [] :=
    fun hh => hainm (mem_level_mem_flatten hwf hidx hh)
  obtain ⟨hl1, hl2⟩ := append_singleton_eq hainq hq_eq
  subst hl1
  subst hl2
  have hQback : (Q.set (b.calculate_price_index price)
      (Q.getD (b.calculate_price_index price) [] ++ [ai])).set
      (b.calculate_price_index price)
      (Q.getD (b.calculate_price_index price) [] ++ []) = Q := by
    rw [List.set_set, List.append_nil, set_getD_self hidxQ]
  rw [hQback] at hwf2
  have hl1len : b.calculate_price_index price <
      (b.insert id price size).2.orders.length := by
    rw [hord1, List.length_set]
    exact hidx
  have holen2 : ((b.insert id price size).2.remove id).2.orders.length =
      b.orders.length := by
    rw [hord2, List.length_set, hord1, List.length_set]
  have htotals : ∀ r, ((((b.insert id price size).2.remove id).2.orders.getD r
      PriceLevel.default).total_size =
      (b.orders.getD r PriceLevel.default).total_size) := by
    intro r
    by_cases hre : r = b.calculate_price_index price
    · rw [hre, hord2, getD_set_self' hl1len]
      show ((b.insert id price size).2.orders.getD (b.calculate_price_index price)
          PriceLevel.default).total_size -
        ((b.insert id price size).2.arena.getD ai Order.default).size =
        (b.orders.getD (b.calculate_price_index price) PriceLevel.default).total_size
      rw [hgai1, hord1, getD_set_self' hidx]
      show (b.orders.getD (b.calculate_price_index price)
          PriceLevel.default).total_size + size - size =
        (b.orders.getD (b.calculate_price_index price) PriceLevel.default).total_size
      omega
    · rw [hord2, getD_set_ne' (fun hh => hre hh.symm), hord1,
        getD_set_ne' (fun hh => hre hh.symm)]
  have htop : ((b.insert id price size).2.remove id).2.top_of_book =
      b.top_of_book := by
    refine tobSpec_unique (WF_tob hwf) (WF_tob hwf2) ?_ ?_ ?_
    · rw [hside2, hside1]
    · exact holen2
    · intro r _
      exact htotals r
  exact ⟨hok, hok2, hwf2, htop, htotals, total_liquidity_congr holen2 htotals⟩

/-! ## Fuel-robust frame lemmas (no well-formedness assumed) -/

theorem rofll_shape (b : HalfBook) (pv nx : Option Nat) :
    ∃ A, (HalfBook.remove_order_from_linked_list b pv nx).2 =
      { b with arena := A } := by
  unfold HalfBook.remove_order_from_linked_list
  rcases pv with _ | pp
  · dsimp only
    rcases nx with _ | nn
    · exact ⟨b.arena, rfl⟩
    · dsimp only
      cases h : b.arena[nn]? with
      | none => exact ⟨b.arena, rfl⟩
      | some no => exact ⟨_, rfl⟩
  · dsimp only
    cases hp : b.arena[pp]? with
    | none => exact ⟨b.arena, rfl⟩
    | some po =>
      dsimp only
      rcases nx with _ | nn
      · exact ⟨_, rfl⟩
      · dsimp only
        cases h2 : (b.arena.set pp { po with next := some nn })[nn]? with
        | none => exact ⟨_, rfl⟩
        | some no => exact ⟨_, rfl⟩

theorem rofll_shape2 {b1 b2 : HalfBook} {pv nx : Option Nat} {r : Except String Unit}
    (h : HalfBook.remove_order_from_linked_list b1 pv nx = (r, b2)) :
    ∃ A, b2 = { b1 with arena := A } := by
  obtain ⟨A, hA⟩ := rofll_shape b1 pv nx
  rw [h] at hA
  exact ⟨A, hA⟩

theorem remove_head_shape (b : HalfBook) (i : Nat) :
    ∃ O A, (HalfBook.remove_head_of_price_level b i).2 =
      { b with orders := O, arena := A } ∧ O.length = b.orders.length := by
  unfold HalfBook.remove_head_of_price_level
  cases hl : b.orders[i]? with
  | none => exact ⟨b.orders, b.arena, rfl, rfl⟩
  | some pl =>
    dsimp only
    cases hh : pl.head with
    | none => exact ⟨b.orders, b.arena, rfl, rfl⟩
    | some hx =>
      dsimp only
      cases ha : b.arena[hx]? with
      | none => exact ⟨b.orders, b.arena, rfl, rfl⟩
      | some ho =>
        dsimp only
        split
        · rename_i e b2 heq
          obtain ⟨A, hA⟩ := rofll_shape2 heq
          exact ⟨_, A, hA, List.length_set _ _ _⟩
        · rename_i e b2 heq
          obtain ⟨A, hA⟩ := rofll_shape2 heq
          exact ⟨_, A, hA, List.length_set _ _ _⟩

theorem remove_head_shape2 {b1 b2 : HalfBook} {i : Nat} {r : Except String Unit}
    (h : HalfBook.remove_head_of_price_level b1 i = (r, b2)) :
    ∃ O A, b2 = { b1 with orders := O, arena := A } ∧ O.length = b1.orders.length := by
  obtain ⟨O, A, hA, hlen⟩ := remove_head_shape b1 i
  rw [h] at hA
  exact ⟨O, A, hA, hlen⟩

theorem mem_of_mem_idsErase {l : List (Nat × Nat)} {k : Nat} {pr : Nat × Nat}
    (h : pr ∈ idsErase l k) : pr ∈ l :=
  List.mem_of_mem_filter h

theorem matchInner_shape : ∀ (fuel : Nat) (b : HalfBook) (tob : Nat)
    (size notional : Int),
    ∃ O A I fl, (HalfBook.matchInner b fuel tob size notional).2 =
      { b with
        orders := O
        arena := A
        free_list := fl
        ids := I } ∧ O.length = b.orders.length ∧
      ∀ pr, pr ∈ I → pr ∈ b.ids := by
  intro fuel
  induction fuel with
  | zero =>
    intro b tob size notional
    exact ⟨b.orders, b.arena, b.ids, b.free_list, rfl, rfl, fun pr h => h⟩
  | succ f ih =>
    intro b tob size notional
    rw [HalfBook.matchInner]
    cases hl : b.orders[tob]? with
    | none => exact ⟨b.orders, b.arena, b.ids, b.free_list, rfl, rfl, fun pr h => h⟩
    | some level =>
      dsimp only
      by_cases hc : size ≤ 0 ∨ level.total_size ≤ 0
      · rw [if_pos hc]
        exact ⟨b.orders, b.arena, b.ids, b.free_list, rfl, rfl, fun pr h => h⟩
      · rw [if_neg hc]
        cases hh : level.head with
        | none => exact ⟨b.orders, b.arena, b.ids, b.free_list, rfl, rfl, fun pr h => h⟩
        | some oi =>
          dsimp only
          cases ha : b.arena[oi]? with
          | none => exact ⟨b.orders, b.arena, b.ids, b.free_list, rfl, rfl, fun pr h => h⟩
          | some o =>
            dsimp only
            rw [hl]
            dsimp only
            by_cases he : o.size - min size o.size = 0
            · rw [if_pos he]
              split
              · rename_i e b3 heq
                obtain ⟨O, A, hA, hlen⟩ := remove_head_shape2 heq
                exact ⟨O, A, b.ids, b.free_list, hA,
                  hlen.trans (List.length_set _ _ _), fun pr h => h⟩
              · rename_i u b3 heq
                obtain ⟨O, A, hA, hlen⟩ := remove_head_shape2 heq
                rw [hA]
                obtain ⟨O2, A2, I2, F2, h2, hlen2, hsub2⟩ :=
                  ih { b with
                    orders := O
                    arena := A
                    free_list := oi :: b.free_list
                    ids := idsErase b.ids o.id } tob (size - min size o.size)
                    (notional + min size o.size * b.get_price_from_index tob)
                refine ⟨O2, A2, I2, F2, h2, ?_, ?_⟩
                · exact hlen2.trans (hlen.trans (List.length_set _ _ _))
                · intro pr hp
                  exact mem_of_mem_idsErase (hsub2 pr hp)
            · rw [if_neg he]
              obtain ⟨O2, A2, I2, F2, h2, hlen2, hsub2⟩ :=
                ih { b with
                  orders := b.orders.set tob
                    { level with total_size := level.total_size - min size o.size }
                  arena := b.arena.set oi
                    { o with size := o.size - min size o.size } } tob
                  (size - min size o.size)
                  (notional + min size o.size * b.get_price_from_index tob)
              refine ⟨O2, A2, I2, F2, h2, ?_, hsub2⟩
              exact hlen2.trans (List.length_set _ _ _)

theorem findDown_lt {b : HalfBook} : ∀ {t r : Nat},
    HalfBook.findDown b t = some r → r < t ∧ r < b.orders.length := by
  intro t
  induction t with
  | zero => intro r h; cases h
  | succ t ih =>
    intro r h
    rw [HalfBook.findDown] at h
    rcases hget : b.orders[t]? with _ | pl
    · simp only [hget] at h
      obtain ⟨h1, h2⟩ := ih h
      exact ⟨by omega, h2⟩
    · simp only [hget] at h
      have hlt : t < b.orders.length := by
        by_contra hh
        rw [List.getElem?_eq_none (by omega)] at hget
        cases hget
      by_cases hz : pl.total_size ≠ 0
      · rw [if_pos hz] at h
        injection h with h
        subst h
        exact ⟨by omega, hlt⟩
      · rw [if_neg hz] at h
        obtain ⟨h1, h2⟩ := ih h
        exact ⟨by omega, h2⟩

theorem find_next_lt {b : HalfBook} {t r : Nat}
    (h : b.find_next_best_level t = some r) :
    sideLeB b.side r t = true ∧ r < b.orders.length := by
  unfold HalfBook.find_next_best_level at h
  cases hs : b.side with
  | Buy =>
    rw [hs] at h
    by_cases h0 : t = 0
    · rw [if_pos h0] at h; cases h
    · rw [if_neg h0] at h
      obtain ⟨h1, h2⟩ := findDown_lt h
      exact ⟨decide_eq_true (Nat.le_of_lt h1), h2⟩
  | Sell =>
    rw [hs] at h
    by_cases h0 : t = b.orders.length
    · rw [if_pos h0] at h; cases h
    · rw [if_neg h0] at h
      obtain ⟨h1, h2, _, _⟩ := findUp_some h
      exact ⟨decide_eq_true (Nat.le_of_lt h1), h2⟩

theorem sideLeB_trans {s : Side} {a b c : Nat} (h1 : sideLeB s a b = true)
    (h2 : sideLeB s b c = true) : sideLeB s a c = true := by
  cases s <;> simp only [sideLeB, decide_eq_true_eq] at h1 h2 ⊢ <;> omega

theorem matchInner_shape2 {b b' : HalfBook} {f tob : Nat} {size notional : Int}
    {r : Except String (Int × Int)}
    (h : HalfBook.matchInner b f tob size notional = (r, b')) :
    ∃ O A I fl, b' =
      { b with
        orders := O
        arena := A
        free_list := fl
        ids := I } ∧ O.length = b.orders.length ∧
      ∀ pr, pr ∈ I → pr ∈ b.ids := by
  obtain ⟨O, A, I, fl, hA, hlen, hsub⟩ := matchInner_shape f b tob size notional
  rw [h] at hA
  exact ⟨O, A, I, fl, hA, hlen, hsub⟩

theorem matchOuter_shape : ∀ (fuel : Nat) (b : HalfBook) (size notional : Int),
    ∃ O A I fl tp, (HalfBook.matchOuter b fuel size notional).2 =
      { b with
        orders := O
        top_of_book := tp
        arena := A
        free_list := fl
        ids := I } ∧ O.length = b.orders.length ∧
      (∀ pr, pr ∈ I → pr ∈ b.ids) ∧
      (tp = b.top_of_book ∨ tp = none ∨
        ∃ t r, b.top_of_book = some t ∧ tp = some r ∧
          sideLeB b.side r t = true ∧ r < b.orders.length) := by
  intro fuel
  induction fuel with
  | zero =>
    intro b size notional
    exact ⟨b.orders, b.arena, b.ids, b.free_list, b.top_of_book, rfl, rfl,
      fun pr h => h, Or.inl rfl⟩
  | succ f ih =>
    intro b size notional
    rw [HalfBook.matchOuter]
    by_cases hs : size > 0
    · rw [if_pos hs]
      cases ht : b.top_of_book with
      | none =>
        dsimp only
        refine ⟨b.orders, b.arena, b.ids, b.free_list, none, ?_, rfl,
          fun pr h => h, Or.inr (Or.inl rfl)⟩
        conv_rhs => rw [← ht]
      | some t =>
        dsimp only
        split
        · rename_i e b' heq
          obtain ⟨O, A, I, fl, hA, hlen, hsub⟩ := matchInner_shape2 heq
          refine ⟨O, A, I, fl, some t, ?_, hlen, hsub, Or.inl rfl⟩
          rw [hA, ht]
        · rename_i s' n' b' heq
          obtain ⟨O, A, I, fl, hA, hlen, hsub⟩ := matchInner_shape2 heq
          cases hl2 : b'.orders[t]? with
          | none =>
            refine ⟨O, A, I, fl, some t, ?_, hlen, hsub, Or.inl rfl⟩
            rw [hA, ht]
          | some lvl =>
            dsimp only
            by_cases hz : lvl.total_size = 0
            · rw [if_pos hz]
              obtain ⟨O2, A2, I2, F2, tp2, h2, hlen2, hsub2, hrel2⟩ :=
                ih { b' with top_of_book := b'.find_next_best_level t } s' n'
              refine ⟨O2, A2, I2, F2, tp2, ?_, ?_, ?_, ?_⟩
              · rw [h2, hA]
              · have h3 : O2.length = O.length := by rw [hlen2, hA]
                exact h3.trans hlen
              · intro pr hp
                have h4 := hsub2 pr hp
                rw [hA] at h4
                exact hsub pr h4
              · rcases hrel2 with h5 | h5 | ⟨t', r', h5, h6, h7, h8⟩
                · cases hfn : b'.find_next_best_level t with
                  | none =>
                    refine Or.inr (Or.inl ?_)
                    rw [h5]
                    exact hfn
                  | some r =>
                    obtain ⟨h9, h10⟩ := find_next_lt hfn
                    refine Or.inr (Or.inr ⟨t, r, rfl, ?_, ?_, ?_⟩)
                    · rw [h5]
                      exact hfn
                    · have h9' : sideLeB b.side r t = true := by
                        rw [hA] at h9
                        exact h9
                      exact h9'
                    · have h10' : r < O.length := by
                        rw [hA] at h10
                        exact h10
                      exact hlen ▸ h10'
                · exact Or.inr (Or.inl h5)
                · have hfn : b'.find_next_best_level t = some t' := h5
                  obtain ⟨h9, h10⟩ := find_next_lt hfn
                  refine Or.inr (Or.inr ⟨t, r', rfl, h6, ?_, ?_⟩)
                  · have h7' : sideLeB b.side r' t' = true := by
                      have hh := h7
                      rw [hA] at hh
                      exact hh
                    have h9' : sideLeB b.side t' t = true := by
                      have hh := h9
                      rw [hA] at hh
                      exact hh
                    exact sideLeB_trans h7' h9'
                  · have h8' : r' < O.length := by
                      have hh := h8
                      rw [hA] at hh
                      exact hh
                    exact hlen ▸ h8'
            · rw [if_neg hz]
              obtain ⟨O2, A2, I2, F2, tp2, h2, hlen2, hsub2, hrel2⟩ := ih b' s' n'
              refine ⟨O2, A2, I2, F2, tp2, ?_, ?_, ?_, ?_⟩
              · rw [h2, hA]
              · have h3 : O2.length = O.length := by rw [hlen2, hA]
                exact h3.trans hlen
              · intro pr hp
                have h4 := hsub2 pr hp
                rw [hA] at h4
                exact hsub pr h4
              · rcases hrel2 with h5 | h5 | ⟨t', r', h5, h6, h7, h8⟩
                · rw [hA] at h5
                  have h5' : tp2 = b.top_of_book := h5
                  exact Or.inl (h5'.trans ht)
                · exact Or.inr (Or.inl h5)
                · have h5' : b.top_of_book = some t' := by
                    rw [hA] at h5
                    exact h5
                  rw [ht] at h5'
                  injection h5' with h5''
                  refine Or.inr (Or.inr ⟨t, r', rfl, h6, ?_, ?_⟩)
                  · have h7' : sideLeB b.side r' t' = true := by
                      have hh := h7
                      rw [hA] at hh
                      exact hh
                    rw [← h5''] at h7'
                    exact h7'
                  · have h8' : r' < O.length := by
                      have hh := h8
                      rw [hA] at hh
                      exact hh
                    exact hlen ▸ h8'
    · rw [if_neg hs]
      exact ⟨b.orders, b.arena, b.ids, b.free_list, b.top_of_book, rfl, rfl,
        fun pr h => h, Or.inl rfl⟩

theorem insertFinish_shape (b : HalfBook) (id pi : Nat) (size : Int) (ai : Nat)
    (ot : Option Nat) :
    ∃ O A I tp, (HalfBook.insertFinish b id pi size ai ot).2 =
      { b with
        orders := O
        top_of_book := tp
        arena := A
        ids := I } ∧ O.length = b.orders.length ∧
      (tp = b.top_of_book ∨
        (tp = HalfBook.insertTob b.side b.top_of_book pi ∧ pi < b.orders.length)) := by
  unfold HalfBook.insertFinish
  cases hl : b.orders[pi]? with
  | none =>
    exact ⟨b.orders, b.arena, b.ids, b.top_of_book, rfl, rfl, Or.inl rfl⟩
  | some level =>
    dsimp only
    have hpi : pi < b.orders.length := by
      by_contra hh
      rw [List.getElem?_eq_none (by omega)] at hl
      cases hl
    cases ha : (b.arena)[ai]? with
    | none =>
      exact ⟨b.orders.set pi { level with tail := some ai }, b.arena, b.ids,
        b.top_of_book, rfl, List.length_set _ _ _, Or.inl rfl⟩
    | some o =>
      exact ⟨b.orders.set pi { level with tail := some ai },
        b.arena.set ai ⟨id, pi, size, ot, none⟩, idsStore b.ids id ai,
        HalfBook.insertTob b.side b.top_of_book pi, rfl, List.length_set _ _ _,
        Or.inr ⟨rfl, hpi⟩⟩

theorem insertAfter_shape (b1 : HalfBook) (id pi : Nat) (size : Int) (ai : Nat) :
    ∃ O A I tp, (HalfBook.insertAfter b1 id pi size ai).2 =
      { b1 with
        orders := O
        top_of_book := tp
        arena := A
        ids := I } ∧ O.length = b1.orders.length ∧
      (tp = b1.top_of_book ∨
        (tp = HalfBook.insertTob b1.side b1.top_of_book pi ∧ pi < b1.orders.length)) := by
  unfold HalfBook.insertAfter
  cases hl : b1.orders[pi]? with
  | none =>
    exact ⟨b1.orders, b1.arena, b1.ids, b1.top_of_book, rfl, rfl, Or.inl rfl⟩
  | some level =>
    dsimp only
    rw [apply_ite PriceLevel.tail]
    dsimp only
    rw [ite_self]
    generalize hlv : (if level.head = none then
        ({ level with total_size := level.total_size + size, head := some ai } :
          PriceLevel)
      else ({ level with total_size := level.total_size + size } : PriceLevel)) = lv2
    cases hot : level.tail with
    | some ti =>
      dsimp only
      cases ha : b1.arena[ti]? with
      | none =>
        exact ⟨b1.orders.set pi lv2, b1.arena, b1.ids, b1.top_of_book, rfl,
          List.length_set _ _ _, Or.inl rfl⟩
      | some po =>
        dsimp only
        obtain ⟨O, A, I, tp, hA, hlen, hrel⟩ := insertFinish_shape
          { b1 with
            orders := b1.orders.set pi lv2
            arena := b1.arena.set ti { po with next := some ai } } id pi size ai
          (some ti)
        refine ⟨O, A, I, tp, ?_, ?_, ?_⟩
        · rw [hA]
        · exact hlen.trans (List.length_set _ _ _)
        · rcases hrel with h | ⟨h1, h2⟩
          · exact Or.inl h
          · exact Or.inr ⟨h1, lt_of_lt_of_eq h2 (List.length_set _ _ _)⟩
    | none =>
      dsimp only
      obtain ⟨O, A, I, tp, hA, hlen, hrel⟩ := insertFinish_shape
        { b1 with orders := b1.orders.set pi lv2 } id pi size ai none
      refine ⟨O, A, I, tp, ?_, ?_, ?_⟩
      · rw [hA]
      · exact hlen.trans (List.length_set _ _ _)
      · rcases hrel with h | ⟨h1, h2⟩
        · exact Or.inl h
        · exact Or.inr ⟨h1, lt_of_lt_of_eq h2 (List.length_set _ _ _)⟩

theorem insert_shape (b0 : HalfBook) (id : Nat) (price size : Int) :
    ∃ O A I fl tp, (b0.insert id price size).2 =
      { b0 with
        orders := O
        top_of_book := tp
        arena := A
        free_list := fl
        ids := I } ∧ O.length = b0.orders.length ∧
      (tp = b0.top_of_book ∨
        (0 < price ∧
          tp = HalfBook.insertTob b0.side b0.top_of_book
            (b0.calculate_price_index price) ∧
          b0.calculate_price_index price < b0.orders.length)) := by
  unfold HalfBook.insert
  by_cases hc : price ≤ 0 ∨ size ≤ 0
  · rw [if_pos hc]
    exact ⟨b0.orders, b0.arena, b0.ids, b0.free_list, b0.top_of_book, rfl, rfl,
      Or.inl rfl⟩
  · rw [if_neg hc]
    have hp : 0 < price := by
      push_neg at hc
      exact hc.1
    cases hfl : b0.free_list with
    | cons ai rest =>
      dsimp only
      obtain ⟨O, A, I, tp, hA, hlen, hrel⟩ := insertAfter_shape
        { b0 with free_list := rest } id (b0.calculate_price_index price) size ai
      refine ⟨O, A, I, rest, tp, ?_, hlen, ?_⟩
      · rw [hA]
      · rcases hrel with h | ⟨h1, h2⟩
        · exact Or.inl h
        · exact Or.inr ⟨hp, h1, h2⟩
    | nil =>
      dsimp only
      obtain ⟨O, A, I, tp, hA, hlen, hrel⟩ := insertAfter_shape
        { b0 with
          arena := b0.arena ++ [Order.default]
          free_list := ([] : List Nat) } id
        (b0.calculate_price_index price) size b0.arena.length
      refine ⟨O, A, I, [], tp, ?_, hlen, ?_⟩
      · rw [hA]
      · rcases hrel with h | ⟨h1, h2⟩
        · exact Or.inl h
        · exact Or.inr ⟨hp, h1, h2⟩

/-! ## The no-crossed-book invariant -/

theorem match_size_shape (fuel : Nat) (b : HalfBook) (size : Int) :
    ∃ O A I fl tp, (HalfBook.match_size fuel b size).2 =
      { b with
        orders := O
        top_of_book := tp
        arena := A
        free_list := fl
        ids := I } ∧ O.length = b.orders.length ∧
      (∀ pr, pr ∈ I → pr ∈ b.ids) ∧
      (tp = b.top_of_book ∨ tp = none ∨
        ∃ t r, b.top_of_book = some t ∧ tp = some r ∧
          sideLeB b.side r t = true ∧ r < b.orders.length) := by
  unfold HalfBook.match_size
  by_cases hz : size = 0
  · rw [if_pos hz]
    exact ⟨b.orders, b.arena, b.ids, b.free_list, b.top_of_book, rfl, rfl,
      fun pr h => h, Or.inl rfl⟩
  · rw [if_neg hz]
    exact matchOuter_shape fuel b size 0

theorem handle_taker_snd (fuel : Nat) (ob : Orderbook) (side : Side) (size : Int) :
    (Orderbook.handle_taker fuel ob side size).2 =
      (match side with
      | Side.Sell => { ob with bids := (HalfBook.match_size fuel ob.bids size).2 }
      | Side.Buy => { ob with asks := (HalfBook.match_size fuel ob.asks size).2 }) := by
  unfold Orderbook.handle_taker
  cases side with
  | Buy =>
    rcases hms : HalfBook.match_size fuel ob.asks size with ⟨r, h⟩
    rcases r with e | n <;> rfl
  | Sell =>
    rcases hms : HalfBook.match_size fuel ob.bids size with ⟨r, h⟩
    rcases r with e | n <;> rfl

theorem handle_maker_snd (ob : Orderbook) (side : Side) (price size : Int) :
    (Orderbook.handle_maker ob side price size).2 =
      (match side with
      | Side.Sell =>
        { ob with
          current_id := ob.current_id + 1
          asks := (ob.asks.insert ob.current_id price size).2 }
      | Side.Buy =>
        { ob with
          current_id := ob.current_id + 1
          bids := (ob.bids.insert ob.current_id price size).2 }) := by
  unfold Orderbook.handle_maker Orderbook.get_next_id
  dsimp only
  cases side with
  | Buy =>
    rcases hms : ({ ob with current_id := ob.current_id + 1 } :
        Orderbook).bids.insert ob.current_id price size with ⟨r, h⟩
    rcases r with e | n <;> rfl
  | Sell =>
    rcases hms : ({ ob with current_id := ob.current_id + 1 } :
        Orderbook).asks.insert ob.current_id price size with ⟨r, h⟩
    rcases r with e | n <;> rfl

theorem accept_order_snd (fuel : Nat) (ob : Orderbook) (t : OrderTicket) :
    (Orderbook.accept_order fuel ob t).2 =
      (match t.order_type with
      | OrderType.Market => (Orderbook.handle_taker fuel ob t.side t.size).2
      | OrderType.Limit price =>
        if crossesSpec ob t.side price then
          (Orderbook.handle_taker fuel ob t.side t.size).2
        else (Orderbook.handle_maker ob t.side price t.size).2) := by
  unfold Orderbook.accept_order
  cases hot : t.order_type with
  | Market =>
    rcases hmt : Orderbook.handle_taker fuel ob t.side t.size with ⟨r, ob'⟩
    rcases r with e | n <;> rfl
  | Limit price =>
    dsimp only
    have hcb : (match t.side with
        | Side.Buy => ((ob.get_best_ask).map
            (fun o => decide (o.price ≤ price))).getD false
        | Side.Sell => ((ob.get_best_bid).map
            (fun o => decide (o.price ≥ price))).getD false) =
        crossesSpec ob t.side price := by
      unfold crossesSpec
      cases t.side with
      | Buy => cases ob.get_best_ask <;> rfl
      | Sell => cases ob.get_best_bid <;> rfl
    rw [hcb]
    by_cases hcr : crossesSpec ob t.side price = true
    · rw [if_pos hcr, if_pos hcr]
      rcases hmt : Orderbook.handle_taker fuel ob t.side t.size with ⟨r, ob'⟩
      rcases r with e | n <;> rfl
    · rw [if_neg hcr, if_neg hcr]
      rcases hmm : Orderbook.handle_maker ob t.side price t.size with ⟨r, ob'⟩
      rcases r with e | n <;> rfl

theorem cpi_eval {b : HalfBook} {price : Int} (hm : b.min_price = 1)
    (ht : b.tick_size = 1) (h0 : 0 < price) (hub : price < 2 ^ 63) :
    (b.calculate_price_index price : Int) = price - 1 := by
  unfold HalfBook.calculate_price_index
  rw [hm, ht, Int.tdiv_one]
  have h64 : (2 : Int) ^ 63 < USIZE := by norm_num [USIZE]
  have hme : (price - 1).emod USIZE = price - 1 :=
    Int.emod_eq_of_lt (by omega) (by omega)
  rw [hme, Int.toNat_of_nonneg (by omega)]

theorem get_top_eval {b : HalfBook} {t : Nat} (h : b.top_of_book = some t)
    (hlt : t < b.orders.length) :
    b.get_top_of_book = some
      { size := (b.orders.getD t PriceLevel.default).total_size
        price := b.get_price_from_index t } := by
  unfold HalfBook.get_top_of_book
  rw [h]
  dsimp only [Option.bind]
  rw [getD_of_getElem?_levels hlt]
  rfl

theorem get_top_some_inv {b : HalfBook} {ps : PriceSize}
    (h : b.get_top_of_book = some ps) :
    ∃ t, b.top_of_book = some t ∧ t < b.orders.length ∧
      ps.price = b.get_price_from_index t := by
  unfold HalfBook.get_top_of_book at h
  cases htp : b.top_of_book with
  | none => rw [htp] at h; cases h
  | some t =>
    rw [htp] at h
    dsimp only [Option.bind] at h
    cases hget : b.orders[t]? with
    | none => rw [hget] at h; cases h
    | some lvl =>
      rw [hget] at h
      injection h with h
      refine ⟨t, rfl, ?_, ?_⟩
      · by_contra hh
        rw [List.getElem?_eq_none (by omega)] at hget
        cases hget
      · rw [← h]

theorem handle_taker_obInv {ob : Orderbook} {fuel : Nat} {side : Side} {size : Int}
    (hinv : obInv ob) :
    obInv (Orderbook.handle_taker fuel ob side size).2 := by
  obtain ⟨hbs, has, hbm, ham, hbt, hat, hblen, halen, hbr, har, hx⟩ := hinv
  rw [handle_taker_snd]
  cases side with
  | Sell =>
    obtain ⟨O, A, I, fl, tp, hA, hlen, hsub, hrel⟩ :=
      match_size_shape fuel ob.bids size
    rw [hA]
    refine ⟨hbs, has, hbm, ham, hbt, hat, hlen.trans hblen, halen, ?_, har, ?_⟩
    · intro tb htb
      have htb' : tp = some tb := htb
      show tb < O.length
      rcases hrel with h | h | ⟨t, r, h1, h2, h3, h4⟩
      · rw [h] at htb'
        exact lt_of_lt_of_eq (hbr tb htb') hlen.symm
      · rw [h] at htb'
        cases htb'
      · rw [h2] at htb'
        injection htb' with htb'
        subst htb'
        exact lt_of_lt_of_eq h4 hlen.symm
    · intro tb ta htb hta
      have htb' : tp = some tb := htb
      have hta' : ob.asks.top_of_book = some ta := hta
      rcases hrel with h | h | ⟨t, r, h1, h2, h3, h4⟩
      · rw [h] at htb'
        exact hx tb ta htb' hta'
      · rw [h] at htb'
        cases htb'
      · rw [h2] at htb'
        injection htb' with htb'
        subst htb'
        rw [hbs] at h3
        simp only [sideLeB, decide_eq_true_eq] at h3
        have hta2 := hx t ta h1 hta'
        omega
  | Buy =>
    obtain ⟨O, A, I, fl, tp, hA, hlen, hsub, hrel⟩ :=
      match_size_shape fuel ob.asks size
    rw [hA]
    refine ⟨hbs, has, hbm, ham, hbt, hat, hblen, hlen.trans halen, hbr, ?_, ?_⟩
    · intro ta hta
      have hta' : tp = some ta := hta
      show ta < O.length
      rcases hrel with h | h | ⟨t, r, h1, h2, h3, h4⟩
      · rw [h] at hta'
        exact lt_of_lt_of_eq (har ta hta') hlen.symm
      · rw [h] at hta'
        cases hta'
      · rw [h2] at hta'
        injection hta' with hta'
        subst hta'
        exact lt_of_lt_of_eq h4 hlen.symm
    · intro tb ta htb hta
      have htb' : ob.bids.top_of_book = some tb := htb
      have hta' : tp = some ta := hta
      rcases hrel with h | h | ⟨t, r, h1, h2, h3, h4⟩
      · rw [h] at hta'
        exact hx tb ta htb' hta'
      · rw [h] at hta'
        cases hta'
      · rw [h2] at hta'
        injection hta' with hta'
        subst hta'
        rw [has] at h3
        simp only [sideLeB, decide_eq_true_eq] at h3
        have htb2 := hx tb t htb' h1
        omega

theorem handle_maker_obInv {ob : Orderbook} {side : Side} {price size : Int}
    (hinv : obInv ob)
    (hnc : crossesSpec ob side price = false)
    (hub : price < 2 ^ 63) :
    obInv (Orderbook.handle_maker ob side price size).2 := by
  obtain ⟨hbs, has, hbm, ham, hbt, hat, hblen, halen, hbr, har, hx⟩ := hinv
  rw [handle_maker_snd]
  cases side with
  | Buy =>
    obtain ⟨O, A, I, fl, tp, hA, hlen, hrel⟩ :=
      insert_shape ob.bids ob.current_id price size
    rw [hA]
    refine ⟨hbs, has, hbm, ham, hbt, hat, hlen.trans hblen, halen, ?_, har, ?_⟩
    · intro tb htb
      have htb' : tp = some tb := htb
      show tb < O.length
      rcases hrel with h | ⟨hp, h1, h2⟩
      · rw [h] at htb'
        exact lt_of_lt_of_eq (hbr tb htb') hlen.symm
      · rw [h1, hbs] at htb'
        cases htop : ob.bids.top_of_book with
        | none =>
          rw [htop] at htb'
          simp only [HalfBook.insertTob] at htb'
          injection htb' with he
          subst he
          exact lt_of_lt_of_eq h2 hlen.symm
        | some t0 =>
          rw [htop] at htb'
          simp only [HalfBook.insertTob] at htb'
          split_ifs at htb' with hc <;> injection htb' with he <;> subst he
          · exact lt_of_lt_of_eq h2 hlen.symm
          · exact lt_of_lt_of_eq (hbr t0 htop) hlen.symm
    · intro tb ta htb hta
      have htb' : tp = some tb := htb
      have hta' : ob.asks.top_of_book = some ta := hta
      rcases hrel with h | ⟨hp, h1, h2⟩
      · rw [h] at htb'
        exact hx tb ta htb' hta'
      · have htalt := har ta hta'
        have hnc2 : price < (ta : Int) + 1 := by
          unfold crossesSpec at hnc
          have hba2 : ob.get_best_ask = ob.asks.get_top_of_book := rfl
          rw [hba2, get_top_eval hta' htalt] at hnc
          dsimp only at hnc
          unfold HalfBook.get_price_from_index at hnc
          rw [ham] at hnc
          simp only [decide_eq_false_iff_not, not_le] at hnc
          exact hnc
        have hcpi := cpi_eval hbm hbt hp hub
        rw [h1, hbs] at htb'
        cases htop : ob.bids.top_of_book with
        | none =>
          rw [htop] at htb'
          simp only [HalfBook.insertTob] at htb'
          injection htb' with he
          subst he
          omega
        | some t0 =>
          rw [htop] at htb'
          simp only [HalfBook.insertTob] at htb'
          split_ifs at htb' with hc <;> injection htb' with he <;> subst he
          · omega
          · exact hx t0 ta htop hta'
  | Sell =>
    obtain ⟨O, A, I, fl, tp, hA, hlen, hrel⟩ :=
      insert_shape ob.asks ob.current_id price size
    rw [hA]
    refine ⟨hbs, has, hbm, ham, hbt, hat, hblen, hlen.trans halen, hbr, ?_, ?_⟩
    · intro ta hta
      have hta' : tp = some ta := hta
      show ta < O.length
      rcases hrel with h | ⟨hp, h1, h2⟩
      · rw [h] at hta'
        exact lt_of_lt_of_eq (har ta hta') hlen.symm
      · rw [h1, has] at hta'
        cases htop : ob.asks.top_of_book with
        | none =>
          rw [htop] at hta'
          simp only [HalfBook.insertTob] at hta'
          injection hta' with he
          subst he
          exact lt_of_lt_of_eq h2 hlen.symm
        | some t0 =>
          rw [htop] at hta'
          simp only [HalfBook.insertTob] at hta'
          split_ifs at hta' with hc <;> injection hta' with he <;> subst he
          · exact lt_of_lt_of_eq h2 hlen.symm
          · exact lt_of_lt_of_eq (har t0 htop) hlen.symm
    · intro tb ta htb hta
      have htb' : ob.bids.top_of_book = some tb := htb
      have hta' : tp = some ta := hta
      rcases hrel with h | ⟨hp, h1, h2⟩
      · rw [h] at hta'
        exact hx tb ta htb' hta'
      · have htblt := hbr tb htb'
        have hnc2 : (tb : Int) + 1 < price := by
          unfold crossesSpec at hnc
          have hbb2 : ob.get_best_bid = ob.bids.get_top_of_book := rfl
          rw [hbb2, get_top_eval htb' htblt] at hnc
          dsimp only at hnc
          unfold HalfBook.get_price_from_index at hnc
          rw [hbm] at hnc
          simp only [decide_eq_false_iff_not, not_le, ge_iff_le] at hnc
          exact hnc
        have hcpi := cpi_eval ham hat hp hub
        rw [h1, has] at hta'
        cases htop : ob.asks.top_of_book with
        | none =>
          rw [htop] at hta'
          simp only [HalfBook.insertTob] at hta'
          injection hta' with he
          subst he
          omega
        | some t0 =>
          rw [htop] at hta'
          simp only [HalfBook.insertTob] at hta'
          split_ifs at hta' with hc <;> injection hta' with he <;> subst he
          · omega
          · exact hx tb t0 htb' htop

theorem accept_order_obInv {ob : Orderbook} {fuel : Nat} {t : OrderTicket}
    (hinv : obInv ob) (hi : ticketI64 t = true) :
    obInv (Orderbook.accept_order fuel ob t).2 := by
  rw [accept_order_snd]
  cases hot : t.order_type with
  | Market => exact handle_taker_obInv hinv
  | Limit price =>
    dsimp only
    by_cases hcr : crossesSpec ob t.side price = true
    · rw [if_pos hcr]
      exact handle_taker_obInv hinv
    · rw [if_neg hcr]
      have hub : price < 2 ^ 63 := by
        unfold ticketI64 at hi
        rw [hot] at hi
        simp only [Bool.and_eq_true, decide_eq_true_eq] at hi
        exact hi.2
      exact handle_maker_obInv hinv (Bool.eq_false_iff.mpr hcr) hub

theorem obInv_new : obInv Orderbook.new := by
  have hlen : (HalfBook.new Side.Buy MAX_PRICE MIN_PRICE TICK_SIZE).orders.length
      = 999999 := by
    unfold HalfBook.new
    dsimp only
    rw [List.length_replicate]
    decide
  have hlen2 : (HalfBook.new Side.Sell MAX_PRICE MIN_PRICE TICK_SIZE).orders.length
      = 999999 := by
    unfold HalfBook.new
    dsimp only
    rw [List.length_replicate]
    decide
  refine ⟨rfl, rfl, rfl, rfl, rfl, rfl, hlen, hlen2, ?_, ?_, ?_⟩
  · intro tb h
    exact Option.noConfusion h
  · intro ta h
    exact Option.noConfusion h
  · intro tb ta h _
    exact Option.noConfusion h

theorem runTickets_obInv : ∀ (l : List (Nat × OrderTicket)),
    l.all (fun pr => ticketI64 pr.2) = true → ∀ ob, obInv ob →
    obInv (l.foldl (fun ob pr => (Orderbook.accept_order pr.1 ob pr.2).2) ob) := by
  intro l
  induction l with
  | nil =>
    intro _ ob h
    exact h
  | cons pr rest ih =>
    intro hall ob h
    simp only [List.all_cons, Bool.and_eq_true] at hall
    rw [List.foldl_cons]
    exact ih hall.2 _ (accept_order_obInv h hall.1)

theorem notCrossed_of_obInv {ob : Orderbook} (h : obInv ob) :
    notCrossedB ob = true := by
  obtain ⟨hbs, has, hbm, ham, hbt, hat, hblen, halen, hbr, har, hx⟩ := h
  unfold notCrossedB
  cases hb : ob.get_best_bid with
  | none => cases ha : ob.get_best_ask <;> rfl
  | some pb =>
    cases ha : ob.get_best_ask with
    | none => rfl
    | some pa =>
      obtain ⟨tb, htb, htbl, hpb⟩ := get_top_some_inv hb
      obtain ⟨ta, hta, htal, hpa⟩ := get_top_some_inv ha
      have hlt := hx tb ta htb hta
      dsimp only
      rw [hpb, hpa]
      unfold HalfBook.get_price_from_index
      rw [hbm, ham]
      exact decide_eq_true (by omega)

/-- C2: a limit ticket is classified as crossing exactly by the spec's
predicate (Buy with best ask ≤ P, or Sell with best bid ≥ P, best
present); a crossing ticket is routed entirely to the opposite half's
`match_size` with the requested size and answered with a `Market`
response, leaving its own side, the id map, and the id counter
untouched; a non-crossing ticket takes the fresh id `current_id`, bumps
the counter, is inserted in its own side at its price, and is answered
`Limit {id}`. -/
theorem accept_order_limit_eq (fuel : Nat) (ob : Orderbook) (side : Side)
    (price size : Int) :
    Orderbook.accept_order fuel ob ⟨OrderType.Limit price, size, side⟩ =
      if crossesSpec ob side price then
        (match side with
         | Side.Buy =>
           match HalfBook.match_size fuel ob.asks size with
           | (Except.error e, h) => (Except.error e, { ob with asks := h })
           | (Except.ok notional, h) =>
             (Except.ok (OrderResponse.Market { notional := notional, size := size }),
              { ob with asks := h })
         | Side.Sell =>
           match HalfBook.match_size fuel ob.bids size with
           | (Except.error e, h) => (Except.error e, { ob with bids := h })
           | (Except.ok notional, h) =>
             (Except.ok (OrderResponse.Market { notional := notional, size := size }),
              { ob with bids := h }))
      else
        (match side with
         | Side.Buy =>
           match ob.bids.insert ob.current_id price size with
           | (Except.error e, h) =>
             (Except.error e, { ob with current_id := ob.current_id + 1, bids := h })
           | (Except.ok _, h) =>
             (Except.ok (OrderResponse.Limit { id := ob.current_id }),
              { ob with current_id := ob.current_id + 1, bids := h })
         | Side.Sell =>
           match ob.asks.insert ob.current_id price size with
           | (Except.error e, h) =>
             (Except.error e, { ob with current_id := ob.current_id + 1, asks := h })
           | (Except.ok _, h) =>
             (Except.ok (OrderResponse.Limit { id := ob.current_id }),
              { ob with current_id := ob.current_id + 1, asks := h })) := by
  unfold Orderbook.accept_order
  dsimp only
  have hcb : (match side with
      | Side.Buy => ((ob.get_best_ask).map
          (fun o => decide (o.price ≤ price))).getD false
      | Side.Sell => ((ob.get_best_bid).map
          (fun o => decide (o.price ≥ price))).getD false) =
      crossesSpec ob side price := by
    unfold crossesSpec
    cases side with
    | Buy => cases ob.get_best_ask <;> rfl
    | Sell => cases ob.get_best_bid <;> rfl
  rw [hcb]
  by_cases hcr : crossesSpec ob side price = true
  · rw [hcr, if_pos rfl, if_pos rfl]
    unfold Orderbook.handle_taker
    cases side with
    | Buy =>
      rcases hms : HalfBook.match_size fuel ob.asks size with ⟨r, h⟩
      rcases r with e | n <;> rfl
    | Sell =>
      rcases hms : HalfBook.match_size fuel ob.bids size with ⟨r, h⟩
      rcases r with e | n <;> rfl
  · have hf : crossesSpec ob side price = false := Bool.eq_false_iff.mpr hcr
    rw [hf, if_neg (by simp), if_neg (by simp)]
    unfold Orderbook.handle_maker Orderbook.get_next_id
    dsimp only
    cases side with
    | Buy =>
      rcases hms : ({ ob with current_id := ob.current_id + 1 } :
          Orderbook).bids.insert ob.current_id price size with ⟨r, h⟩
      rcases r with e | u <;> rfl
    | Sell =>
      rcases hms : ({ ob with current_id := ob.current_id + 1 } :
          Orderbook).asks.insert ob.current_id price size with ⟨r, h⟩
      rcases r with e | u <;> rfl

/-! ## FIFO priority support -/

theorem idsLookup_of_mem {l : List (Nat × Nat)} {k v : Nat}
    (hnd : (l.map Prod.fst).Nodup) (h : (k, v) ∈ l) : idsLookup l k = some v := by
  induction l with
  | nil => cases h
  | cons x xs ih =>
    rw [idsLookup_cons]
    rcases List.mem_cons.mp h with heq | hmem
    · subst heq
      rw [if_pos rfl]
    · by_cases hx : x.1 = k
      · exfalso
        have : k ∈ xs.map Prod.fst := by
          exact List.mem_map.mpr ⟨(k, v), hmem, rfl⟩
        rw [List.map_cons] at hnd
        rw [hx] at hnd
        exact (List.nodup_cons.mp hnd).1 this
      · rw [if_neg hx]
        exact ih (List.nodup_cons.mp (by rw [List.map_cons] at hnd; exact hnd)).2 hmem

theorem sublist_pair_drop {l : List Nat} {u v : Nat} {k : Nat}
    (h : List.Sublist [u, v] l) (hnd : l.Nodup) (hu : u ∈ l.drop k) :
    List.Sublist [u, v] (l.drop k) := by
  have hdecomp : l.take k ++ l.drop k = l := List.take_append_drop k l
  rw [← hdecomp] at h hnd
  have hdisj := (List.nodup_append.mp hnd).2.2
  rcases List.sublist_append_iff.mp h with ⟨p, q, hpq, hp, hq⟩
  rcases p with _ | ⟨a, _ | ⟨c, rest⟩⟩
  · rw [List.nil_append] at hpq
    rw [← hpq] at hq
    exact hq
  · injection hpq with h1 h2
    subst h1
    exfalso
    exact hdisj (hp.subset (List.mem_cons_self _ _)) hu
  · injection hpq with h1 h2
    subst h1
    exfalso
    exact hdisj (hp.subset (List.mem_cons_self _ _)) hu

theorem sublist_pair_erase {l1 l2 : List Nat} {x u v : Nat}
    (hnd : (l1 ++ x :: l2).Nodup) (hu : u ≠ x) (hv : v ≠ x)
    (h : List.Sublist [u, v] (l1 ++ x :: l2)) :
    List.Sublist [u, v] (l1 ++ l2) := by
  rcases nodup_middle_facts hnd with ⟨hnd1, hnd2, hx1, hx2, hdis12⟩
  have hf := h.filter (fun a => !(a == x))
  have h1 : List.filter (fun a => !(a == x)) [u, v] = [u, v] := by
    simp [hu, hv]
  have h2 : List.filter (fun a => !(a == x)) (l1 ++ x :: l2) = l1 ++ l2 := by
    rw [List.filter_append, List.filter_cons]
    simp only [beq_self_eq_true, Bool.not_true]
    rw [if_neg (by simp)]
    rw [List.filter_eq_self.mpr, List.filter_eq_self.mpr]
    · intro a ha
      simp only [Bool.not_eq_true', beq_eq_false_iff_ne, ne_eq]
      intro hax
      exact hx2 (hax ▸ ha)
    · intro a ha
      simp only [Bool.not_eq_true', beq_eq_false_iff_ne, ne_eq]
      intro hax
      exact hx1 (hax ▸ ha)
  rw [h1, h2] at hf
  exact hf

theorem specConsume_rem : ∀ (L : List BookEntry) (s : Int),
    (specConsume L s).2.2 = [] ∨
    ∃ L1 e0 e0' L2, L = L1 ++ e0 :: L2 ∧
      (specConsume L s).2.2 = e0' :: L2 ∧
      e0'.slot = e0.slot ∧ e0'.oid = e0.oid ∧ e0'.price = e0.price := by
  intro L
  induction L with
  | nil =>
    intro s
    left
    rfl
  | cons e rest ih =>
    intro s
    rw [specConsume]
    by_cases hs : s ≤ 0
    · rw [if_pos hs]
      right
      exact ⟨[], e, e, rest, rfl, rfl, rfl, rfl, rfl⟩
    · rw [if_neg hs]
      by_cases hfull : e.esize ≤ s
      · rw [if_pos hfull]
        dsimp only
        rcases ih (s - min s e.esize) with h | ⟨L1, e0, e0', L2, hL, hrem, h1, h2, h3⟩
        · left
          exact h
        · right
          exact ⟨e :: L1, e0, e0', L2, by rw [hL, List.cons_append], hrem, h1, h2, h3⟩
      · rw [if_neg hfull]
        right
        exact ⟨[], e, { e with esize := e.esize - min s e.esize }, rest, rfl, rfl,
          rfl, rfl, rfl⟩

theorem totalCount_le_arena {b : HalfBook} {Q : List (List Nat)}
    (hwf : WFcore b Q) : totalCount Q ≤ b.arena.length := by
  have h1 : totalCount Q = Q.flatten.length := (List.length_flatten Q).symm
  have h2 : List.Subperm Q.flatten (List.range b.arena.length) :=
    List.Nodup.subperm (WFC_flat_nodup hwf)
      (fun a ha => List.mem_range.mpr (flatten_mem_ltC hwf ha))
  have h3 := h2.length_le
  rw [List.length_range] at h3
  omega

theorem match_size_top_none {b : HalfBook} {size : Int} {fuel : Nat}
    (htop : b.top_of_book = none) (hf : 1 ≤ fuel) :
    (HalfBook.match_size fuel b size).2 = b := by
  unfold HalfBook.match_size
  by_cases hz : size = 0
  · rw [if_pos hz]
  · rw [if_neg hz]
    rcases fuel with _ | f
    · omega
    · rw [HalfBook.matchOuter]
      by_cases hs : size > 0
      · rw [if_pos hs, htop]
      · rw [if_neg hs]

theorem match_size_zero (fuel : Nat) (b : HalfBook) :
    HalfBook.match_size fuel b 0 = (Except.error invalidOrderMsg, b) := by
  unfold HalfBook.match_size
  rw [if_pos rfl]

theorem insert_invalid {b : HalfBook} {id : Nat} {price size : Int}
    (h : price ≤ 0 ∨ size ≤ 0) :
    b.insert id price size = (Except.error invalidOrderMsg, b) := by
  unfold HalfBook.insert
  rw [if_pos h]

theorem remove_unknown {b : HalfBook} {id : Nat}
    (h : idsLookup b.ids id = none) :
    b.remove id = (Except.error idNotInIdsMsg, b) := by
  unfold HalfBook.remove
  rw [h]

theorem modify_unknown {b : HalfBook} {id : Nat} {price size : Int}
    (h : idsLookup b.ids id = none) :
    b.modify id price size = (Except.error idNotInIdsMsg, b) := by
  unfold HalfBook.modify
  rw [h]

theorem mem_level_price_index {b : HalfBook} {Q : List (List Nat)} {p a : Nat}
    (hwf : WFcore b Q) (hp : p < b.orders.length) (ha : a ∈ Q.getD p []) :
    (b.arena.getD a Order.default).price_index = p := by
  have halt : a < b.arena.length :=
    flatten_mem_ltC hwf (mem_level_mem_flattenC hwf hp ha)
  have hga : b.arena[a]? = some (b.arena.getD a Order.default) :=
    getD_of_getElem?_arena halt
  have hseg := levelRep_lseg (WFC_level hwf p hp)
  rcases lseg_mem hseg a ha with ⟨o0, hg0, hp0⟩
  rw [hga] at hg0
  injection hg0 with hg0
  rw [hg0]
  exact hp0

theorem mem_flatBook {b : HalfBook} {Q : List (List Nat)} {p a : Nat}
    (hp : p < b.orders.length) (ha : a ∈ Q.getD p []) :
    entryOf b p a ∈ flatBook b Q := by
  unfold flatBook
  apply List.mem_flatMap.mpr
  refine ⟨p, ?_, List.mem_map_of_mem _ ha⟩
  unfold bestIdx
  cases b.side
  · simp only [List.mem_reverse, List.mem_range]
    exact hp
  · simp only [List.mem_range]
    exact hp

theorem mem_flatBook_inv {b : HalfBook} {Q : List (List Nat)} {e : BookEntry}
    (he : e ∈ flatBook b Q) :
    ∃ p a, p < b.orders.length ∧ a ∈ Q.getD p [] ∧ e = entryOf b p a := by
  unfold flatBook at he
  rcases List.mem_flatMap.mp he with ⟨p, hpmem, hmem⟩
  rcases List.mem_map.mp hmem with ⟨a, ha, hae⟩
  exact ⟨p, a, mem_bestIdx_lt hpmem, ha, hae.symm⟩

theorem nodup_flatMap_of {ps : List Nat} {f : Nat → List Nat} (hps : ps.Nodup)
    (hf : ∀ p ∈ ps, (f p).Nodup)
    (hdisj : ∀ p ∈ ps, ∀ q ∈ ps, p ≠ q → ∀ a ∈ f p, a ∉ f q) :
    (ps.flatMap f).Nodup := by
  induction ps with
  | nil => exact List.nodup_nil
  | cons p ps ih =>
    rw [List.flatMap_cons]
    rcases List.nodup_cons.mp hps with ⟨hpn, hpsn⟩
    refine List.nodup_append.mpr ⟨hf p (List.mem_cons_self _ _), ?_, ?_⟩
    · exact ih hpsn (fun q hq => hf q (List.mem_cons_of_mem _ hq))
        (fun q hq r hr hqr => hdisj q (List.mem_cons_of_mem _ hq) r
          (List.mem_cons_of_mem _ hr) hqr)
    · intro a ha hmem
      rcases List.mem_flatMap.mp hmem with ⟨q, hq, haq⟩
      have hpq : p ≠ q := fun hh => hpn (hh ▸ hq)
      exact hdisj p (List.mem_cons_self _ _) q (List.mem_cons_of_mem _ hq) hpq a
        ha haq

theorem bestIdx_nodup (s : Side) (len : Nat) : (bestIdx s len).Nodup := by
  unfold bestIdx
  cases s
  · exact List.nodup_reverse.mpr (List.nodup_range len)
  · exact List.nodup_range len

theorem flatBook_slots {b : HalfBook} {Q : List (List Nat)} :
    (flatBook b Q).map BookEntry.slot =
      (bestIdx b.side b.orders.length).flatMap (fun p => Q.getD p []) := by
  unfold flatBook
  rw [List.map_flatMap]
  apply List.flatMap_congr
  intro p _
  rw [List.map_map]
  exact List.map_id _

theorem flatBook_slots_nodup {b : HalfBook} {Q : List (List Nat)}
    (hwf : WFcore b Q) : ((flatBook b Q).map BookEntry.slot).Nodup := by
  rw [flatBook_slots]
  refine nodup_flatMap_of (bestIdx_nodup _ _) ?_ ?_
  · intro p hp
    exact level_nodupC hwf (mem_bestIdx_lt hp)
  · intro p hp q hq hpq a ha haq
    exact levels_disjointC hwf (mem_bestIdx_lt hp) (mem_bestIdx_lt hq) hpq ha haq

theorem seg_sublist_flatBook {b : HalfBook} {Q : List (List Nat)} {P : Nat}
    (hP : P < b.orders.length) {s : List BookEntry}
    (h : List.Sublist s ((Q.getD P []).map (entryOf b P))) :
    List.Sublist s (flatBook b Q) := by
  have hdec := @bestIdx_decomp b.side _ _ hP
  unfold flatBook
  rw [hdec, List.flatMap_append, List.flatMap_cons]
  exact List.sublist_append_of_sublist_right
    ((h.trans (List.sublist_append_left _ _)))

theorem pair_sublist_pos {L1 L2 : List BookEntry} {u v : BookEntry}
    (h : List.Sublist [u, v] (L1 ++ v :: L2))
    (hnd : ((L1 ++ v :: L2).map BookEntry.slot).Nodup)
    (huv : u.slot ≠ v.slot) : u ∈ L1 := by
  rcases List.sublist_append_iff.mp h with ⟨p, q, hpq, hp, hq⟩
  rcases p with _ | ⟨a, p2⟩
  · rw [List.nil_append] at hpq
    subst hpq
    rcases List.sublist_cons_iff.mp hq with h2 | ⟨l', hl', h2⟩
    · exfalso
      have hv : v ∈ L2 := h2.subset (by simp)
      have hvs : v.slot ∈ L2.map BookEntry.slot := List.mem_map_of_mem _ hv
      rw [List.map_append, List.map_cons] at hnd
      have hnd2 := (List.nodup_append.mp hnd).2.1
      exact (List.nodup_cons.mp hnd2).1 hvs
    · exfalso
      injection hl' with h1 _
      exact huv (by rw [h1])
  · injection hpq with h1 h2
    subst h1
    exact hp.subset (List.mem_cons_self _ _)

theorem TobSpec_congr_zero {b b' : HalfBook}
    (h : TobSpec b) (hside : b'.side = b.side)
    (htop : b'.top_of_book = b.top_of_book)
    (hlen : b'.orders.length = b.orders.length)
    (hz : ∀ r, r < b.orders.length →
      ((b'.orders.getD r PriceLevel.default).total_size = 0 ↔
        (b.orders.getD r PriceLevel.default).total_size = 0)) :
    TobSpec b' := by
  unfold TobSpec at h ⊢
  rw [htop, hside, hlen]
  cases htb : b.top_of_book with
  | some t =>
    rw [htb] at h
    rcases h with ⟨h1, h2, h3⟩
    refine ⟨h1, fun hh => h2 ((hz t h1).mp hh), ?_⟩
    intro p hp hne
    exact h3 p hp (fun ho => hne ((hz p hp).mpr ho))
  | none =>
    rw [htb] at h
    intro p hp
    exact (hz p hp).mpr (h p hp)

theorem modify_same {b : HalfBook} {Q : List (List Nat)} {id x : Nat}
    {price size : Int}
    (hwf : WF b Q) (hloc : idsLookup b.ids id = some x)
    (hpi : b.calculate_price_index price =
      (b.arena.getD x Order.default).price_index)
    (hs : 0 < size) :
    (b.modify id price size).1 = Except.ok () ∧
    WF (b.modify id price size).2 Q ∧
    (b.modify id price size).2 = { b with
      orders := b.orders.set (b.arena.getD x Order.default).price_index
        { b.orders.getD (b.arena.getD x Order.default).price_index
            PriceLevel.default with
          total_size := (b.orders.getD (b.arena.getD x Order.default).price_index
              PriceLevel.default).total_size -
            (b.arena.getD x Order.default).size + size }
      arena := b.arena.set x { b.arena.getD x Order.default with size := size } } := by
  have hpr : (id, x) ∈ b.ids := idsLookup_mem hloc
  have hxQ : x ∈ Q.flatten := (WF_sound hwf _ hpr).1
  have hxlt : x < b.arena.length := flatten_mem_lt hwf hxQ
  have hgx : b.arena[x]? = some (b.arena.getD x Order.default) :=
    getD_of_getElem?_arena hxlt
  rcases mem_flatten_iff.mp hxQ with ⟨p, hpQ, hxp⟩
  have hp : p < b.orders.length := by rw [← WF_qlen hwf]; exact hpQ
  have hpieq : (b.arena.getD x Order.default).price_index = p :=
    mem_level_price_index (WF_core hwf) hp hxp
  have hgl : b.orders[p]? = some (b.orders.getD p PriceLevel.default) :=
    getD_of_getElem?_levels hp
  have heq : b.modify id price size = (Except.ok (), { b with
      orders := b.orders.set (b.arena.getD x Order.default).price_index
        { b.orders.getD (b.arena.getD x Order.default).price_index
            PriceLevel.default with
          total_size := (b.orders.getD (b.arena.getD x Order.default).price_index
              PriceLevel.default).total_size -
            (b.arena.getD x Order.default).size + size }
      arena := b.arena.set x { b.arena.getD x Order.default with size := size } }) := by
    unfold HalfBook.modify
    rw [hloc]
    dsimp only
    rw [hgx]
    dsimp only
    rw [if_neg (by rw [hpi]; exact fun hh => hh rfl)]
    rw [hpieq, hgl]
  have hlr := WF_level hwf p hp
  rcases hlr with ⟨hch, htail, htotal, hpos⟩
  have hwfc' := WFcore_resize (WF_core hwf) hp hxp hs
  have htot_old_pos : 0 < (b.orders.getD p PriceLevel.default).total_size := by
    rw [htotal]
    exact sumSizes_pos (fun hh => by rw [hh] at hxp; cases hxp) hpos
  refine ⟨by rw [heq], ⟨?_, ?_⟩, by rw [heq]⟩
  · rw [heq]
    rw [hpieq]
    exact hwfc'
  · rw [heq, hpieq]
    refine TobSpec_congr_zero (WF_tob hwf) rfl rfl (by rw [List.length_set]) ?_
    intro r hr
    by_cases hrp : r = p
    · subst hrp
      rw [getD_set_self' hr]
      constructor
      · intro hh
        exfalso
        have hq' : Q.getD r [] = Q.getD r [] := rfl
        rcases List.append_of_mem hxp with ⟨u1, u2, hu⟩
        have hnd : (u1 ++ x :: u2).Nodup := by
          rw [← hu]
          exact level_nodup hwf hr
        rcases nodup_middle_facts hnd with ⟨_, _, hxu1, hxu2, _⟩
        have hpos' : ∀ a ∈ Q.getD r [],
            0 < ((b.arena.set x { b.arena.getD x Order.default with
              size := size }).getD a Order.default).size := by
          intro a ha
          by_cases hax : a = x
          · subst hax
            rw [getD_set_self hxlt]
            exact hs
          · rw [getD_set_outside (fun hh2 => hax hh2.symm)]
            exact hpos a ha
        have hsum : 0 < sumSizes (b.arena.set x { b.arena.getD x Order.default with
            size := size }) (Q.getD r []) :=
          sumSizes_pos (fun hh2 => by rw [hh2] at hxp; cases hxp) hpos'
        rw [htotal, hu] at hh
        rw [hu] at hsum
        simp only [sumSizes_append, sumSizes_cons, sumSizes_set_outside hxu1,
          sumSizes_set_outside hxu2, getD_set_self hxlt] at hh hsum
        omega
      · intro hh
        omega
    · rw [getD_set_ne' (fun hh => hrp hh.symm)]

theorem flatBook_slot_unique {b : HalfBook} {Q : List (List Nat)}
    (hwf : WFcore b Q) {e : BookEntry} {P a : Nat}
    (he : e ∈ flatBook b Q) (hs : e.slot = a) (hP : P < b.orders.length)
    (ha : a ∈ Q.getD P []) : e = entryOf b P a := by
  rcases mem_flatBook_inv he with ⟨p1, a1, hp1, ha1, hea⟩
  have ha1a : a1 = a := by
    rw [hea] at hs
    exact hs
  subst ha1a
  have hp1P : p1 = P := by
    by_contra hne
    exact levels_disjointC hwf hp1 hP hne ha1 ha
  subst hp1P
  exact hea

theorem slot_once {L1 L2 : List BookEntry} {e0 u : BookEntry}
    (hnd : ((L1 ++ e0 :: L2).map BookEntry.slot).Nodup)
    (h1 : u ∈ L1) (h2 : u ∈ L2) : False := by
  rw [List.map_append, List.map_cons] at hnd
  have hdisj := (List.nodup_append.mp hnd).2.2
  exact hdisj (List.mem_map_of_mem _ h1)
    (List.mem_cons_of_mem _ (List.mem_map_of_mem _ h2))

theorem fifoInv_matchSize {idA idB : Nat} {szB : Int} {b : HalfBook} {size : Int}
    (hinv : fifoInv idA idB szB b) :
    fifoInv idA idB szB (HalfBook.match_size b.autoFuel b size).2 := by
  obtain ⟨Q, hwf, hAB⟩ := hinv
  by_cases hz : size = 0
  · have h2 : (HalfBook.match_size b.autoFuel b size).2 = b := by
      rw [hz, match_size_zero]
    rw [h2]
    exact ⟨Q, hwf, hAB⟩
  · cases htop : b.top_of_book with
    | none =>
      have h2 : (HalfBook.match_size b.autoFuel b size).2 = b :=
        match_size_top_none htop (by unfold HalfBook.autoFuel; omega)
      rw [h2]
      exact ⟨Q, hwf, hAB⟩
    | some t =>
      have htb := WF_tob hwf
      unfold TobSpec at htb
      rw [htop] at htb
      have htlt : t < b.orders.length := htb.1
      have hfuel : totalCount Q + 3 ≤ b.autoFuel := by
        have h1 := totalCount_le_arena (WF_core hwf)
        unfold HalfBook.autoFuel
        omega
      obtain ⟨b', Q', hrun, hwf', hflat, hmin, hmax, htick, hside, holen, halen,
        hqlen, hdrop, hfree⟩ := match_size_sim hwf hz hfuel
      have happ : (HalfBook.match_size b.autoFuel b size).2 = b' := by
        rw [hrun]
      rw [happ]
      refine ⟨Q', hwf', ?_⟩
      intro xa hxa
      obtain ⟨O, A, I, fl, tp, hshape, hOlen, hsubI, hrel⟩ :=
        match_size_shape b.autoFuel b size
      have hb'rec : b' = { b with
          orders := O
          top_of_book := tp
          arena := A
          free_list := fl
          ids := I } := by
        rw [← hshape, hrun]
      have hxaI : (idA, xa) ∈ I := by
        have hm := idsLookup_mem hxa
        rw [hb'rec] at hm
        exact hm
      have hxa_old : idsLookup b.ids idA = some xa :=
        idsLookup_of_mem (WF_keys_nodup hwf) (hsubI _ hxaI)
      obtain ⟨xb, P, hxb, hszb, hP, hsub⟩ := hAB xa hxa_old
      have hxaP : xa ∈ Q.getD P [] := hsub.subset (List.mem_cons_self _ _)
      have hxbP : xb ∈ Q.getD P [] := hsub.subset (by simp)
      have hnd_pair : ([xa, xb] : List Nat).Nodup :=
        List.Nodup.sublist hsub (level_nodup hwf hP)
      have hxab : xa ≠ xb := by
        rw [List.nodup_cons] at hnd_pair
        exact fun hh => hnd_pair.1 (hh ▸ List.mem_cons_self _ _)
      have hmemA' : (idA, xa) ∈ b'.ids := idsLookup_mem hxa
      have hxaF' : xa ∈ Q'.flatten := (WF_sound hwf' _ hmemA').1
      rcases mem_flatten_iff.mp hxaF' with ⟨p', hp'Q, hxap'⟩
      have hp'lt : p' < b'.orders.length := by
        rw [← WF_qlen hwf']
        exact hp'Q
      obtain ⟨kP, hkP⟩ := hdrop p'
      have hxa_in_old : xa ∈ Q.getD p' [] := by
        have hh := hxap'
        rw [hkP] at hh
        exact (List.drop_sublist _ _).subset hh
      have hp'P : p' = P := by
        by_contra hne
        exact levels_disjointC (WF_core hwf)
          (by rw [← holen]; exact hp'lt) hP hne hxa_in_old hxaP
      rw [hp'P] at hxap' hkP hp'lt
      have hsubQ' : List.Sublist [xa, xb] (Q'.getD P []) := by
        rw [hkP]
        exact sublist_pair_drop hsub (level_nodup hwf hP)
          (by rw [← hkP]; exact hxap')
      have hxbQ' : xb ∈ Q'.getD P [] := hsubQ'.subset (by simp)
      have hebP : entryOf b' P xb ∈ flatBook b' Q' := mem_flatBook hp'lt hxbQ'
      have heaP : entryOf b' P xa ∈ flatBook b' Q' :=
        mem_flatBook hp'lt (hsubQ'.subset (List.mem_cons_self _ _))
      rcases specConsume_rem (flatBook b Q) size with hnil |
        ⟨L1, e0, e0', L2, hLdec, hremEq, hslot, hoid, hprice⟩
      · rw [hflat, hnil] at hebP
        cases hebP
      · rw [hflat, hremEq] at hebP heaP
        have hxbE_old : entryOf b P xb ∈ flatBook b Q := mem_flatBook hP hxbP
        have hxaE_old : entryOf b P xa ∈ flatBook b Q := mem_flatBook hP hxaP
        have hslots_nd := flatBook_slots_nodup (WF_core hwf)
        rcases List.mem_cons.mp hebP with hhead | htail
        · exfalso
          have hslot_e0 : e0.slot = xb := by
            rw [← hslot, ← hhead]
            rfl
          have he0_eq : e0 = entryOf b P xb :=
            flatBook_slot_unique (WF_core hwf)
              (by rw [hLdec]; exact List.mem_append_right _ (List.mem_cons_self _ _))
              hslot_e0 hP hxbP
          rcases List.mem_cons.mp heaP with hh2 | hh3
          · have : xa = xb := by
              have hs1 : (entryOf b' P xa).slot = e0'.slot := by rw [hh2]
              rw [hslot, hslot_e0] at hs1
              exact hs1
            exact hxab this
          · have hea_in_L : entryOf b' P xa ∈ flatBook b Q := by
              rw [hLdec]
              exact List.mem_append_right _ (List.mem_cons_of_mem _ hh3)
            have hea_eq : entryOf b' P xa = entryOf b P xa :=
              flatBook_slot_unique (WF_core hwf) hea_in_L rfl hP hxaP
            rw [hea_eq] at hh3
            have hpair_L : List.Sublist [entryOf b P xa, entryOf b P xb]
                (flatBook b Q) :=
              seg_sublist_flatBook hP (hsub.map (entryOf b P))
            rw [hLdec, ← he0_eq] at hpair_L
            have hxa_in_L1 : entryOf b P xa ∈ L1 := by
              refine pair_sublist_pos hpair_L ?_ ?_
              · rw [← hLdec]
                exact hslots_nd
              · show (entryOf b P xa).slot ≠ e0.slot
                rw [hslot_e0]
                exact hxab
            rw [hLdec] at hslots_nd
            exact slot_once hslots_nd hxa_in_L1 hh3
        · have heb_in_L : entryOf b' P xb ∈ flatBook b Q := by
            rw [hLdec]
            exact List.mem_append_right _ (List.mem_cons_of_mem _ htail)
          have heb_eq : entryOf b' P xb = entryOf b P xb :=
            flatBook_slot_unique (WF_core hwf) heb_in_L rfl hP hxbP
          have hfields : (b'.arena.getD xb Order.default).id =
              (b.arena.getD xb Order.default).id ∧
              (b'.arena.getD xb Order.default).size =
                (b.arena.getD xb Order.default).size := by
            unfold entryOf at heb_eq
            injection heb_eq with h1 h2 h3 h4
            exact ⟨h3, h4⟩
          have hid_b : (b.arena.getD xb Order.default).id = idB :=
            (WF_sound hwf _ (idsLookup_mem hxb)).2
          refine ⟨xb, P, ?_, ?_, hp'lt, hsubQ'⟩
          · have hchain := WF_chainIds hwf' P hp'lt xb hxbQ'
            rw [hfields.1, hid_b] at hchain
            exact hchain
          · rw [hfields.2]
            exact hszb

theorem fifoInv_step {idA idB : Nat} {szB : Int} {b : HalfBook} {op : HBOp}
    (hinv : fifoInv idA idB szB b) (hop : fifoOpOk idA idB b op = true) :
    fifoInv idA idB szB (applyOp b op) := by
  obtain ⟨Q, hwf, hAB⟩ := hinv
  cases op with
  | insert id price size =>
    unfold fifoOpOk at hop
    simp only [Bool.and_eq_true, beq_iff_eq, Bool.not_eq_true', beq_eq_false_iff_ne,
      ne_eq, decide_eq_true_eq] at hop
    obtain ⟨⟨⟨⟨⟨hfresh, hnA⟩, hnB⟩, hp⟩, hs⟩, hidx⟩ := hop
    obtain ⟨ai, hai_nm, hok, hwf', hmin, hmax, htick, hside, htob, hids, hord,
      hgai, hoff, hfl⟩ := insert_ok hwf hfresh hp hs hidx
    refine ⟨Q.set (b.calculate_price_index price)
      (Q.getD (b.calculate_price_index price) [] ++ [ai]), hwf', ?_⟩
    intro xa hxa
    have hxa2 : idsLookup (idsStore b.ids id ai) idA = some xa := by
      rw [← hids]
      exact hxa
    rw [idsLookup_store_ne _ _ _ _ (fun hh => hnA hh.symm)] at hxa2
    obtain ⟨xb, P, hxb, hszb, hP, hsub⟩ := hAB xa hxa2
    have hxbF : xb ∈ Q.flatten := (WF_sound hwf _ (idsLookup_mem hxb)).1
    have hxb_ai : xb ≠ ai := fun hh => hai_nm (hh ▸ hxbF)
    refine ⟨xb, P, ?_, ?_, ?_, ?_⟩
    · show idsLookup (b.insert id price size).2.ids idB = some xb
      rw [hids, idsLookup_store_ne _ _ _ _ (fun hh => hnB hh.symm)]
      exact hxb
    · show ((b.insert id price size).2.arena.getD xb Order.default).size = szB
      rw [(hoff xb hxb_ai).1]
      exact hszb
    · show P < (b.insert id price size).2.orders.length
      rw [hord, List.length_set]
      exact hP
    · by_cases hPpi : P = b.calculate_price_index price
      · subst hPpi
        rw [getD_set_self' (by rw [WF_qlen hwf]; exact hP)]
        exact hsub.trans (List.sublist_append_left _ _)
      · rw [getD_set_ne' (fun hh => hPpi hh.symm)]
        exact hsub
  | remove id =>
    unfold fifoOpOk at hop
    simp only [Bool.and_eq_true, Bool.not_eq_true', beq_eq_false_iff_ne,
      ne_eq] at hop
    obtain ⟨hnA, hnB⟩ := hop
    cases hloc : idsLookup b.ids id with
    | none =>
      have h2 : applyOp b (HBOp.remove id) = b := by
        show (b.remove id).2 = b
        rw [remove_unknown hloc]
      rw [h2]
      exact ⟨Q, hwf, hAB⟩
    | some x =>
      obtain ⟨p, l1, l2, hp, hpi, hdec, hok, hwf', hmin, hmax, htick, hside,
        hids, hfl, halen, hszid, hord⟩ := remove_ok hwf hloc
      refine ⟨Q.set p (l1 ++ l2), hwf', ?_⟩
      intro xa hxa
      have hxa2 : idsLookup (idsErase b.ids id) idA = some xa := by
        rw [← hids]
        exact hxa
      rw [idsLookup_erase_ne _ _ _ (fun hh => hnA hh.symm)] at hxa2
      obtain ⟨xb, P, hxb, hszb, hP, hsub⟩ := hAB xa hxa2
      have hxne : ∀ (k y : Nat), idsLookup b.ids k = some y → id ≠ k → x ≠ y := by
        intro k y hk hne hxy
        subst hxy
        have h1 := (WF_sound hwf _ (idsLookup_mem hloc)).2
        have h2 := (WF_sound hwf _ (idsLookup_mem hk)).2
        rw [h1] at h2
        exact hne h2
      have hxa_ne := hxne idA xa hxa2 hnA
      have hxb_ne := hxne idB xb hxb hnB
      refine ⟨xb, P, ?_, ?_, ?_, ?_⟩
      · show idsLookup (b.remove id).2.ids idB = some xb
        rw [hids, idsLookup_erase_ne _ _ _ (fun hh => hnB hh.symm)]
        exact hxb
      · show ((b.remove id).2.arena.getD xb Order.default).size = szB
        rw [(hszid xb).1]
        exact hszb
      · show P < (b.remove id).2.orders.length
        rw [hord, List.length_set]
        exact hP
      · by_cases hPp : P = p
        · subst hPp
          rw [getD_set_self' (by rw [WF_qlen hwf]; exact hP)]
          rw [hdec] at hsub
          exact sublist_pair_erase (by rw [← hdec]; exact level_nodup hwf hP)
            (fun hh => hxa_ne hh.symm) (fun hh => hxb_ne hh.symm) hsub
        · rw [getD_set_ne' (fun hh => hPp hh.symm)]
          exact hsub
  | modify id price size =>
    unfold fifoOpOk at hop
    simp only [Bool.and_eq_true, beq_iff_eq, decide_eq_true_eq] at hop
    obtain ⟨⟨hidA, hs⟩, hany⟩ := hop
    subst hidA
    cases hloc : idsLookup b.ids id with
    | none =>
      rw [hloc] at hany
      cases hany
    | some xa0 =>
      rw [hloc] at hany
      simp only [Option.any_some, beq_iff_eq] at hany
      obtain ⟨hok, hwf', heq⟩ := modify_same hwf hloc hany hs
      refine ⟨Q, hwf', ?_⟩
      intro xa hxa
      have hids : (b.modify id price size).2.ids = b.ids := by
        rw [heq]
      have hxa2 : idsLookup b.ids id = some xa := by
        rw [← hids]
        exact hxa
      have hxaeq : xa = xa0 := by
        rw [hloc] at hxa2
        injection hxa2 with hh
        exact hh.symm
      obtain ⟨xb, P, hxb, hszb, hP, hsub⟩ := hAB xa hxa2
      have hnd_pair : ([xa, xb] : List Nat).Nodup :=
        List.Nodup.sublist hsub (level_nodup hwf hP)
      have hxab : xa ≠ xb := by
        rw [List.nodup_cons] at hnd_pair
        exact fun hh => hnd_pair.1 (hh ▸ List.mem_cons_self _ _)
      refine ⟨xb, P, ?_, ?_, ?_, hsub⟩
      · show idsLookup (b.modify id price size).2.ids idB = some xb
        rw [hids]
        exact hxb
      · show ((b.modify id price size).2.arena.getD xb Order.default).size = szB
        rw [heq]
        show ((b.arena.set xa0 { b.arena.getD xa0 Order.default with
          size := size }).getD xb Order.default).size = szB
        rw [getD_set_outside (fun hh => (hxaeq ▸ hxab) hh)]
        exact hszb
      · have hlen2 : (b.modify id price size).2.orders.length =
            b.orders.length := by
          rw [heq]
          exact List.length_set _ _ _
        show P < (b.modify id price size).2.orders.length
        rw [hlen2]
        exact hP
  | matchSize size =>
    exact fifoInv_matchSize ⟨Q, hwf, hAB⟩

theorem fifoInv_runOps {idA idB : Nat} {szB : Int} :
    ∀ (ops : List HBOp) (b : HalfBook),
    fifoInv idA idB szB b → fifoOpsOk idA idB b ops = true →
    fifoInv idA idB szB (runOps b ops) := by
  intro ops
  induction ops with
  | nil =>
    intro b hinv _
    exact hinv
  | cons op rest ih =>
    intro b hinv hops
    unfold fifoOpsOk at hops
    rw [Bool.and_eq_true] at hops
    show fifoInv idA idB szB (List.foldl applyOp b (op :: rest))
    rw [List.foldl_cons]
    exact ih _ (fifoInv_step hinv hops.1) hops.2

theorem fifoInv_start {b : HalfBook} {Q : List (List Nat)} {idA idB : Nat}
    {p sA sB : Int}
    (hwf : WF b Q) (hA0 : idsLookup b.ids idA = none)
    (hB0 : idsLookup b.ids idB = none) (hAB : idA ≠ idB)
    (hp : 0 < p) (hsA : 0 < sA) (hsB : 0 < sB)
    (hidx : b.calculate_price_index p < b.orders.length) :
    fifoInv idA idB sB ((b.insert idA p sA).2.insert idB p sB).2 := by
  obtain ⟨xa, hxa_nm, hokA, hwf1, hmin1, hmax1, htick1, hside1, htob1, hids1,
    hord1, hgA, hoffA, hflA⟩ := insert_ok hwf hA0 hp hsA hidx
  have hB1 : idsLookup (b.insert idA p sA).2.ids idB = none := by
    rw [hids1, idsLookup_store_ne _ _ _ _ (fun hh => hAB hh.symm)]
    exact hB0
  have hcpie : (b.insert idA p sA).2.calculate_price_index p =
      b.calculate_price_index p := by
    unfold HalfBook.calculate_price_index
    rw [hmin1, htick1]
  have hidx1 : (b.insert idA p sA).2.calculate_price_index p <
      (b.insert idA p sA).2.orders.length := by
    rw [hcpie, hord1, List.length_set]
    exact hidx
  obtain ⟨xbv, hxb_nm, hokB, hwf2, hmin2, hmax2, htick2, hside2, htob2, hids2,
    hord2, hgB, hoffB, hflB⟩ := insert_ok hwf1 hB1 hp hsB hidx1
  refine ⟨(Q.set (b.calculate_price_index p)
      (Q.getD (b.calculate_price_index p) [] ++ [xa])).set
      ((b.insert idA p sA).2.calculate_price_index p)
      ((Q.set (b.calculate_price_index p)
        (Q.getD (b.calculate_price_index p) [] ++ [xa])).getD
        ((b.insert idA p sA).2.calculate_price_index p) [] ++ [xbv]),
    hwf2, ?_⟩
  intro xa' hxa'
  have hxa2 : idsLookup (idsStore (b.insert idA p sA).2.ids idB xbv) idA =
      some xa' := by
    rw [← hids2]
    exact hxa'
  rw [idsLookup_store_ne _ _ _ _ hAB, hids1, idsLookup_store_self] at hxa2
  injection hxa2 with hxa2
  subst hxa2
  refine ⟨xbv, b.calculate_price_index p, ?_, ?_, ?_, ?_⟩
  · rw [hids2, idsLookup_store_self]
  · rw [hgB]
  · have hl2 : ((b.insert idA p sA).2.insert idB p sB).2.orders.length =
        (b.insert idA p sA).2.orders.length := by
      rw [hord2, List.length_set]
    rw [hl2, hord1, List.length_set]
    exact hidx
  · rw [hcpie, getD_set_self' (by rw [List.length_set, WF_qlen hwf]; exact hidx),
      getD_set_self' (by rw [WF_qlen hwf]; exact hidx), List.append_assoc]
    exact List.sublist_append_right _ _

theorem insert_oob {b : HalfBook} {id : Nat} {price size : Int}
    (hp : 0 < price) (hs : 0 < size)
    (hoob : b.orders.length ≤ b.calculate_price_index price) :
    b.insert id price size =
      (Except.error outOfBoundsLevelMsg,
        match b.free_list with
        | _ :: rest => { b with free_list := rest }
        | [] => { b with arena := b.arena ++ [Order.default] }) := by
  unfold HalfBook.insert
  rw [if_neg (by omega)]
  cases hfl : b.free_list with
  | cons ai rest =>
    dsimp only
    unfold HalfBook.insertAfter
    dsimp only
    rw [List.getElem?_eq_none hoob]
  | nil =>
    dsimp only
    unfold HalfBook.insertAfter
    dsimp only
    rw [List.getElem?_eq_none hoob]

theorem remove_tobspec {b : HalfBook} {Q : List (List Nat)} {id : Nat}
    (hwf : WF b Q) : TobSpec (b.remove id).2 := by
  cases hloc : idsLookup b.ids id with
  | none =>
    rw [remove_unknown hloc]
    exact WF_tob hwf
  | some x =>
    obtain ⟨p, l1, l2, _, _, _, _, hwf', _⟩ := remove_ok hwf hloc
    exact WF_tob hwf'

theorem match_size_tobspec {b : HalfBook} {Q : List (List Nat)} {size : Int}
    {fuel : Nat} (hwf : WF b Q) (hfuel : totalCount Q + 3 ≤ fuel) :
    TobSpec (HalfBook.match_size fuel b size).2 := by
  by_cases hz : size = 0
  · rw [hz, match_size_zero]
    exact WF_tob hwf
  · obtain ⟨b', Q', hrun, hwf', _⟩ := match_size_sim hwf hz hfuel
    rw [hrun]
    exact WF_tob hwf'

/-! ## Claim theorems -/

/-- C1: for every well-formed book and every size > 0, `match_size` returns
success with exactly the notional of the spec's best-first FIFO consumption
of the flattened book (each step trading `min(size, head.size)` at the
level price, dropping fully consumed orders), leaves a well-formed book
(so orders are unlinked, ids erased, slots freed, and `top_of_book`
rescanned correctly), and the remaining flattened book is the spec
consumption's remainder; draining the book before `size` is satisfied is
still a success. -/
theorem claim_match_size_spec {b : HalfBook} {Q : List (List Nat)} {size : Int}
    {fuel : Nat} (hwf : WF b Q) (hs : 0 < size)
    (hfuel : totalCount Q + 3 ≤ fuel) :
    ∃ b' Q',
      HalfBook.match_size fuel b size =
        (Except.ok ((specConsume (flatBook b Q) size).1), b') ∧
      WF b' Q' ∧
      flatBook b' Q' = (specConsume (flatBook b Q) size).2.2 := by
  obtain ⟨b', Q', h1, h2, h3, _⟩ := match_size_sim hwf (ne_of_gt hs) hfuel
  exact ⟨b', Q', h1, h2, h3⟩

/-- Witness for C1 at a concrete one-order book. -/
theorem claim_match_size_spec_witness :
    (WF (((HalfBook.new Side.Sell 3 1 1).insert 5 2 3).2) [[], [2], []] ∧
      (0 : Int) < 1 ∧ totalCount [[], [2], []] + 3 ≤ 4) ∧
    ∃ b' Q',
      HalfBook.match_size 4 (((HalfBook.new Side.Sell 3 1 1).insert 5 2 3).2) 1 =
        (Except.ok ((specConsume
          (flatBook (((HalfBook.new Side.Sell 3 1 1).insert 5 2 3).2)
            [[], [2], []]) 1).1), b') ∧
      WF b' Q' ∧
      flatBook b' Q' = (specConsume
        (flatBook (((HalfBook.new Side.Sell 3 1 1).insert 5 2 3).2)
          [[], [2], []]) 1).2.2 :=
  ⟨⟨by decide, by decide, by decide⟩,
    claim_match_size_spec (by decide) (by decide) (by decide)⟩

/-- C3: after any sequence of `accept_order` calls (with i64-representable
limit prices) on a fresh `Orderbook`, whenever both best bid and best ask
exist, the best bid's price is strictly below the best ask's price. -/
theorem claim_no_crossed_book (l : List (Nat × OrderTicket))
    (hall : l.all (fun pr => ticketI64 pr.2) = true) :
    notCrossedB (runTickets l) = true := by
  have h := runTickets_obInv l hall Orderbook.new obInv_new
  exact notCrossed_of_obInv h

/-- Witness for C3 on a two-ticket sequence. -/
theorem claim_no_crossed_book_witness :
    ([((5 : Nat), (⟨OrderType.Limit 3, 2, Side.Buy⟩ : OrderTicket)),
      (9, ⟨OrderType.Limit 7, 1, Side.Sell⟩)].all
        (fun pr => ticketI64 pr.2) = true) ∧
    notCrossedB (runTickets
      [((5 : Nat), (⟨OrderType.Limit 3, 2, Side.Buy⟩ : OrderTicket)),
        (9, ⟨OrderType.Limit 7, 1, Side.Sell⟩)]) = true :=
  ⟨by decide, claim_no_crossed_book _ (by decide)⟩

/-- C4 (amended): `top_of_book` names the best populated level (none iff
the book is empty) after every completed insert of a valid fresh order,
after every `remove`, and after every sufficiently fuelled `match_size`
on a well-formed book — but not after `modify` (see the counterexample:
an in-place modify to size 0 leaves a stale top). -/
theorem claim_tob_correct_amended :
    (∀ (b : HalfBook) (Q : List (List Nat)) (id : Nat) (price size : Int),
      WF b Q → idsLookup b.ids id = none → 0 < price → 0 < size →
      b.calculate_price_index price < b.orders.length →
      TobSpec (b.insert id price size).2) ∧
    (∀ (b : HalfBook) (Q : List (List Nat)) (id : Nat), WF b Q →
      TobSpec (b.remove id).2) ∧
    (∀ (b : HalfBook) (Q : List (List Nat)) (size : Int) (fuel : Nat),
      WF b Q → totalCount Q + 3 ≤ fuel →
      TobSpec (HalfBook.match_size fuel b size).2) := by
  refine ⟨?_, ?_, ?_⟩
  · intro b Q id price size hwf hid hp hs hidx
    obtain ⟨ai, _, _, hwf', _⟩ := insert_ok hwf hid hp hs hidx
    exact WF_tob hwf'
  · intro b Q id hwf
    exact remove_tobspec hwf
  · intro b Q size fuel hwf hfuel
    exact match_size_tobspec hwf hfuel

/-- Witness for C4 on a concrete insert. -/
theorem claim_tob_correct_amended_witness :
    WF (HalfBook.new Side.Sell 3 1 1) (List.replicate 3 []) ∧
    TobSpec ((HalfBook.new Side.Sell 3 1 1).insert 5 2 3).2 :=
  ⟨by decide, claim_tob_correct_amended.1 _ (List.replicate 3 []) 5 2 3
    (by decide) (by decide) (by decide) (by decide) (by decide)⟩

/-- Counterexample to C4 as stated: a completed (ok) in-place `modify` to
size 0 leaves `top_of_book` pointing at an empty level, so the cached top
is not the best populated level and is not none on an all-empty book. -/
theorem claim_tob_correct_cex :
    ((((HalfBook.new Side.Sell 3 1 1).insert 5 2 3).2.modify 5 2 0).1 =
      Except.ok () ∧
    tobCorrectB ((((HalfBook.new Side.Sell 3 1 1).insert 5 2 3).2.modify
      5 2 0).2) = false) :=
  ⟨by rfl, by decide⟩

/-- C5: insert maker A then maker B at the same price on the same side of
a well-formed book; then under any sequence of legal intervening
operations — valid fresh inserts of other orders, cancels of other
orders, in-place positive-size modifies of A, and matches of any size —
whenever A still rests, B still rests with its original size untouched:
A is consumed entirely before B contributes any quantity, and same-price
modification of A does not reset its priority. -/
theorem claim_fifo_priority {b : HalfBook} {Q : List (List Nat)} {idA idB : Nat}
    {p sA sB : Int} (ops : List HBOp)
    (hwf : WF b Q) (hA0 : idsLookup b.ids idA = none)
    (hB0 : idsLookup b.ids idB = none) (hAB : idA ≠ idB)
    (hp : 0 < p) (hsA : 0 < sA) (hsB : 0 < sB)
    (hidx : b.calculate_price_index p < b.orders.length)
    (hops : fifoOpsOk idA idB ((b.insert idA p sA).2.insert idB p sB).2 ops
      = true) :
    ∀ xa, idsLookup (runOps ((b.insert idA p sA).2.insert idB p sB).2 ops).ids
        idA = some xa →
      ∃ xb, idsLookup (runOps ((b.insert idA p sA).2.insert idB p sB).2
          ops).ids idB = some xb ∧
        ((runOps ((b.insert idA p sA).2.insert idB p sB).2 ops).arena.getD xb
          Order.default).size = sB := by
  intro xa hxa
  obtain ⟨Q', hwf', hcond⟩ := fifoInv_runOps ops _
    (fifoInv_start hwf hA0 hB0 hAB hp hsA hsB hidx) hops
  obtain ⟨xb, P, hxb, hsz, _, _⟩ := hcond xa hxa
  exact ⟨xb, hxb, hsz⟩

/-- Witness for C5: a partial match against A leaves B untouched. -/
theorem claim_fifo_priority_witness :
    (fifoOpsOk 1 2 (((HalfBook.new Side.Sell 3 1 1).insert 1 2 2).2.insert
      2 2 5).2 [HBOp.matchSize 1] = true) ∧
    ∃ xb, idsLookup (runOps (((HalfBook.new Side.Sell 3 1 1).insert
        1 2 2).2.insert 2 2 5).2 [HBOp.matchSize 1]).ids 2 = some xb ∧
      ((runOps (((HalfBook.new Side.Sell 3 1 1).insert 1 2 2).2.insert
        2 2 5).2 [HBOp.matchSize 1]).arena.getD xb Order.default).size = 5 :=
  ⟨by decide, @claim_fifo_priority (HalfBook.new Side.Sell 3 1 1)
    (List.replicate 3 []) 1 2 2 2 5
    [HBOp.matchSize 1] (by decide) (by decide) (by decide) (by decide)
    (by decide) (by decide) (by decide) (by decide) (by decide) 2 (by decide)⟩

/-- C6 (amended): `insert` rejects non-positive price or size with
`InvalidOrder`, and `match_size` rejects exactly size 0; there is no
tick-alignment check, no size check in `modify`, and no negative-size
check in `match_size` (see the counterexample). -/
theorem claim_input_validation :
    (∀ (b : HalfBook) (id : Nat) (price size : Int), price ≤ 0 ∨ size ≤ 0 →
      b.insert id price size = (Except.error invalidOrderMsg, b)) ∧
    (∀ (fuel : Nat) (b : HalfBook),
      HalfBook.match_size fuel b 0 = (Except.error invalidOrderMsg, b)) :=
  ⟨fun _ _ _ _ h => insert_invalid h, fun fuel b => match_size_zero fuel b⟩

/-- Witness for C6 on a concrete invalid insert. -/
theorem claim_input_validation_witness :
    ((-1 : Int) ≤ 0 ∨ (5 : Int) ≤ 0) ∧
    (HalfBook.new Side.Sell 3 1 1).insert 7 (-1) 5 =
      (Except.error invalidOrderMsg, HalfBook.new Side.Sell 3 1 1) :=
  ⟨Or.inl (by decide), claim_input_validation.1 _ 7 (-1) 5 (Or.inl (by decide))⟩

/-- Counterexample to C6 as stated: a tick-misaligned in-range insert is
accepted, an in-place modify to size 0 is accepted, and a negative-size
match returns success. -/
theorem claim_input_validation_cex :
    ((HalfBook.new Side.Sell 9 1 2).insert 3 4 5).1 = Except.ok () ∧
    (((HalfBook.new Side.Sell 9 1 2).insert 3 4 5).2.modify 3 4 0).1 =
      Except.ok () ∧
    (HalfBook.match_size 5 (HalfBook.new Side.Sell 9 1 2) (-1)).1 =
      Except.ok 0 :=
  ⟨by rfl, by rfl, by rfl⟩

/-- C7: the code's level price ignores `tick_size`:
`get_price_from_index i = i + min_price`, which is not the inverse of
`calculate_price_index p = (p - min_price) / tick_size` whenever
`tick_size ≠ 1` — here index 1 of a tick-2 ladder prices at 2 although
`MIN_PRICE + i·TICK_SIZE` says 3, and price 3 maps to index 1. -/
theorem claim_price_from_index_bug :
    (HalfBook.new Side.Sell 9 1 2).get_price_from_index 1 = 2 ∧
    (HalfBook.new Side.Sell 9 1 2).min_price +
      1 * (HalfBook.new Side.Sell 9 1 2).tick_size = 3 ∧
    (HalfBook.new Side.Sell 9 1 2).calculate_price_index 3 = 1 := by
  refine ⟨by decide, by decide, by decide⟩

/-- C8 (amended): the validation-error paths return the book unchanged —
invalid insert arguments, unknown id in `remove` or `modify`, and zero
size in `match_size` — but an error is not in general mutation-free: a
cross-price `modify` whose re-insert fails destroys the resting order
(see the counterexample), and an out-of-range insert consumes an arena
slot. -/
theorem claim_error_frame :
    (∀ (b : HalfBook) (id : Nat) (price size : Int), price ≤ 0 ∨ size ≤ 0 →
      b.insert id price size = (Except.error invalidOrderMsg, b)) ∧
    (∀ (b : HalfBook) (id : Nat), idsLookup b.ids id = none →
      b.remove id = (Except.error idNotInIdsMsg, b)) ∧
    (∀ (b : HalfBook) (id : Nat) (price size : Int),
      idsLookup b.ids id = none →
      b.modify id price size = (Except.error idNotInIdsMsg, b)) ∧
    (∀ (fuel : Nat) (b : HalfBook),
      HalfBook.match_size fuel b 0 = (Except.error invalidOrderMsg, b)) :=
  ⟨fun _ _ _ _ h => insert_invalid h, fun _ _ h => remove_unknown h,
    fun _ _ _ _ h => modify_unknown h, fun fuel b => match_size_zero fuel b⟩

/-- Witness for C8 on a concrete unknown-id remove. -/
theorem claim_error_frame_witness :
    idsLookup (HalfBook.new Side.Sell 3 1 1).ids 9 = none ∧
    (HalfBook.new Side.Sell 3 1 1).remove 9 =
      (Except.error idNotInIdsMsg, HalfBook.new Side.Sell 3 1 1) :=
  ⟨by decide, claim_error_frame.2.1 _ 9 (by decide)⟩

/-- Counterexample to C8 as stated: a `modify` of a resting order to an
out-of-range price returns an error, yet the order is gone — its id
binding is dropped and `top_of_book` has moved. -/
theorem claim_error_frame_cex :
    ((((HalfBook.new Side.Sell 3 1 1).insert 5 2 3).2.modify 5 99 3).1 =
      Except.error outOfBoundsLevelMsg) ∧
    idsLookup ((((HalfBook.new Side.Sell 3 1 1).insert 5 2 3).2.modify
      5 99 3).2).ids 5 = none ∧
    (((HalfBook.new Side.Sell 3 1 1).insert 5 2 3).2).top_of_book = some 1 ∧
    ((((HalfBook.new Side.Sell 3 1 1).insert 5 2 3).2.modify
      5 99 3).2).top_of_book = none :=
  ⟨by rfl, by decide, by decide, by decide⟩

/-- C9: inserting a fresh valid order and immediately removing it returns
the book to its prior observable state: both calls succeed, the result is
well-formed with the original FIFO witness, and `top_of_book`, every
level's `total_size`, and `get_total_liquidity` are restored. -/
theorem claim_insert_remove_roundtrip {b : HalfBook} {Q : List (List Nat)}
    {id : Nat} {price size : Int}
    (hwf : WF b Q) (hid : idsLookup b.ids id = none) (hp : 0 < price)
    (hs : 0 < size) (hidx : b.calculate_price_index price < b.orders.length) :
    (b.insert id price size).1 = Except.ok () ∧
    ((b.insert id price size).2.remove id).1 = Except.ok () ∧
    WF ((b.insert id price size).2.remove id).2 Q ∧
    ((b.insert id price size).2.remove id).2.top_of_book = b.top_of_book ∧
    (∀ r, ((((b.insert id price size).2.remove id).2.orders.getD r
        PriceLevel.default).total_size =
      (b.orders.getD r PriceLevel.default).total_size)) ∧
    ((b.insert id price size).2.remove id).2.get_total_liquidity =
      b.get_total_liquidity :=
  insert_remove_roundtrip hwf hid hp hs hidx

/-- Witness for C9 on a concrete book. -/
theorem claim_insert_remove_roundtrip_witness :
    (WF (HalfBook.new Side.Sell 3 1 1) (List.replicate 3 []) ∧
      idsLookup (HalfBook.new Side.Sell 3 1 1).ids 5 = none ∧
      (0 : Int) < 2 ∧ (0 : Int) < 3 ∧
      (HalfBook.new Side.Sell 3 1 1).calculate_price_index 2 <
        (HalfBook.new Side.Sell 3 1 1).orders.length) ∧
    (((HalfBook.new Side.Sell 3 1 1).insert 5 2 3).1 = Except.ok () ∧
      (((HalfBook.new Side.Sell 3 1 1).insert 5 2 3).2.remove 5).1 =
        Except.ok () ∧
      WF (((HalfBook.new Side.Sell 3 1 1).insert 5 2 3).2.remove 5).2
        (List.replicate 3 []) ∧
      (((HalfBook.new Side.Sell 3 1 1).insert 5 2 3).2.remove
        5).2.top_of_book = (HalfBook.new Side.Sell 3 1 1).top_of_book ∧
      (∀ r, (((((HalfBook.new Side.Sell 3 1 1).insert 5 2 3).2.remove
          5).2).orders.getD r PriceLevel.default).total_size =
        ((HalfBook.new Side.Sell 3 1 1).orders.getD r
          PriceLevel.default).total_size) ∧
      (((HalfBook.new Side.Sell 3 1 1).insert 5 2 3).2.remove
        5).2.get_total_liquidity =
        (HalfBook.new Side.Sell 3 1 1).get_total_liquidity) :=
  ⟨⟨by decide, by decide, by decide, by decide, by decide⟩,
    claim_insert_remove_roundtrip (by decide) (by decide) (by decide)
      (by decide) (by decide)⟩

/-- C10: an insert that passes the positivity checks but maps outside the
ladder fails with `OutOfBoundsLevel` and leaves the levels, ids and top
untouched, yet has already taken an arena slot: the head of the free
list is gone (or, with an empty free list, the arena has grown by one
orphaned record) and the slot is never linked nor returned. -/
theorem claim_insert_slot_leak {b : HalfBook} {id : Nat} {price size : Int}
    (hp : 0 < price) (hs : 0 < size)
    (hoob : b.orders.length ≤ b.calculate_price_index price) :
    b.insert id price size =
      (Except.error outOfBoundsLevelMsg,
        match b.free_list with
        | _ :: rest => { b with free_list := rest }
        | [] => { b with arena := b.arena ++ [Order.default] }) :=
  insert_oob hp hs hoob

/-- Witness for C10 on a concrete out-of-range insert. -/
theorem claim_insert_slot_leak_witness :
    ((0 : Int) < 99 ∧ (0 : Int) < 5 ∧
      (HalfBook.new Side.Sell 3 1 1).orders.length ≤
        (HalfBook.new Side.Sell 3 1 1).calculate_price_index 99) ∧
    (HalfBook.new Side.Sell 3 1 1).insert 7 99 5 =
      (Except.error outOfBoundsLevelMsg,
        match (HalfBook.new Side.Sell 3 1 1).free_list with
        | _ :: rest => { HalfBook.new Side.Sell 3 1 1 with free_list := rest }
        | [] => { HalfBook.new Side.Sell 3 1 1 with
            arena := (HalfBook.new Side.Sell 3 1 1).arena ++
              [Order.default] }) :=
  ⟨⟨by decide, by decide, by decide⟩,
    claim_insert_slot_leak (by decide) (by decide) (by decide)⟩
